import Mathlib

/-!
Verification of the scene-graph / keyframe-animation core of the `diomanim`
animation engine.  Rust `f32` values are modelled as exact rationals (`ℚ`);
all claims under verification concern the algorithmic structure (control flow,
exact boundary values, list/graph manipulation), where rational arithmetic is
a faithful model of the float operations actually performed.

The definitions mirror the Rust source:
  * `src/core/time.rs`        (`TimeValue` operations),
  * `src/core/vector.rs`      (`Vector3`),
  * `src/core/color.rs`       (`Color`),
  * `src/core/transform.rs`   (`Quaternion`, `Transform`),
  * `src/animation/property.rs`
      (`Keyframe`, `InterpolationType`, `AnimationTrack`, `AnimationClip`,
       `AnyTrack`, `AnimationSample`, `AnimationInstance`),
  * `src/animation/effects.rs` (effect constructors),
  * `src/scene/mod.rs`        (`SceneNode`, `SceneGraph`).

Rust panics (out-of-bounds indexing) are modelled by `Option`; `HashMap` is
modelled by an association list with unique keys; unbounded recursion over the
node graph is modelled with explicit fuel, always instantiated with a bound
that is sufficient for all acyclic graphs (and the relevant theorems carry the
acyclicity invariant).
-/

set_option autoImplicit false

namespace Diomanim

/-- Rust `f32::clamp(lo, hi)`: `lo` if below, `hi` if above, the value otherwise. -/
def fclamp (x lo hi : ℚ) : ℚ :=
  if x < lo then lo else if x > hi then hi else x

/-- Truncation toward zero, as Rust float-to-integer truncation does. -/
def ftrunc (x : ℚ) : ℤ :=
  if 0 ≤ x then ⌊x⌋ else ⌈x⌉

/-- Rust `%` on floats: `a - b * trunc (a / b)` (truncated remainder). -/
def frem (a b : ℚ) : ℚ :=
  a - b * ftrunc (a / b)

/-- `TimeValue::new`: clamps the wrapped seconds value to be non-negative. -/
def TimeValue.new (v : ℚ) : ℚ :=
  max v 0

/-- `impl Sub for TimeValue`: subtraction routed through `TimeValue::new`. -/
def TimeValue.sub (a b : ℚ) : ℚ :=
  TimeValue.new (a - b)

/-- `impl Add for TimeValue`: addition routed through `TimeValue::new`. -/
def TimeValue.add (a b : ℚ) : ℚ :=
  TimeValue.new (a + b)

/-- `impl Rem for TimeValue`: zero divisor yields 0, otherwise float remainder. -/
def TimeValue.rem (a b : ℚ) : ℚ :=
  if b = 0 then TimeValue.new 0 else TimeValue.new (frem a b)

/-- `Vector3 { x, y, z }` of `src/core/vector.rs`. -/
structure Vector3 where
  x : ℚ
  y : ℚ
  z : ℚ
deriving DecidableEq, Repr

def Vector3.zero : Vector3 := ⟨0, 0, 0⟩

def Vector3.one : Vector3 := ⟨1, 1, 1⟩

instance : Add Vector3 :=
  ⟨fun a b => ⟨a.x + b.x, a.y + b.y, a.z + b.z⟩⟩

theorem Vector3.add_def (a b : Vector3) :
    a + b = ⟨a.x + b.x, a.y + b.y, a.z + b.z⟩ := rfl

/-- `Color { r, g, b, a }` of `src/core/color.rs`. -/
structure Color where
  r : ℚ
  g : ℚ
  b : ℚ
  a : ℚ
deriving DecidableEq, Repr

def Color.BLACK : Color := ⟨0, 0, 0, 1⟩

/-- `Quaternion { x, y, z, w }` of `src/core/transform.rs`. -/
structure Quaternion where
  x : ℚ
  y : ℚ
  z : ℚ
  w : ℚ
deriving DecidableEq, Repr

def Quaternion.identity : Quaternion := ⟨0, 0, 0, 1⟩

/-- `Transform { position, rotation, scale }` of `src/core/transform.rs`. -/
structure Transform where
  position : Vector3
  rotation : Quaternion
  scale : Vector3
deriving DecidableEq, Repr

/-- `Transform::new()`: identity placement. -/
def Transform.new : Transform :=
  ⟨Vector3.zero, Quaternion.identity, Vector3.one⟩

/-- The `Animatable` trait: linear interpolation plus a default value. -/
class Animatable (T : Type) where
  lerp : T → T → ℚ → T
  default_value : T

/-- `impl Animatable for Vector3`. -/
instance : Animatable Vector3 where
  lerp a b t := ⟨a.x + (b.x - a.x) * t, a.y + (b.y - a.y) * t, a.z + (b.z - a.z) * t⟩
  default_value := ⟨0, 0, 0⟩

/-- `impl Animatable for Color`. -/
instance : Animatable Color where
  lerp a b t := ⟨a.r + (b.r - a.r) * t, a.g + (b.g - a.g) * t,
                 a.b + (b.b - a.b) * t, a.a + (b.a - a.a) * t⟩
  default_value := Color.BLACK

/-- `InterpolationType` of `src/animation/property.rs`. -/
inductive InterpolationType where
  | Linear
  | Step
  | EaseIn
  | EaseOut
  | EaseInOut
deriving DecidableEq, Repr

/-- `InterpolationType::apply`, the easing functions, verbatim from the source. -/
def InterpolationType.apply (i : InterpolationType) (t : ℚ) : ℚ :=
  match i with
  | .Linear => t
  | .Step => if t ≥ 1 then 1 else 0
  | .EaseIn => t * t
  | .EaseOut => 1 - (1 - t) * (1 - t)
  | .EaseInOut => if t < 1/2 then 2 * t * t else 1 - (-2 * t + 2) ^ 2 / 2

/-- `Keyframe<T>`: a time, a value, and the easing used toward the next keyframe. -/
structure Keyframe (T : Type) where
  time : ℚ
  value : T
  interpolation : InterpolationType
deriving DecidableEq, Repr

/-- `Keyframe::new`: default interpolation is `Linear`. -/
def Keyframe.new {T : Type} (time : ℚ) (value : T) : Keyframe T :=
  ⟨time, value, .Linear⟩

/-- `AnimationTrack<T>`: a named keyframe sequence with a default value. -/
structure AnimationTrack (T : Type) where
  name : String
  keyframes : List (Keyframe T)
  default_value : T
deriving DecidableEq, Repr

/-- `AnimationTrack::new` (default value from the `Animatable` instance). -/
def AnimationTrack.new (T : Type) [Animatable T] (name : String) : AnimationTrack T :=
  ⟨name, [], Animatable.default_value⟩

/-- Stable insertion by time: a new element goes before the first strictly
later element and after earlier-or-equal ones. -/
def insertKF {T : Type} (kf : Keyframe T) : List (Keyframe T) → List (Keyframe T)
  | [] => [kf]
  | y :: ys => if kf.time ≤ y.time then kf :: y :: ys else y :: insertKF kf ys

/-- Stable insertion sort by keyframe time.  The Rust source uses the standard
library's stable sort (`sort_by` with `partial_cmp` on times); since the output
of a stable sort is uniquely determined, this structurally recursive stable
sort computes exactly the same list. -/
def sortKF {T : Type} : List (Keyframe T) → List (Keyframe T)
  | [] => []
  | k :: rest => insertKF k (sortKF rest)

/-- `AnimationTrack::add_keyframe`: push, then stable-sort by time. -/
def AnimationTrack.add_keyframe {T : Type} (tr : AnimationTrack T) (kf : Keyframe T) :
    AnimationTrack T :=
  { tr with keyframes := sortKF (tr.keyframes ++ [kf]) }

/-- The surrounding-keyframes scan of `AnimationTrack::sample` (the `while` loop
followed by the indexing `kf0 = keyframes[i]`, `kf1 = keyframes[i+1]`).
`none` models the out-of-bounds panic that would occur if the scan ran off the
end of the keyframe list. -/
def findSeg {T : Type} (time : ℚ) : List (Keyframe T) → Option (Keyframe T × Keyframe T)
  | [] => none
  | [_] => none
  | k0 :: k1 :: rest =>
    if k1.time ≤ time then findSeg time (k1 :: rest) else some (k0, k1)

/-- `AnimationTrack::sample`.  `none` models a panic (which, as proved below,
never happens). -/
def AnimationTrack.sample {T : Type} [Animatable T] (tr : AnimationTrack T) (time : ℚ) :
    Option T :=
  match tr.keyframes with
  | [] => some tr.default_value
  | k0 :: rest =>
    if time ≤ k0.time then some k0.value
    else
      let last := (k0 :: rest).getLast (List.cons_ne_nil _ _)
      if last.time ≤ time then some last.value
      else
        (findSeg time (k0 :: rest)).map fun kf01 =>
          let kf0 := kf01.1
          let kf1 := kf01.2
          let duration := TimeValue.sub kf1.time kf0.time
          if duration ≤ 0 then kf0.value
          else
            let t_raw := TimeValue.sub time kf0.time / duration
            let t := kf0.interpolation.apply t_raw
            Animatable.lerp kf0.value kf1.value t

/-- Total version of the scan, used to show `sample` never returns `none`. -/
def findSegT {T : Type} (time : ℚ) (k0 : Keyframe T) :
    List (Keyframe T) → Keyframe T × Keyframe T
  | [] => (k0, k0)
  | k1 :: rest => if k1.time ≤ time then findSegT time k1 rest else (k0, k1)

/-- Total version of `AnimationTrack::sample`, extensionally equal to `sample`
(see `sample_eq_some_sampleT`). -/
def AnimationTrack.sampleT {T : Type} [Animatable T] (tr : AnimationTrack T) (time : ℚ) : T :=
  match tr.keyframes with
  | [] => tr.default_value
  | k0 :: rest =>
    if time ≤ k0.time then k0.value
    else
      let last := (k0 :: rest).getLast (List.cons_ne_nil _ _)
      if last.time ≤ time then last.value
      else
        let kf01 := findSegT time k0 rest
        let kf0 := kf01.1
        let kf1 := kf01.2
        let duration := TimeValue.sub kf1.time kf0.time
        if duration ≤ 0 then kf0.value
        else
          let t_raw := TimeValue.sub time kf0.time / duration
          let t := kf0.interpolation.apply t_raw
          Animatable.lerp kf0.value kf1.value t

/-- The easing table exactly as the specification states it
(Linear→t; Step→(t≥1 ? 1 : 0); EaseIn→t²; EaseOut→1−(1−t)²;
EaseInOut→ t<0.5 ? 2t² : 1−(−2t+2)²/2). -/
def specApply (i : InterpolationType) (t : ℚ) : ℚ :=
  match i with
  | .Linear => t
  | .Step => if t ≥ 1 then 1 else 0
  | .EaseIn => t ^ 2
  | .EaseOut => 1 - (1 - t) ^ 2
  | .EaseInOut => if t < 1/2 then 2 * t ^ 2 else 1 - (-2 * t + 2) ^ 2 / 2

/-- The adjacent-pair search of the specification's reference algorithm:
the adjacent pair `(kf0, kf1)` with `kf0.time ≤ time < kf1.time`. -/
def specFindAdj {T : Type} (time : ℚ) : List (Keyframe T) → Option (Keyframe T × Keyframe T)
  | k0 :: k1 :: rest =>
    if k0.time ≤ time ∧ time < k1.time then some (k0, k1)
    else specFindAdj time (k1 :: rest)
  | _ => none

/-- The reference sampling algorithm of specification §4.1, stated from the
spec's words: empty track → default; clamp at both boundaries; otherwise find
the adjacent pair, guard the degenerate segment, ease, and lerp. -/
def specSample {T : Type} [Animatable T] (tr : AnimationTrack T) (time : ℚ) : Option T :=
  match tr.keyframes with
  | [] => some tr.default_value
  | k0 :: rest =>
    if time ≤ k0.time then some k0.value
    else
      let last := (k0 :: rest).getLast (List.cons_ne_nil _ _)
      if last.time ≤ time then some last.value
      else
        (specFindAdj time (k0 :: rest)).map fun kf01 =>
          let kf0 := kf01.1
          let kf1 := kf01.2
          let den := kf1.time - kf0.time
          if den ≤ 0 then kf0.value
          else
            let raw := (time - kf0.time) / den
            Animatable.lerp kf0.value kf1.value (specApply kf0.interpolation raw)

/-- The scan of `sample` agrees with its total version, with the spec's
adjacent-pair search, and returns a pair bracketing `time`, whenever the head
keyframe is at or before `time` and the last keyframe is strictly after it. -/
theorem findSeg_spec {T : Type} (time : ℚ) (l : List (Keyframe T)) :
    ∀ k0 : Keyframe T, k0.time ≤ time →
      time < ((k0 :: l).getLast (List.cons_ne_nil _ _)).time →
      findSeg time (k0 :: l) = some (findSegT time k0 l) ∧
      specFindAdj time (k0 :: l) = some (findSegT time k0 l) ∧
      (findSegT time k0 l).1.time ≤ time ∧ time < (findSegT time k0 l).2.time := by
  induction l with
  | nil =>
    intro k0 hle hlt
    simp [List.getLast] at hlt
    exact absurd hle (not_le.mpr hlt)
  | cons k1 rest ih =>
    intro k0 hle hlt
    have hlast : ((k0 :: k1 :: rest).getLast (List.cons_ne_nil _ _)).time
        = ((k1 :: rest).getLast (List.cons_ne_nil _ _)).time := by
      simp [List.getLast]
    rw [hlast] at hlt
    by_cases h1 : k1.time ≤ time
    · have hT : findSegT time k0 (k1 :: rest) = findSegT time k1 rest := by
        simp [findSegT, h1]
      have := ih k1 h1 hlt
      rw [hT]
      refine ⟨?_, ?_, this.2.2.1, this.2.2.2⟩
      · simpa [findSeg, h1] using this.1
      · have hnot : ¬(k0.time ≤ time ∧ time < k1.time) := by
          intro hc; exact absurd h1 (not_le.mpr hc.2)
        simpa [specFindAdj, hnot] using this.2.1
    · have h1' : time < k1.time := not_le.mp h1
      have hT : findSegT time k0 (k1 :: rest) = (k0, k1) := by
        simp [findSegT, h1]
      rw [hT]
      refine ⟨?_, ?_, hle, h1'⟩
      · simp [findSeg, h1]
      · simp [specFindAdj, hle, h1']

/-- `sample` never hits its panic case: it always returns `some`, namely the
value computed by the total variant `sampleT`. -/
theorem sample_eq_some_sampleT {T : Type} [Animatable T] (tr : AnimationTrack T) (time : ℚ) :
    tr.sample time = some (tr.sampleT time) := by
  unfold AnimationTrack.sample AnimationTrack.sampleT
  match h : tr.keyframes with
  | [] => rfl
  | k0 :: rest =>
    by_cases h0 : time ≤ k0.time
    · simp [h0]
    · by_cases hl : ((k0 :: rest).getLast (List.cons_ne_nil _ _)).time ≤ time
      · simp [h0, hl]
      · have hfs := findSeg_spec time rest k0 (le_of_lt (not_le.mp h0)) (not_le.mp hl)
        simp only [h0, if_false, hl]
        rw [hfs.1]
        rfl

/-- The easing functions of the source agree with the spec's easing table. -/
theorem apply_eq_specApply (i : InterpolationType) (t : ℚ) :
    i.apply t = specApply i t := by
  cases i <;>
    first
      | rfl
      | (simp only [InterpolationType.apply, specApply]; ring_nf)

/-- `sample` computes exactly the reference algorithm `specSample`. -/
theorem sample_eq_specSample {T : Type} [Animatable T] (tr : AnimationTrack T) (time : ℚ) :
    tr.sample time = specSample tr time := by
  unfold AnimationTrack.sample specSample
  match h : tr.keyframes with
  | [] => rfl
  | k0 :: rest =>
    by_cases h0 : time ≤ k0.time
    · simp [h0]
    · by_cases hl : ((k0 :: rest).getLast (List.cons_ne_nil _ _)).time ≤ time
      · simp [h0, hl]
      · have hfs := findSeg_spec time rest k0 (le_of_lt (not_le.mp h0)) (not_le.mp hl)
        simp only [h0, if_false, hl]
        rw [hfs.1, hfs.2.1]
        simp only [Option.map_some']
        congr 1
        set kf0 := (findSegT time k0 rest).1 with hkf0
        set kf1 := (findSegT time k0 rest).2 with hkf1
        have hb0 : kf0.time ≤ time := hfs.2.2.1
        by_cases hd : kf1.time - kf0.time ≤ 0
        · have hdur : TimeValue.sub kf1.time kf0.time ≤ 0 := by
            simp [TimeValue.sub, TimeValue.new]
            linarith
          simp [hdur, hd]
        · have hd' : 0 < kf1.time - kf0.time := not_le.mp hd
          have hdur : TimeValue.sub kf1.time kf0.time = kf1.time - kf0.time := by
            simp [TimeValue.sub, TimeValue.new]
            linarith
          have hdurpos : ¬ TimeValue.sub kf1.time kf0.time ≤ 0 := by
            rw [hdur]; exact hd
          have hnum : TimeValue.sub time kf0.time = time - kf0.time := by
            simp [TimeValue.sub, TimeValue.new]
            linarith
          simp only [hdurpos, if_false, hd, hdur, hnum]
          rw [apply_eq_specApply]

/-- Claim C1: for every `AnimationTrack<T>` and every time, `sample(time)` is
total (never panics: the `Option` modelling indexing panics is always `some`)
and equals the reference algorithm of spec §4.1 (`specSample`): empty track →
`default_value`; clamp at the first/last keyframe; otherwise locate the
adjacent pair `(kf0, kf1)` with `kf0.time ≤ time < kf1.time`, guard a
non-positive denominator by returning `kf0.value`, apply `kf0`'s easing
(Linear→t; Step→(t≥1?1:0); EaseIn→t²; EaseOut→1−(1−t)²;
EaseInOut→ t<0.5 ? 2t² : 1−(−2t+2)²/2), and lerp. -/
theorem c1_track_sampling :
    (∀ (T : Type) [Animatable T] (tr : AnimationTrack T) (time : ℚ),
        (tr.sample time).isSome) ∧
    (∀ (T : Type) [Animatable T] (tr : AnimationTrack T) (time : ℚ),
        tr.sample time = specSample tr time) ∧
    (∀ (i : InterpolationType) (t : ℚ), i.apply t = specApply i t) := by
  refine ⟨?_, ?_, apply_eq_specApply⟩
  · intro T inst tr time
    rw [sample_eq_some_sampleT]
    rfl
  · intro T inst tr time
    exact sample_eq_specSample tr time

/-- `AnimationTrack::duration`: last keyframe time minus first keyframe time. -/
def AnimationTrack.duration {T : Type} (tr : AnimationTrack T) : ℚ :=
  match tr.keyframes with
  | [] => TimeValue.new 0
  | k0 :: rest =>
    TimeValue.sub ((k0 :: rest).getLast (List.cons_ne_nil _ _)).time k0.time

/-- A type-erased value stored in an `AnimationSample` (`Box<dyn Any>`). -/
inductive AnyValue where
  | vec3 (v : Vector3)
  | color (c : Color)
deriving DecidableEq, Repr

/-- `AnimationSample`: property-name-keyed sampled values. -/
structure AnimationSample where
  values : List (String × AnyValue)
deriving DecidableEq, Repr

def AnimationSample.new : AnimationSample := ⟨[]⟩

/-- `AnimationSample::get::<Vector3>`: look up by name, then downcast. -/
def AnimationSample.getVec3 (s : AnimationSample) (name : String) : Option Vector3 :=
  match s.values.find? (fun p => p.1 == name) with
  | some (_, .vec3 v) => some v
  | _ => none

/-- A type-erased track (`Box<dyn AnyTrack>`): in the engine only
`AnimationTrack<Vector3>` and `AnimationTrack<Color>` instances exist. -/
inductive AnyTrack where
  | vec3 (t : AnimationTrack Vector3)
  | color (t : AnimationTrack Color)
deriving DecidableEq, Repr

def AnyTrack.duration : AnyTrack → ℚ
  | .vec3 t => t.duration
  | .color t => t.duration

/-- The `AnyTrack::sample_to_sample` implementation for `AnimationTrack<T>` is
a stub in the source ("For now, we'll skip type-erased sampling"): it writes
nothing into the sample. -/
def AnyTrack.sample_to_sample (_tb : AnyTrack) (_time : ℚ) (s : AnimationSample) :
    AnimationSample :=
  s

/-- The name of the underlying track (used by the node update loop). -/
def AnyTrack.trackName : AnyTrack → String
  | .vec3 t => t.name
  | .color t => t.name

/-- `AnimationClip` of `src/animation/property.rs`. -/
structure AnimationClip where
  name : String
  tracks : List AnyTrack
  loop_animation : Bool
  speed : ℚ
deriving DecidableEq, Repr

/-- `AnimationClip::new`. -/
def AnimationClip.new (name : String) : AnimationClip :=
  ⟨name, [], false, 1⟩

/-- `AnimationClip::add_track` (a push of the boxed track). -/
def AnimationClip.add_track (c : AnimationClip) (tb : AnyTrack) : AnimationClip :=
  { c with tracks := c.tracks ++ [tb] }

/-- `AnimationClip::sample`: folds `sample_to_sample` over the tracks. -/
def AnimationClip.sample (c : AnimationClip) (time : ℚ) : AnimationSample :=
  c.tracks.foldl (fun s tb => tb.sample_to_sample time s) AnimationSample.new

/-- `AnimationClip::duration`: maximum of the track durations (0 if none). -/
def AnimationClip.duration (c : AnimationClip) : ℚ :=
  if c.tracks.isEmpty then TimeValue.new 0
  else ((c.tracks.map AnyTrack.duration).max?).getD (TimeValue.new 0)

/-- `AnimationInstance`: a playing/paused occurrence of a clip. -/
structure AnimationInstance where
  clip : AnimationClip
  start_time : ℚ
  is_playing : Bool
  current_time : ℚ
deriving DecidableEq, Repr

/-- `AnimationInstance::new`: playing, local clock at 0. -/
def AnimationInstance.new (clip : AnimationClip) (start_time : ℚ) : AnimationInstance :=
  ⟨clip, start_time, true, 0⟩

/-- `AnimationInstance::update` (state passing: returns the updated instance
together with the optional sample). -/
def AnimationInstance.update (a : AnimationInstance) (current_time : ℚ) :
    AnimationInstance × Option AnimationSample :=
  if !a.is_playing then (a, none)
  else
    let local_time := TimeValue.sub current_time a.start_time
    let duration := a.clip.duration
    let step :=
      if TimeValue.new 0 < duration then
        if a.clip.loop_animation then
          (a, TimeValue.new (TimeValue.rem local_time duration))
        else if duration ≤ local_time then
          ({ a with is_playing := false }, duration)
        else (a, local_time)
      else (a, local_time)
    let a' := { step.1 with current_time := step.2 }
    (a', some (a'.clip.sample step.2))

def AnimationInstance.play (a : AnimationInstance) : AnimationInstance :=
  { a with is_playing := true }

def AnimationInstance.pause (a : AnimationInstance) : AnimationInstance :=
  { a with is_playing := false }

def AnimationInstance.stop (a : AnimationInstance) : AnimationInstance :=
  { a with is_playing := false, current_time := TimeValue.new 0 }

/-- `effects::fade_in`: one opacity track, 0 → 1 over the duration. -/
def fade_in (duration : ℚ) : AnimationClip :=
  let track := AnimationTrack.new Vector3 "opacity"
  let track := track.add_keyframe (Keyframe.new (TimeValue.new 0) (Vector3.mk 0 0 0))
  let track := track.add_keyframe (Keyframe.new (TimeValue.new duration) (Vector3.mk 1 0 0))
  let clip := AnimationClip.new "FadeIn"
  let clip := clip.add_track (.vec3 track)
  { clip with loop_animation := false }

/-- `effects::rotate`: one rotation track, angle stored in the `z` component. -/
def rotate (from_angle to_angle duration : ℚ) : AnimationClip :=
  let track := AnimationTrack.new Vector3 "rotation"
  let track := track.add_keyframe (Keyframe.new (TimeValue.new 0) (Vector3.mk 0 0 from_angle))
  let track := track.add_keyframe
    (Keyframe.new (TimeValue.new duration) (Vector3.mk 0 0 to_angle))
  let clip := AnimationClip.new "Rotate"
  let clip := clip.add_track (.vec3 track)
  { clip with loop_animation := false }

/-- `effects::move_to`: one position track from `from` to `to`. -/
def move_to (fromPos toPos : Vector3) (duration : ℚ) : AnimationClip :=
  let track := AnimationTrack.new Vector3 "position"
  let track := track.add_keyframe (Keyframe.new (TimeValue.new 0) fromPos)
  let track := track.add_keyframe (Keyframe.new (TimeValue.new duration) toPos)
  let clip := AnimationClip.new "MoveTo"
  let clip := clip.add_track (.vec3 track)
  { clip with loop_animation := false }

theorem tvnew_zero : TimeValue.new 0 = 0 := by
  simp [TimeValue.new]

theorem tvnew_nonneg (v : ℚ) : 0 ≤ TimeValue.new v := by
  simp [TimeValue.new]

theorem tvsub_nonneg (a b : ℚ) : 0 ≤ TimeValue.sub a b :=
  tvnew_nonneg _

/-- For non-negative `lcl` and positive `d`, the engine's wrap-around
computation `TimeValue::new((lcl % d).seconds())` equals the mathematical
modulus `lcl mod d`. -/
theorem tvrem_eq_mod (lcl d : ℚ) (h0 : 0 ≤ lcl) (hd : 0 < d) :
    TimeValue.new (TimeValue.rem lcl d) = lcl - d * ⌊lcl / d⌋ := by
  have hdne : d ≠ 0 := ne_of_gt hd
  have hq : (0:ℚ) ≤ lcl / d := div_nonneg h0 hd.le
  have hfl : (⌊lcl / d⌋ : ℚ) ≤ lcl / d := Int.floor_le _
  have hmul : d * (⌊lcl / d⌋ : ℚ) ≤ lcl := by
    have := mul_le_mul_of_nonneg_left hfl hd.le
    rwa [mul_div_cancel₀ lcl hdne] at this
  have hres : 0 ≤ lcl - d * ⌊lcl / d⌋ := by linarith
  simp only [TimeValue.rem, hdne, if_false, frem, ftrunc, hq, if_true, TimeValue.new]
  rw [max_eq_left hres, max_eq_left hres]

theorem track_duration_nonneg {T : Type} (tr : AnimationTrack T) : 0 ≤ tr.duration := by
  unfold AnimationTrack.duration
  split
  · exact tvnew_nonneg 0
  · exact tvsub_nonneg _ _

theorem anytrack_duration_nonneg (tb : AnyTrack) : 0 ≤ tb.duration := by
  cases tb <;> exact track_duration_nonneg _

theorem clip_duration_nonneg (c : AnimationClip) : 0 ≤ c.duration := by
  unfold AnimationClip.duration
  split
  · exact tvnew_nonneg 0
  · rcases h : (c.tracks.map AnyTrack.duration).max? with _ | d
    · simp [tvnew_zero]
    · simp only [Option.getD_some]
      have hmem : d ∈ c.tracks.map AnyTrack.duration :=
        List.max?_mem (fun a b => max_choice (α := ℚ) a b) h
      rcases List.mem_map.mp hmem with ⟨tb, _, htb⟩
      rw [← htb]
      exact anytrack_duration_nonneg tb

/-- Claim C2: `AnimationInstance::update(global_time)` returns `None` and
changes nothing when not playing; otherwise with `local = global_time −
start_time` (a clamped `TimeValue` subtraction): looping clips of positive
duration wrap `current_time` to `local mod duration` and keep playing;
non-looping clips clamp at `duration` and stop once `local ≥ duration`, and
pass `local` through while `local < duration`; a zero-duration clip passes
`local` through and never auto-finishes; in all playing cases the result is
`Some(clip.sample(current_time'))`.  The two concrete scenarios of the claim
(1-second non-looping clip at global time 2, and its looping variant at 2.5)
are included verbatim. -/
theorem c2_instance_update :
    (∀ (a : AnimationInstance) (t : ℚ), a.is_playing = false → a.update t = (a, none)) ∧
    (∀ (a : AnimationInstance) (t : ℚ), a.is_playing = true → 0 < a.clip.duration →
        a.clip.loop_animation = true →
        (a.update t).1.current_time
          = TimeValue.sub t a.start_time
            - a.clip.duration * ⌊TimeValue.sub t a.start_time / a.clip.duration⌋ ∧
        (a.update t).1.is_playing = true) ∧
    (∀ (a : AnimationInstance) (t : ℚ), a.is_playing = true → 0 < a.clip.duration →
        a.clip.loop_animation = false →
        a.clip.duration ≤ TimeValue.sub t a.start_time →
        (a.update t).1.current_time = a.clip.duration ∧
        (a.update t).1.is_playing = false) ∧
    (∀ (a : AnimationInstance) (t : ℚ), a.is_playing = true → 0 < a.clip.duration →
        a.clip.loop_animation = false →
        TimeValue.sub t a.start_time < a.clip.duration →
        (a.update t).1.current_time = TimeValue.sub t a.start_time ∧
        (a.update t).1.is_playing = true) ∧
    (∀ (a : AnimationInstance) (t : ℚ), a.is_playing = true → a.clip.duration = 0 →
        (a.update t).1.current_time = TimeValue.sub t a.start_time ∧
        (a.update t).1.is_playing = true) ∧
    (∀ (a : AnimationInstance) (t : ℚ), a.is_playing = true →
        (a.update t).2 = some (a.clip.sample (a.update t).1.current_time)) ∧
    (((AnimationInstance.new (fade_in 1) 0).update 2).1.is_playing = false ∧
      ((AnimationInstance.new (fade_in 1) 0).update 2).1.current_time = 1) ∧
    (((AnimationInstance.new { fade_in 1 with loop_animation := true } 0).update
        (5/2)).1.current_time = 1/2 ∧
      ((AnimationInstance.new { fade_in 1 with loop_animation := true } 0).update
        (5/2)).1.is_playing = true) := by
  refine ⟨?_, ?_, ?_, ?_, ?_, ?_, by norm_num [move_to, fade_in, AnimationTrack.new, AnimationTrack.add_keyframe, sortKF, insertKF, TimeValue.new, TimeValue.sub, TimeValue.add, TimeValue.rem, frem, ftrunc, AnimationClip.new, AnimationClip.add_track, AnimationClip.duration, AnimationClip.sample, AnyTrack.duration, AnyTrack.trackName, AnimationTrack.duration, AnimationInstance.new, AnimationInstance.update, AnimationInstance.pause, AnimationTrack.sample, findSeg, AnimationSample.getVec3, AnimationSample.new, AnyTrack.sample_to_sample, Keyframe.new, Animatable.lerp, fclamp, InterpolationType.apply], by norm_num [move_to, fade_in, AnimationTrack.new, AnimationTrack.add_keyframe, sortKF, insertKF, TimeValue.new, TimeValue.sub, TimeValue.add, TimeValue.rem, frem, ftrunc, AnimationClip.new, AnimationClip.add_track, AnimationClip.duration, AnimationClip.sample, AnyTrack.duration, AnyTrack.trackName, AnimationTrack.duration, AnimationInstance.new, AnimationInstance.update, AnimationInstance.pause, AnimationTrack.sample, findSeg, AnimationSample.getVec3, AnimationSample.new, AnyTrack.sample_to_sample, Keyframe.new, Animatable.lerp, fclamp, InterpolationType.apply]⟩
  · intro a t hp
    simp [AnimationInstance.update, hp]
  · intro a t hp hd hl
    rw [← tvrem_eq_mod _ _ (tvsub_nonneg t a.start_time) hd]
    have hd' : TimeValue.new 0 < a.clip.duration := by rw [tvnew_zero]; exact hd
    simp [AnimationInstance.update, hp, hd', hl]
  · intro a t hp hd hl hge
    have hd' : TimeValue.new 0 < a.clip.duration := by rw [tvnew_zero]; exact hd
    simp [AnimationInstance.update, hp, hd', hl, hge]
  · intro a t hp hd hl hlt
    have hd' : TimeValue.new 0 < a.clip.duration := by rw [tvnew_zero]; exact hd
    have hge : ¬ a.clip.duration ≤ TimeValue.sub t a.start_time := not_le.mpr hlt
    simp [AnimationInstance.update, hp, hd', hl, hge]
  · intro a t hp hd
    have hd' : ¬ TimeValue.new 0 < a.clip.duration := by
      rw [tvnew_zero, hd]
      exact lt_irrefl 0
    simp [AnimationInstance.update, hp, hd']
  · intro a t hp
    by_cases hd : TimeValue.new 0 < a.clip.duration
    · by_cases hl : a.clip.loop_animation = true
      · simp [AnimationInstance.update, hp, hd, hl]
      · replace hl : a.clip.loop_animation = false := by
          cases h : a.clip.loop_animation
          · rfl
          · exact absurd h hl
        by_cases hge : a.clip.duration ≤ TimeValue.sub t a.start_time
        · simp [AnimationInstance.update, hp, hd, hl, hge]
        · simp [AnimationInstance.update, hp, hd, hl, hge]
    · simp [AnimationInstance.update, hp, hd]

theorem c2aux_loop_duration_pos :
    0 < (AnimationInstance.new { fade_in 1 with loop_animation := true } 0).clip.duration := by
  norm_num [move_to, fade_in, AnimationTrack.new, AnimationTrack.add_keyframe, sortKF, insertKF, TimeValue.new, TimeValue.sub, TimeValue.add, TimeValue.rem, frem, ftrunc, AnimationClip.new, AnimationClip.add_track, AnimationClip.duration, AnimationClip.sample, AnyTrack.duration, AnyTrack.trackName, AnimationTrack.duration, AnimationInstance.new, AnimationInstance.update, AnimationInstance.pause, AnimationTrack.sample, findSeg, AnimationSample.getVec3, AnimationSample.new, AnyTrack.sample_to_sample, Keyframe.new, Animatable.lerp, fclamp, InterpolationType.apply]

theorem c2aux_duration_pos :
    0 < (AnimationInstance.new (fade_in 1) 0).clip.duration := by
  norm_num [move_to, fade_in, AnimationTrack.new, AnimationTrack.add_keyframe, sortKF, insertKF, TimeValue.new, TimeValue.sub, TimeValue.add, TimeValue.rem, frem, ftrunc, AnimationClip.new, AnimationClip.add_track, AnimationClip.duration, AnimationClip.sample, AnyTrack.duration, AnyTrack.trackName, AnimationTrack.duration, AnimationInstance.new, AnimationInstance.update, AnimationInstance.pause, AnimationTrack.sample, findSeg, AnimationSample.getVec3, AnimationSample.new, AnyTrack.sample_to_sample, Keyframe.new, Animatable.lerp, fclamp, InterpolationType.apply]

theorem c2aux_duration_le :
    (AnimationInstance.new (fade_in 1) 0).clip.duration
      ≤ TimeValue.sub 2 (AnimationInstance.new (fade_in 1) 0).start_time := by
  norm_num [move_to, fade_in, AnimationTrack.new, AnimationTrack.add_keyframe, sortKF, insertKF, TimeValue.new, TimeValue.sub, TimeValue.add, TimeValue.rem, frem, ftrunc, AnimationClip.new, AnimationClip.add_track, AnimationClip.duration, AnimationClip.sample, AnyTrack.duration, AnyTrack.trackName, AnimationTrack.duration, AnimationInstance.new, AnimationInstance.update, AnimationInstance.pause, AnimationTrack.sample, findSeg, AnimationSample.getVec3, AnimationSample.new, AnyTrack.sample_to_sample, Keyframe.new, Animatable.lerp, fclamp, InterpolationType.apply]

/-- Witness for `c2_instance_update`: the hypothesis-bearing conjuncts applied
at concrete inputs. -/
theorem c2_witness :
    (AnimationInstance.pause (AnimationInstance.new (fade_in 1) 0)).update 3
      = (AnimationInstance.pause (AnimationInstance.new (fade_in 1) 0), none) ∧
    ((AnimationInstance.new { fade_in 1 with loop_animation := true } 0).update
        (5/2)).1.is_playing = true ∧
    ((AnimationInstance.new (fade_in 1) 0).update 2).1.current_time
      = (fade_in 1).duration := by
  refine ⟨c2_instance_update.1 _ 3 rfl, ?_, ?_⟩
  · exact (c2_instance_update.2.1 _ (5/2) rfl c2aux_loop_duration_pos rfl).2
  · exact (c2_instance_update.2.2.1 _ 2 rfl c2aux_duration_pos rfl c2aux_duration_le).1

/-- Claim C7 counterexample: the `move_to` clip contains exactly one track,
named "position", yet sampling the clip yields an `AnimationSample` with *no*
stored values — `get("position")` is `none`, while the track itself samples to
`(1/2, 0, 0)` at that time.  So the per-track values are *not* retrievable
from the clip's sample, contrary to the claim. -/
theorem c7_counterexample :
    ((move_to ⟨0,0,0⟩ ⟨1,0,0⟩ 2).tracks.map AnyTrack.trackName) = ["position"] ∧
    ((move_to ⟨0,0,0⟩ ⟨1,0,0⟩ 2).sample 1).values = [] ∧
    ((move_to ⟨0,0,0⟩ ⟨1,0,0⟩ 2).sample 1).getVec3 "position" = none ∧
    (∀ tb ∈ (move_to ⟨0,0,0⟩ ⟨1,0,0⟩ 2).tracks,
      tb = .vec3 ((AnimationTrack.new Vector3 "position").add_keyframe
            (Keyframe.new (TimeValue.new 0) ⟨0,0,0⟩)
          |>.add_keyframe (Keyframe.new (TimeValue.new 2) ⟨1,0,0⟩))) ∧
    (((AnimationTrack.new Vector3 "position").add_keyframe
            (Keyframe.new (TimeValue.new 0) ⟨0,0,0⟩)
          |>.add_keyframe (Keyframe.new (TimeValue.new 2) ⟨1,0,0⟩)).sample 1
        = some ⟨1/2, 0, 0⟩) := by
  refine ⟨by norm_num [move_to, fade_in, AnimationTrack.new, AnimationTrack.add_keyframe, sortKF, insertKF, TimeValue.new, TimeValue.sub, TimeValue.add, TimeValue.rem, frem, ftrunc, AnimationClip.new, AnimationClip.add_track, AnimationClip.duration, AnimationClip.sample, AnyTrack.duration, AnyTrack.trackName, AnimationTrack.duration, AnimationInstance.new, AnimationInstance.update, AnimationInstance.pause, AnimationTrack.sample, findSeg, AnimationSample.getVec3, AnimationSample.new, AnyTrack.sample_to_sample, Keyframe.new, Animatable.lerp, fclamp, InterpolationType.apply], by norm_num [move_to, fade_in, AnimationTrack.new, AnimationTrack.add_keyframe, sortKF, insertKF, TimeValue.new, TimeValue.sub, TimeValue.add, TimeValue.rem, frem, ftrunc, AnimationClip.new, AnimationClip.add_track, AnimationClip.duration, AnimationClip.sample, AnyTrack.duration, AnyTrack.trackName, AnimationTrack.duration, AnimationInstance.new, AnimationInstance.update, AnimationInstance.pause, AnimationTrack.sample, findSeg, AnimationSample.getVec3, AnimationSample.new, AnyTrack.sample_to_sample, Keyframe.new, Animatable.lerp, fclamp, InterpolationType.apply], by norm_num [move_to, fade_in, AnimationTrack.new, AnimationTrack.add_keyframe, sortKF, insertKF, TimeValue.new, TimeValue.sub, TimeValue.add, TimeValue.rem, frem, ftrunc, AnimationClip.new, AnimationClip.add_track, AnimationClip.duration, AnimationClip.sample, AnyTrack.duration, AnyTrack.trackName, AnimationTrack.duration, AnimationInstance.new, AnimationInstance.update, AnimationInstance.pause, AnimationTrack.sample, findSeg, AnimationSample.getVec3, AnimationSample.new, AnyTrack.sample_to_sample, Keyframe.new, Animatable.lerp, fclamp, InterpolationType.apply], by norm_num [move_to, fade_in, AnimationTrack.new, AnimationTrack.add_keyframe, sortKF, insertKF, TimeValue.new, TimeValue.sub, TimeValue.add, TimeValue.rem, frem, ftrunc, AnimationClip.new, AnimationClip.add_track, AnimationClip.duration, AnimationClip.sample, AnyTrack.duration, AnyTrack.trackName, AnimationTrack.duration, AnimationInstance.new, AnimationInstance.update, AnimationInstance.pause, AnimationTrack.sample, findSeg, AnimationSample.getVec3, AnimationSample.new, AnyTrack.sample_to_sample, Keyframe.new, Animatable.lerp, fclamp, InterpolationType.apply],
    by norm_num [move_to, fade_in, AnimationTrack.new, AnimationTrack.add_keyframe, sortKF, insertKF, TimeValue.new, TimeValue.sub, TimeValue.add, TimeValue.rem, frem, ftrunc, AnimationClip.new, AnimationClip.add_track, AnimationClip.duration, AnimationClip.sample, AnyTrack.duration, AnyTrack.trackName, AnimationTrack.duration, AnimationInstance.new, AnimationInstance.update, AnimationInstance.pause, AnimationTrack.sample, findSeg, AnimationSample.getVec3, AnimationSample.new, AnyTrack.sample_to_sample, Keyframe.new, Animatable.lerp, fclamp, InterpolationType.apply]⟩

/-- Claim C7 (amended): `AnimationClip::sample` does call `sample_to_sample`
on each track, but the type-erased implementation is an explicit stub that
stores nothing, so the returned `AnimationSample` is always empty and no
per-track value is retrievable by name; `AnimationInstance::update` on a
playing instance returns `Some(clip.sample(local))`, hence an empty sample. -/
theorem c7_clip_sample_is_empty :
    (∀ (c : AnimationClip) (t : ℚ), (c.sample t).values = []) ∧
    (∀ (c : AnimationClip) (t : ℚ) (name : String), (c.sample t).getVec3 name = none) ∧
    (∀ (a : AnimationInstance) (t : ℚ), a.is_playing = true →
        ∀ s, (a.update t).2 = some s → s.values = []) := by
  have hempty : ∀ (c : AnimationClip) (t : ℚ), (c.sample t).values = [] := by
    intro c t
    unfold AnimationClip.sample
    have : ∀ (l : List AnyTrack) (s : AnimationSample),
        l.foldl (fun s tb => tb.sample_to_sample t s) s = s := by
      intro l
      induction l with
      | nil => intro s; rfl
      | cons tb rest ih => intro s; exact ih s
    rw [this]
    rfl
  refine ⟨hempty, ?_, ?_⟩
  · intro c t name
    simp [AnimationSample.getVec3, hempty c t]
  · intro a t hp s hs
    by_cases hd : TimeValue.new 0 < a.clip.duration
    · by_cases hl : a.clip.loop_animation = true
      · simp [AnimationInstance.update, hp, hd, hl] at hs
        rw [← hs]; exact hempty _ _
      · by_cases hge : a.clip.duration ≤ TimeValue.sub t a.start_time
        · simp [AnimationInstance.update, hp, hd, hl, hge] at hs
          rw [← hs]; exact hempty _ _
        · simp [AnimationInstance.update, hp, hd, hl, hge] at hs
          rw [← hs]; exact hempty _ _
    · simp [AnimationInstance.update, hp, hd] at hs
      rw [← hs]; exact hempty _ _

/-- Witness for `c7_clip_sample_is_empty`. -/
theorem c7_witness :
    ∀ s, ((AnimationInstance.new (fade_in 1) 0).update 1).2 = some s → s.values = [] :=
  c7_clip_sample_is_empty.2.2 (AnimationInstance.new (fade_in 1) 0) 1 rfl

/-- `TransformUniform` of `src/render/mod.rs`: a column-major 4×4 matrix. -/
structure TransformUniform where
  model_view_proj : List (List ℚ)
deriving DecidableEq, Repr

/-- `Renderable` of `src/scene/mod.rs`.  (`end` is a Lean keyword, so the
`Line`/`Arrow` end point is called `finish`.) -/
inductive Renderable where
  | Circle (radius : ℚ) (color : Color)
  | Rectangle (width height : ℚ) (color : Color)
  | Line (start finish : Vector3) (color : Color) (thickness : ℚ)
  | Arrow (start finish : Vector3) (color : Color) (thickness : ℚ)
  | Polygon (vertices : List Vector3) (color : Color)
deriving DecidableEq, Repr

/-- `SceneNode` of `src/scene/mod.rs`.  `NodeId` is modelled as `ℕ`. -/
structure SceneNode where
  id : ℕ
  name : String
  _local_transform : Transform
  world_transform : Transform
  parent : Option ℕ
  children : List ℕ
  visible : Bool
  opacity : ℚ
  renderable : Option Renderable
  animations : List AnimationInstance
deriving DecidableEq, Repr

/-- `SceneNode::new`. -/
def SceneNode.new (id : ℕ) (name : String) : SceneNode :=
  ⟨id, name, Transform.new, Transform.new, none, [], true, 1, none, []⟩

/-- `SceneNode::with_transform`. -/
def SceneNode.with_transform (id : ℕ) (name : String) (transform : Transform) : SceneNode :=
  ⟨id, name, transform, Transform.new, none, [], true, 1, none, []⟩

/-- `SceneNode::set_renderable`. -/
def SceneNode.set_renderable (n : SceneNode) (r : Renderable) : SceneNode :=
  { n with renderable := some r }

/-- `SceneNode::add_animation`. -/
def SceneNode.add_animation (n : SceneNode) (a : AnimationInstance) : SceneNode :=
  { n with animations := n.animations ++ [a] }

/-- The inline per-instance time advance of `SceneNode::update_animations`
(`new_time = current_time + delta`; loop wrap / clamp-and-stop / advance). -/
def SceneNode.stepAnim (delta_time : ℚ) (anim : AnimationInstance) : AnimationInstance :=
  let new_time := TimeValue.add anim.current_time delta_time
  let duration := anim.clip.duration
  if TimeValue.new 0 < duration then
    if anim.clip.loop_animation then
      { anim with current_time := TimeValue.new (TimeValue.rem new_time duration) }
    else if duration ≤ new_time then
      { anim with is_playing := false, current_time := duration }
    else
      { anim with current_time := new_time }
  else
    { anim with current_time := new_time }

/-- The per-track binding step of `SceneNode::update_animations`: downcast to
`AnimationTrack<Vector3>` (a `Color` track fails the downcast and is skipped),
sample, and write the sampled value into the node field selected by the track
name; "position"/"rotation"/"scale" set the transform-changed flag,
"opacity" writes the clamped x component, and unknown names are ignored.
(The Rust string `match` compiles to exactly this equality chain.  The track's
`sample` never panics — `sample_eq_some_sampleT` — so the total `sampleT` is
used here.) -/
def SceneNode.applyTrack (time : ℚ) (st : SceneNode × Bool) (tb : AnyTrack) :
    SceneNode × Bool :=
  match tb with
  | .vec3 track =>
    let sample := track.sampleT time
    if track.name = "position" then
      ({ st.1 with _local_transform.position := sample }, true)
    else if track.name = "rotation" then
      ({ st.1 with _local_transform.rotation.z := sample.z }, true)
    else if track.name = "scale" then
      ({ st.1 with _local_transform.scale := sample }, true)
    else if track.name = "opacity" then
      ({ st.1 with opacity := fclamp sample.x 0 1 }, st.2)
    else st
  | .color _ => st

/-- The body of the per-instance loop of `SceneNode::update_animations`:
skip non-playing instances; otherwise advance the instance's clock and fold
its tracks into the node, accumulating the updated instance list and the
transform-changed flag. -/
def SceneNode.animStep (delta_time : ℚ) (st : SceneNode × List AnimationInstance × Bool)
    (anim : AnimationInstance) : SceneNode × List AnimationInstance × Bool :=
  if anim.is_playing then
    let anim' := SceneNode.stepAnim delta_time anim
    let nb := anim'.clip.tracks.foldl (SceneNode.applyTrack anim'.current_time)
      (st.1, st.2.2)
    (nb.1, st.2.1 ++ [anim'], nb.2)
  else
    (st.1, st.2.1 ++ [anim], st.2.2)

/-- `SceneNode::update_animations`: advance every playing instance, apply each
of its tracks, then retain only instances that are still playing or looping.
Returns the updated node and the transform-changed flag. -/
def SceneNode.update_animations (node : SceneNode) (delta_time : ℚ) : SceneNode × Bool :=
  let step := node.animations.foldl (SceneNode.animStep delta_time) (node, ([], false))
  ({ step.1 with
      animations := step.2.1.filter (fun a => a.is_playing || a.clip.loop_animation) },
    step.2.2)

/-- `SceneNode::compute_model_matrix`: a column-major matrix built from world
scale (diagonal) and world position (translation column) only. -/
def SceneNode.compute_model_matrix (n : SceneNode) : TransformUniform :=
  { model_view_proj :=
      [[n.world_transform.scale.x, 0, 0, 0],
       [0, n.world_transform.scale.y, 0, 0],
       [0, 0, n.world_transform.scale.z, 0],
       [n.world_transform.position.x, n.world_transform.position.y,
        n.world_transform.position.z, 1]] }

/-- Does a type-erased track drive a transform-affecting property?  (Vector3
track named "position", "rotation" or "scale".) -/
def AnyTrack.isTransformTrack : AnyTrack → Bool
  | .vec3 t => t.name == "position" || t.name == "rotation" || t.name == "scale"
  | .color _ => false

theorem stepAnim_clip (delta : ℚ) (a : AnimationInstance) :
    (SceneNode.stepAnim delta a).clip = a.clip := by
  simp only [SceneNode.stepAnim]
  split_ifs <;> rfl

theorem stepAnim_of_not_playing (delta : ℚ) (a : AnimationInstance)
    (h : a.is_playing = false) : (SceneNode.stepAnim delta a).is_playing = false := by
  simp only [SceneNode.stepAnim]
  split_ifs <;> simp [h]

/-- The transform-changed flag produced by one instance's track fold. -/
theorem applyTracks_flag (time : ℚ) (l : List AnyTrack) :
    ∀ st : SceneNode × Bool,
      (l.foldl (SceneNode.applyTrack time) st).2
        = (st.2 || l.any AnyTrack.isTransformTrack) := by
  induction l with
  | nil => intro st; simp
  | cons tb rest ih =>
    intro st
    rcases tb with tr | tr
    · by_cases hp : tr.name = "position"
      · simp [SceneNode.applyTrack, hp, ih, AnyTrack.isTransformTrack]
      · by_cases hr : tr.name = "rotation"
        · simp [SceneNode.applyTrack, hp, hr, ih, AnyTrack.isTransformTrack]
        · by_cases hs : tr.name = "scale"
          · simp [SceneNode.applyTrack, hp, hr, hs, ih, AnyTrack.isTransformTrack]
          · by_cases ho : tr.name = "opacity"
            · simp [SceneNode.applyTrack, hp, hr, hs, ho, ih, AnyTrack.isTransformTrack]
            · have e1 : (tr.name == "position") = false := beq_eq_false_iff_ne.mpr hp
              have e2 : (tr.name == "rotation") = false := beq_eq_false_iff_ne.mpr hr
              have e3 : (tr.name == "scale") = false := beq_eq_false_iff_ne.mpr hs
              simp [SceneNode.applyTrack, hp, hr, hs, ho, ih, AnyTrack.isTransformTrack,
                e1, e2, e3]
    · simp [SceneNode.applyTrack, ih, AnyTrack.isTransformTrack]

/-- List component of one `animStep`. -/
theorem animStep_list (delta : ℚ) (st : SceneNode × List AnimationInstance × Bool)
    (a : AnimationInstance) :
    (SceneNode.animStep delta st a).2.1
      = st.2.1 ++ [if a.is_playing then SceneNode.stepAnim delta a else a] := by
  by_cases hp : a.is_playing
  · simp [SceneNode.animStep, hp]
  · simp [SceneNode.animStep, hp]

/-- Flag component of one `animStep`. -/
theorem animStep_flag (delta : ℚ) (st : SceneNode × List AnimationInstance × Bool)
    (a : AnimationInstance) :
    (SceneNode.animStep delta st a).2.2
      = (st.2.2 || (a.is_playing && a.clip.tracks.any AnyTrack.isTransformTrack)) := by
  by_cases hp : a.is_playing
  · simp only [SceneNode.animStep, hp, if_true]
    rw [applyTracks_flag]
    simp [hp, stepAnim_clip]
  · simp [SceneNode.animStep, hp]

/-- The animation-list and flag components computed by the instance fold of
`update_animations`, in closed form. -/
theorem update_animations_fold (delta : ℚ) (l : List AnimationInstance) :
    ∀ (st : SceneNode × List AnimationInstance × Bool),
      (l.foldl (SceneNode.animStep delta) st).2.1
        = st.2.1 ++ l.map (fun a => if a.is_playing then SceneNode.stepAnim delta a else a) ∧
      (l.foldl (SceneNode.animStep delta) st).2.2
        = (st.2.2 || l.any (fun a => a.is_playing && a.clip.tracks.any
            AnyTrack.isTransformTrack)) := by
  induction l with
  | nil => intro st; simp
  | cons a rest ih =>
    intro st
    have h1 := ih (SceneNode.animStep delta st a)
    constructor
    · rw [List.foldl_cons, h1.1, animStep_list]
      simp
    · rw [List.foldl_cons, h1.2, animStep_flag]
      simp [Bool.or_assoc]

/-- Lookup in the node arena (`HashMap<NodeId, SceneNode>` modelled as an
association list with unique keys). -/
def lookupN (nodes : List (ℕ × SceneNode)) (id : ℕ) : Option SceneNode :=
  match nodes.find? (fun kn => kn.1 == id) with
  | some kn => some kn.2
  | none => none

/-- `HashMap::insert`: replace the entry if the key is present, append else. -/
def insertN (nodes : List (ℕ × SceneNode)) (id : ℕ) (n : SceneNode) :
    List (ℕ × SceneNode) :=
  if (lookupN nodes id).isSome then
    nodes.map (fun kn => if kn.1 = id then (id, n) else kn)
  else nodes ++ [(id, n)]

/-- `HashMap::remove` (keys are unique, so filtering is removal). -/
def eraseN (nodes : List (ℕ × SceneNode)) (id : ℕ) : List (ℕ × SceneNode) :=
  nodes.filter (fun kn => kn.1 != id)

/-- `HashMap::get_mut` followed by a field update (keys are unique). -/
def modifyN (nodes : List (ℕ × SceneNode)) (id : ℕ) (f : SceneNode → SceneNode) :
    List (ℕ × SceneNode) :=
  nodes.map (fun kn => if kn.1 = id then (kn.1, f kn.2) else kn)

/-- `SceneGraph` of `src/scene/mod.rs`. -/
structure SceneGraph where
  nodes : List (ℕ × SceneNode)
  root_nodes : List ℕ
  next_id : ℕ
deriving DecidableEq, Repr

/-- `SceneGraph::new`: ids start from 1 (0 is reserved). -/
def SceneGraph.new : SceneGraph :=
  ⟨[], [], 1⟩

/-- `SceneGraph::get_node`. -/
def SceneGraph.get_node (g : SceneGraph) (id : ℕ) : Option SceneNode :=
  lookupN g.nodes id

/-- `SceneGraph::create_node`: allocate the next id, insert a default node,
append it to the root list. -/
def SceneGraph.create_node (g : SceneGraph) (name : String) : SceneGraph × ℕ :=
  let id := g.next_id
  ({ nodes := insertN g.nodes id (SceneNode.new id name),
     root_nodes := g.root_nodes ++ [id],
     next_id := g.next_id + 1 }, id)

/-- `SceneGraph::create_node_with_transform`. -/
def SceneGraph.create_node_with_transform (g : SceneGraph) (name : String)
    (transform : Transform) : SceneGraph × ℕ :=
  let id := g.next_id
  ({ nodes := insertN g.nodes id (SceneNode.with_transform id name transform),
     root_nodes := g.root_nodes ++ [id],
     next_id := g.next_id + 1 }, id)

/-- The two error conditions `SceneGraph::parent` reports (the source returns
them as two distinct `Err(String)` messages: "... does not exist" and
"Parenting would create a cycle"). -/
inductive SceneError where
  | nodeNotFound
  | cycleDetected
deriving DecidableEq, Repr

/-- The ancestor walk of `SceneGraph::would_create_cycle`: start at the
proposed parent and follow parent links, looking for the child.  The walk of
the source is an unbounded `while let`; on acyclic graphs it visits pairwise
distinct nodes, so fuel `|nodes| + 1` (as used by `would_create_cycle` below)
never runs out before the walk's own termination. -/
def cycleWalk (g : SceneGraph) (child_id : ℕ) : ℕ → ℕ → Bool
  | 0, _ => false
  | fuel+1, current =>
    match g.get_node current with
    | none => false
    | some node =>
      if current = child_id then true
      else
        match node.parent with
        | some p => cycleWalk g child_id fuel p
        | none => false

/-- `SceneGraph::would_create_cycle`. -/
def SceneGraph.would_create_cycle (g : SceneGraph) (child_id parent_id : ℕ) : Bool :=
  cycleWalk g child_id (g.nodes.length + 1) parent_id

/-- `SceneGraph::parent`: existence checks, cycle check, then (only on
success) root-list removal, detach from the old parent, parent-pointer update
and children append (idempotent). -/
def SceneGraph.parent (g : SceneGraph) (child_id parent_id : ℕ) :
    SceneGraph × Except SceneError Unit :=
  if (g.get_node child_id).isNone then (g, .error .nodeNotFound)
  else if (g.get_node parent_id).isNone then (g, .error .nodeNotFound)
  else if g.would_create_cycle child_id parent_id then (g, .error .cycleDetected)
  else
    let g1 : SceneGraph :=
      { g with root_nodes := g.root_nodes.filter (fun id => id != child_id) }
    let old_parent_id := (g1.get_node child_id).bind (fun c => c.parent)
    let g2 : SceneGraph :=
      match old_parent_id with
      | some old_id =>
        if old_id ≠ parent_id then
          { g1 with nodes := (modifyN g1.nodes old_id
              (fun n => { n with
                children := n.children.filter (fun id => id != child_id) })) }
        else g1
      | none => g1
    let g3 : SceneGraph :=
      { g2 with nodes := (modifyN g2.nodes child_id
          (fun n => { n with parent := some parent_id })) }
    let g4 : SceneGraph :=
      { g3 with nodes := (modifyN g3.nodes parent_id
          (fun n =>
            if child_id ∈ n.children then n
            else { n with children := n.children ++ [child_id] })) }
    (g4, .ok ())

/-- `SceneGraph::update_node_transform_recursive`, fuelled.  The recursion of
the source is over the (acyclic) children forest; on graphs satisfying the
structural invariant its depth is bounded by the node count, so the fuel
`|nodes| + 1` used by `update_transforms` never runs out. -/
def SceneGraph.update_node_transform_recursive :
    ℕ → SceneGraph → ℕ → Transform → SceneGraph
  | 0, g, _, _ => g
  | fuel+1, g, node_id, parent_world =>
    let children :=
      match g.get_node node_id with
      | some node => node.children
      | none => []
    let g1 : SceneGraph :=
      { g with nodes := (modifyN g.nodes node_id (fun node =>
          { node with world_transform :=
              { position := parent_world.position + node._local_transform.position,
                rotation := node._local_transform.rotation,
                scale := ⟨parent_world.scale.x * node._local_transform.scale.x,
                          parent_world.scale.y * node._local_transform.scale.y,
                          parent_world.scale.z * node._local_transform.scale.z⟩ } })) }
    let world :=
      match g1.get_node node_id with
      | some node => node.world_transform
      | none => parent_world
    children.foldl
      (fun acc c => SceneGraph.update_node_transform_recursive fuel acc c world) g1

/-- `SceneGraph::update_transforms`: reset every world transform to the local
transform, then propagate from each root with the identity parent transform. -/
def SceneGraph.update_transforms (g : SceneGraph) : SceneGraph :=
  let g1 : SceneGraph :=
    { g with nodes := (g.nodes.map (fun kn =>
        (kn.1, { kn.2 with world_transform := kn.2._local_transform }))) }
  g1.root_nodes.foldl
    (fun acc rid =>
      SceneGraph.update_node_transform_recursive (g.nodes.length + 1) acc rid
        Transform.new)
    g1

/-- `SceneGraph::update_animations`: update every node, then run one
`update_transforms` pass if any node reported a transform change. -/
def SceneGraph.update_animations (g : SceneGraph) (delta_time : ℚ) : SceneGraph :=
  let results := g.nodes.map (fun kn => (kn.1, kn.2.update_animations delta_time))
  let g1 : SceneGraph := { g with nodes := results.map (fun kr => (kr.1, kr.2.1)) }
  let changed := results.any (fun kr => kr.2.2)
  if changed then g1.update_transforms else g1

/-- `SceneGraph::gather_renderables_recursive`, fuelled like the transform
recursion. -/
def SceneGraph.gather_renderables_recursive :
    ℕ → SceneGraph → ℕ → List (TransformUniform × Renderable × ℚ) →
      List (TransformUniform × Renderable × ℚ)
  | 0, _, _, acc => acc
  | fuel+1, g, node_id, acc =>
    match g.get_node node_id with
    | none => acc
    | some node =>
      if node.visible = true ∧ 0 < node.opacity then
        let acc1 :=
          match node.renderable with
          | some r => acc ++ [(node.compute_model_matrix, r, node.opacity)]
          | none => acc
        node.children.foldl
          (fun a c => SceneGraph.gather_renderables_recursive fuel g c a) acc1
      else acc

/-- `SceneGraph::get_visible_renderables`. -/
def SceneGraph.get_visible_renderables (g : SceneGraph) :
    List (TransformUniform × Renderable × ℚ) :=
  g.root_nodes.foldl
    (fun acc rid =>
      SceneGraph.gather_renderables_recursive (g.nodes.length + 1) g rid acc)
    []

/-- The non-recursive part of `SceneGraph::remove_node`: take the node out of
the arena, drop it from the root list, and detach it from its parent's
children list. -/
def SceneGraph.removeStep (g : SceneGraph) (node_id : ℕ) (node : SceneNode) : SceneGraph :=
  let gA : SceneGraph :=
    { g with nodes := eraseN g.nodes node_id,
             root_nodes := g.root_nodes.filter (fun id => id != node_id) }
  match node.parent with
  | some parent_id =>
    { gA with nodes := (modifyN gA.nodes parent_id
        (fun p => { p with children := p.children.filter (fun id => id != node_id) })) }
  | none => gA

/-- `SceneGraph::remove_node`, fuelled.  Each recursive level removes the node
before descending, so fuel `|nodes|` (as passed by `remove_node`) cannot run
out while a node is still present: whenever the fuel hits 0 the lookup would
fail anyway, so the fuelled function is extensionally the source's recursion. -/
def SceneGraph.remove_node_fuel : ℕ → SceneGraph → ℕ → SceneGraph × Option SceneNode
  | 0, g, _ => (g, none)
  | fuel+1, g, node_id =>
    match g.get_node node_id with
    | none => (g, none)
    | some node =>
      let g1 := SceneGraph.removeStep g node_id node
      let g2 := node.children.foldl
        (fun acc c => (SceneGraph.remove_node_fuel fuel acc c).1) g1
      (g2, some node)

/-- `SceneGraph::remove_node`. -/
def SceneGraph.remove_node (g : SceneGraph) (node_id : ℕ) :
    SceneGraph × Option SceneNode :=
  SceneGraph.remove_node_fuel g.nodes.length g node_id

/-- One parent step: the parent link of an existing node. -/
def parentF (g : SceneGraph) (id : ℕ) : Option ℕ :=
  (g.get_node id).bind (fun n => n.parent)

/-- `k`-fold iteration of `parentF` (the ancestor at distance `k`). -/
def iterF (g : SceneGraph) : ℕ → ℕ → Option ℕ
  | 0, x => some x
  | k+1, x => (iterF g k x).bind (parentF g)

/-- The parent relation is acyclic: no node is its own strict ancestor. -/
def Acyclic (g : SceneGraph) : Prop :=
  ∀ (x : ℕ) (k : ℕ), 0 < k → iterF g k x ≠ some x

theorem iterF_zero (g : SceneGraph) (x : ℕ) : iterF g 0 x = some x := rfl

theorem iterF_succ_front (g : SceneGraph) (k : ℕ) (x : ℕ) :
    iterF g (k+1) x = (parentF g x).bind (iterF g k) := by
  induction k generalizing x with
  | zero =>
    show (some x).bind (parentF g) = (parentF g x).bind (iterF g 0)
    cases h : parentF g x
    · simp [h]
    · simp [h, iterF]
  | succ k ih =>
    show (iterF g (k+1) x).bind (parentF g) = (parentF g x).bind (iterF g (k+1))
    rw [ih x]
    cases h : parentF g x with
    | none => simp
    | some y =>
      show (iterF g k y).bind (parentF g) = iterF g (k+1) y
      rfl

theorem iterF_add (g : SceneGraph) (a b x : ℕ) :
    iterF g (a + b) x = (iterF g a x).bind (iterF g b) := by
  induction b with
  | zero =>
    show iterF g a x = (iterF g a x).bind (iterF g 0)
    cases iterF g a x <;> rfl
  | succ b ih =>
    show (iterF g (a+b) x).bind (parentF g) = (iterF g a x).bind (iterF g (b+1))
    rw [ih]
    cases h : iterF g a x with
    | none => rfl
    | some y => rfl

theorem iterF_isSome_of_le (g : SceneGraph) {j k x : ℕ} (hle : j ≤ k)
    (h : (iterF g k x).isSome) : (iterF g j x).isSome := by
  rcases Nat.exists_eq_add_of_le hle with ⟨c, rfl⟩
  rw [iterF_add] at h
  cases hj : iterF g j x with
  | none => rw [hj] at h; simp at h
  | some y => simp

theorem get_node_isSome_iff_mem (g : SceneGraph) (id : ℕ) :
    (g.get_node id).isSome ↔ id ∈ g.nodes.map Prod.fst := by
  unfold SceneGraph.get_node lookupN
  constructor
  · intro h
    cases hf : g.nodes.find? (fun kn => kn.1 == id) with
    | none => rw [hf] at h; simp at h
    | some kn =>
      have := List.find?_some hf
      have hmem := List.mem_of_find?_eq_some hf
      simp only [beq_iff_eq] at this
      subst this
      exact List.mem_map.mpr ⟨kn, hmem, rfl⟩
  · intro h
    rcases List.mem_map.mp h with ⟨kn, hkn, hfst⟩
    have hs : (g.nodes.find? (fun kn => kn.1 == id)).isSome := by
      rw [List.find?_isSome]
      exact ⟨kn, hkn, by simp [hfst]⟩
    rcases Option.isSome_iff_exists.mp hs with ⟨x, hx⟩
    rw [hx]
    rfl

/-- Every strict ancestor position along a defined parent chain is a key of
the arena; with acyclicity the chain positions are pairwise distinct, so the
chain length is bounded by the number of nodes. -/
theorem chain_length_le (g : SceneGraph) (hacy : Acyclic g) (x : ℕ) (k : ℕ) (y : ℕ)
    (h : iterF g k x = some y) : k ≤ g.nodes.length := by
  by_contra hgt
  push_neg at hgt
  -- the positions 0..k-1 of the chain are defined and their nodes exist
  have hdef : ∀ j, j ≤ k → (iterF g j x).isSome := by
    intro j hj
    exact iterF_isSome_of_le g hj (by rw [h]; rfl)
  have hkey : ∀ j, j < k → ((iterF g j x).getD 0) ∈ g.nodes.map Prod.fst := by
    intro j hj
    have h1 : (iterF g (j+1) x).isSome := hdef (j+1) hj
    rcases Option.isSome_iff_exists.mp (hdef j hj.le) with ⟨z, hz⟩
    have h2 : iterF g (j+1) x = (parentF g z).bind (iterF g 0) := by
      rw [iterF_add g j 1 x, hz]
      show iterF g 1 z = _
      exact iterF_succ_front g 0 z
    rw [h2] at h1
    cases hp : parentF g z with
    | none => rw [hp] at h1; simp at h1
    | some w =>
      have : (g.get_node z).isSome := by
        unfold parentF at hp
        cases hgz : g.get_node z with
        | none => rw [hgz] at hp; simp at hp
        | some n => simp
      rw [hz]
      simpa using (get_node_isSome_iff_mem g z).mp this
  -- injectivity of the chain positions on 0..k
  have hinj : ∀ i j, i < j → j ≤ k → (iterF g i x) ≠ (iterF g j x) := by
    intro i j hij hjk heq
    rcases Option.isSome_iff_exists.mp (hdef i (le_of_lt (lt_of_lt_of_le hij hjk))) with ⟨z, hz⟩
    have hsplit : iterF g j x = (iterF g i x).bind (iterF g (j - i)) := by
      have := iterF_add g i (j - i) x
      rwa [Nat.add_sub_cancel' (le_of_lt hij)] at this
    rw [hsplit, hz] at heq
    simp only [Option.some_bind] at heq
    exact hacy z (j - i) (Nat.sub_pos_of_lt hij) heq.symm
  -- pigeonhole: k distinct keys
  have hcard : (Finset.range k).card ≤ (g.nodes.map Prod.fst).toFinset.card := by
    apply Finset.card_le_card_of_injOn (fun j => ((iterF g j x).getD 0))
    · intro j hj
      simp only [Finset.mem_range] at hj
      exact List.mem_toFinset.mpr (hkey j hj)
    · intro i hi j hj hij
      by_contra hne
      have hij' : (iterF g i x).getD 0 = (iterF g j x).getD 0 := hij
      simp only [Finset.mem_coe, Finset.mem_range] at hi hj
      rcases Nat.lt_or_ge i j with hlt | hge
      · rcases Option.isSome_iff_exists.mp (hdef i (le_of_lt (lt_of_lt_of_le hlt hj.le))) with ⟨zi, hzi⟩
        rcases Option.isSome_iff_exists.mp (hdef j hj.le) with ⟨zj, hzj⟩
        rw [hzi, hzj] at hij'
        simp only [Option.getD_some] at hij'
        exact hinj i j hlt hj.le (by rw [hzi, hzj, hij'])
      · rcases Nat.lt_or_ge j i with hlt | hge2
        · rcases Option.isSome_iff_exists.mp (hdef j (le_of_lt (lt_of_lt_of_le hlt hi.le))) with ⟨zj, hzj⟩
          rcases Option.isSome_iff_exists.mp (hdef i hi.le) with ⟨zi, hzi⟩
          rw [hzi, hzj] at hij'
          simp only [Option.getD_some] at hij'
          exact hinj j i hlt hi.le (by rw [hzj, hzi, hij'])
        · exact hne (Nat.le_antisymm hge2 hge)
  have hfin : (g.nodes.map Prod.fst).toFinset.card ≤ g.nodes.length := by
    calc (g.nodes.map Prod.fst).toFinset.card
        ≤ (g.nodes.map Prod.fst).length := List.toFinset_card_le _
      _ = g.nodes.length := List.length_map _ _
  rw [Finset.card_range] at hcard
  exact absurd (le_trans hcard hfin) (not_le.mpr hgt)

/-- If the ancestor walk reports a cycle, the child really is a (possibly
improper) ancestor of the proposed parent, and the child's node exists. -/
theorem cycleWalk_sound (g : SceneGraph) (c : ℕ) :
    ∀ (fuel q : ℕ), cycleWalk g c fuel q = true →
      ∃ k, iterF g k q = some c ∧ (g.get_node c).isSome := by
  intro fuel
  induction fuel with
  | zero => intro q h; simp [cycleWalk] at h
  | succ fuel ih =>
    intro q h
    unfold cycleWalk at h
    cases hq : g.get_node q with
    | none => rw [hq] at h; simp at h
    | some node =>
      rw [hq] at h
      by_cases hqc : q = c
      · subst hqc
        exact ⟨0, rfl, by rw [hq]; rfl⟩
      · simp only [hqc, if_false] at h
        cases hp : node.parent with
        | none => rw [hp] at h; simp at h
        | some p =>
          rw [hp] at h
          rcases ih p h with ⟨k, hk, hc⟩
          refine ⟨k + 1, ?_, hc⟩
          rw [iterF_succ_front]
          have hpf : parentF g q = some p := by simp [parentF, hq, hp]
          rw [hpf]
          exact hk

/-- If the child is an ancestor of the proposed parent within the fuel bound
(and both ends exist), the walk finds it. -/
theorem cycleWalk_complete (g : SceneGraph) (c : ℕ) :
    ∀ (k q fuel : ℕ), iterF g k q = some c → (g.get_node q).isSome →
      (g.get_node c).isSome → k < fuel → cycleWalk g c fuel q = true := by
  intro k
  induction k with
  | zero =>
    intro q fuel hit hq hc hfuel
    have : q = c := by simpa [iterF] using hit
    subst this
    cases fuel with
    | zero => exact absurd hfuel (by simp)
    | succ fuel =>
      rcases Option.isSome_iff_exists.mp hq with ⟨n, hn⟩
      simp [cycleWalk, hn]
  | succ k ih =>
    intro q fuel hit hq hc hfuel
    rw [iterF_succ_front] at hit
    cases hp : parentF g q with
    | none => rw [hp] at hit; simp at hit
    | some q' =>
      rw [hp] at hit
      simp only [Option.some_bind] at hit
      have hq'node : ∃ n, g.get_node q = some n ∧ n.parent = some q' := by
        unfold parentF at hp
        cases hgq : g.get_node q with
        | none => rw [hgq] at hp; simp at hp
        | some n =>
          rw [hgq] at hp
          simp only [Option.some_bind] at hp
          exact ⟨n, rfl, hp⟩
      rcases hq'node with ⟨n, hn, hnp⟩
      cases fuel with
      | zero => exact absurd hfuel (by simp)
      | succ fuel =>
        unfold cycleWalk
        rw [hn]
        by_cases hqc : q = c
        · simp [hqc]
        · simp only [hqc, if_false, hnp]
          have hq' : (g.get_node q').isSome := by
            cases k with
            | zero =>
              have : q' = c := by simpa [iterF] using hit
              rw [this]; exact hc
            | succ k =>
              rw [iterF_succ_front] at hit
              cases hp' : parentF g q' with
              | none => rw [hp'] at hit; simp at hit
              | some _ =>
                unfold parentF at hp'
                cases hgq' : g.get_node q' with
                | none => rw [hgq'] at hp'; simp at hp'
                | some _ => simp
          exact ih q' fuel hit hq' hc (Nat.lt_of_succ_lt_succ hfuel)

/-- On acyclic graphs (with the child present), `would_create_cycle`
decides exactly "the proposed parent *is* the child, or the child is a strict
ancestor of the proposed parent". -/
theorem would_create_cycle_iff (g : SceneGraph) (hacy : Acyclic g) (c p : ℕ)
    (hc : (g.get_node c).isSome) :
    g.would_create_cycle c p = true ↔ (p = c ∨ ∃ k, 0 < k ∧ iterF g k p = some c) := by
  constructor
  · intro h
    rcases cycleWalk_sound g c _ p h with ⟨k, hk, _⟩
    cases k with
    | zero => left; simpa [iterF] using hk
    | succ k => right; exact ⟨k + 1, Nat.succ_pos k, hk⟩
  · intro h
    have hker : ∃ k, iterF g k p = some c := by
      rcases h with h | ⟨k, _, hk⟩
      · exact ⟨0, by simp [iterF, h]⟩
      · exact ⟨k, hk⟩
    rcases hker with ⟨k, hk⟩
    have hb := chain_length_le g hacy p k c hk
    have hp : (g.get_node p).isSome := by
      cases k with
      | zero =>
        have : p = c := by simpa [iterF] using hk
        rw [this]; exact hc
      | succ k =>
        rw [iterF_succ_front] at hk
        cases hpf : parentF g p with
        | none => rw [hpf] at hk; simp at hk
        | some _ =>
          unfold parentF at hpf
          cases hgp : g.get_node p with
          | none => rw [hgp] at hpf; simp at hpf
          | some _ => simp
    exact cycleWalk_complete g c k p (g.nodes.length + 1) hk hp hc
      (Nat.lt_succ_of_le hb)

/-- The structural invariant of the scene graph (spec §3 "SceneGraph"
invariant plus the bookkeeping facts needed to maintain it): unique arena
keys below the id counter; roots are existing, unique, and exactly the
parentless nodes; parent/children links point to existing nodes and are
mutually consistent with no duplicate children; the parent relation is
acyclic. -/
structure InvA (g : SceneGraph) : Prop where
  keys_nodup : (g.nodes.map Prod.fst).Nodup
  keys_lt : ∀ x, (g.get_node x).isSome → x < g.next_id
  roots_sub : ∀ r ∈ g.root_nodes, (g.get_node r).isSome
  roots_nodup : g.root_nodes.Nodup
  parent_ex : ∀ x n p, g.get_node x = some n → n.parent = some p →
    (g.get_node p).isSome
  child_ex : ∀ x n c, g.get_node x = some n → c ∈ n.children →
    (g.get_node c).isSome
  child_nd : ∀ x n, g.get_node x = some n → n.children.Nodup
  link_up : ∀ x n p pn, g.get_node x = some n → n.parent = some p →
    g.get_node p = some pn → x ∈ pn.children
  link_down : ∀ p pn c cn, g.get_node p = some pn → c ∈ pn.children →
    g.get_node c = some cn → cn.parent = some p
  root_iff : ∀ x n, g.get_node x = some n → (x ∈ g.root_nodes ↔ n.parent = none)
  acyclic : Acyclic g

/-- The chain A→B→C of the claim: three nodes (ids 1, 2, 3), B parented
under A and C parented under B. -/
def abcGraph : SceneGraph :=
  let s1 := SceneGraph.new.create_node "A"
  let s2 := s1.1.create_node "B"
  let s3 := s2.1.create_node "C"
  let g1 := (s3.1.parent 2 1).1
  (g1.parent 3 2).1

deriving instance DecidableEq for Except

/-- Claim C4: `SceneGraph::parent(child, parent)` fails with the not-found
error when either id is absent, fails with the cycle error when the parent
equals the child or the child is an ancestor of the parent (found by walking
the parent's ancestor chain), and in every error case returns the graph
completely unchanged (the error branches return before any mutation).  In
particular, after building A→B→C, `parent(A, C)` fails with the cycle error
and leaves all links intact. -/
theorem c4_parent_error_handling :
    (∀ (g : SceneGraph) (c p : ℕ), g.get_node c = none →
        g.parent c p = (g, .error .nodeNotFound)) ∧
    (∀ (g : SceneGraph) (c p : ℕ), g.get_node p = none →
        g.parent c p = (g, .error .nodeNotFound)) ∧
    (∀ (g : SceneGraph) (c p : ℕ), (g.get_node c).isSome → (g.get_node p).isSome →
        g.would_create_cycle c p = true →
        g.parent c p = (g, .error .cycleDetected)) ∧
    (∀ (g : SceneGraph) (c p : ℕ), InvA g → (g.get_node c).isSome →
        (g.would_create_cycle c p = true ↔
          (p = c ∨ ∃ k, 0 < k ∧ iterF g k p = some c))) ∧
    (abcGraph.parent 1 3 = (abcGraph, .error .cycleDetected) ∧
      (abcGraph.get_node 2).map (fun n => n.parent) = some (some 1) ∧
      (abcGraph.get_node 3).map (fun n => n.parent) = some (some 2) ∧
      (abcGraph.get_node 1).map (fun n => n.children) = some [2] ∧
      (abcGraph.get_node 2).map (fun n => n.children) = some [3]) := by
  refine ⟨?_, ?_, ?_, ?_, ?_⟩
  · intro g c p h
    simp [SceneGraph.parent, h]
  · intro g c p h
    by_cases hc : g.get_node c = none
    · simp [SceneGraph.parent, hc]
    · simp [SceneGraph.parent, hc, h]
  · intro g c p hc hp hcyc
    have hc' : ¬ (g.get_node c).isNone := by simp [Option.isNone_iff_eq_none]; intro he; rw [he] at hc; simp at hc
    have hp' : ¬ (g.get_node p).isNone := by simp [Option.isNone_iff_eq_none]; intro he; rw [he] at hp; simp at hp
    simp [SceneGraph.parent, Option.isNone_iff_eq_none] at hc' hp'
    simp [SceneGraph.parent, hc', hp', hcyc]
  · intro g c p hinv hc
    exact would_create_cycle_iff g hinv.acyclic c p hc
  · refine ⟨?_, by decide, by decide, by decide, by decide⟩
    decide

/-- Modelled from the spec's description of the renderable walk (§4.5
`get_visible_renderables`): a pre-order walk; a node and its entire subtree
are skipped when `visible` is false or `opacity ≤ 0`; a surviving node with a
renderable contributes exactly one `(model matrix, renderable, raw opacity)`
triple; a node without a renderable contributes nothing but its children are
still visited, in order. -/
def specGatherRec : ℕ → SceneGraph → ℕ → List (TransformUniform × Renderable × ℚ)
  | 0, _, _ => []
  | fuel+1, g, node_id =>
    match g.get_node node_id with
    | none => []
    | some node =>
      if node.visible = true ∧ 0 < node.opacity then
        (match node.renderable with
         | some r => [(node.compute_model_matrix, r, node.opacity)]
         | none => []) ++
        node.children.foldr (fun c acc => specGatherRec fuel g c ++ acc) []
      else []

/-- Modelled from the spec: the concatenation of the per-root pre-order
walks. -/
def specVisibleRenderables (g : SceneGraph) : List (TransformUniform × Renderable × ℚ) :=
  g.root_nodes.foldr (fun r acc => specGatherRec (g.nodes.length + 1) g r ++ acc) []

/-- The accumulator-passing recursion of the source equals the denotational
pre-order walk of the spec, at every fuel. -/
theorem gather_eq_spec (g : SceneGraph) :
    ∀ (fuel : ℕ) (id : ℕ) (acc : List (TransformUniform × Renderable × ℚ)),
      SceneGraph.gather_renderables_recursive fuel g id acc
        = acc ++ specGatherRec fuel g id := by
  intro fuel
  induction fuel with
  | zero =>
    intro id acc
    simp [SceneGraph.gather_renderables_recursive, specGatherRec]
  | succ fuel ih =>
    intro id acc
    unfold SceneGraph.gather_renderables_recursive specGatherRec
    cases hid : g.get_node id with
    | none => simp
    | some node =>
      by_cases hv : node.visible = true ∧ 0 < node.opacity
      · simp only [hv, if_true]
        have hfold : ∀ (cs : List ℕ) (a : List (TransformUniform × Renderable × ℚ)),
            cs.foldl (fun a c => SceneGraph.gather_renderables_recursive fuel g c a) a
              = a ++ cs.foldr (fun c acc => specGatherRec fuel g c ++ acc) [] := by
          intro cs
          induction cs with
          | nil => intro a; simp
          | cons c cs ihc =>
            intro a
            rw [List.foldl_cons, ihc, ih]
            simp
        cases node.renderable with
        | none => rw [hfold]; simp
        | some r => rw [hfold]; simp
      · simp [hv]

/-- `get_visible_renderables` equals the spec's walk. -/
theorem get_visible_eq_spec (g : SceneGraph) :
    g.get_visible_renderables = specVisibleRenderables g := by
  unfold SceneGraph.get_visible_renderables specVisibleRenderables
  have hfold : ∀ (rs : List ℕ) (a : List (TransformUniform × Renderable × ℚ)),
      rs.foldl
        (fun acc rid =>
          SceneGraph.gather_renderables_recursive (g.nodes.length + 1) g rid acc) a
        = a ++ rs.foldr
            (fun r acc => specGatherRec (g.nodes.length + 1) g r ++ acc) [] := by
    intro rs
    induction rs with
    | nil => intro a; simp
    | cons r rs ihr =>
      intro a
      rw [List.foldl_cons, ihr, gather_eq_spec]
      simp
  rw [hfold]
  simp

/-- The hidden-parent scenario of the claim: a parent node that is invisible,
with a visible child carrying a renderable. -/
def hiddenParentGraph : SceneGraph :=
  let s1 := SceneGraph.new.create_node "Parent"
  let s2 := s1.1.create_node "Child"
  let g1 := (s2.1.parent 2 1).1
  let g2 : SceneGraph :=
    { g1 with nodes := modifyN g1.nodes 1 (fun n => { n with visible := false }) }
  { g2 with nodes := (modifyN g2.nodes 2
      (fun n => n.set_renderable (Renderable.Circle 1 Color.BLACK))) }

/-- Claim C6: `get_visible_renderables` performs the spec's pre-order walk —
a node and its entire subtree are skipped when `visible` is false or
`opacity ≤ 0`; every surviving node with a renderable contributes exactly one
`(world matrix, cloned renderable, its own raw opacity)` triple; nodes
without renderables contribute nothing but their children are visited.  In
particular the hidden parent with a visible renderable-bearing child yields
an empty list. -/
theorem c6_visible_renderables :
    (∀ g : SceneGraph, g.get_visible_renderables = specVisibleRenderables g) ∧
    hiddenParentGraph.get_visible_renderables = [] := by
  refine ⟨get_visible_eq_spec, by decide⟩

theorem lookupN_nil (id : ℕ) : lookupN [] id = none := rfl

theorem lookupN_cons (kn : ℕ × SceneNode) (nodes : List (ℕ × SceneNode)) (id : ℕ) :
    lookupN (kn :: nodes) id = if kn.1 = id then some kn.2 else lookupN nodes id := by
  by_cases h : kn.1 = id
  · simp [lookupN, List.find?_cons, h]
  · simp [lookupN, List.find?_cons, h]

theorem lookupN_append_single (nodes : List (ℕ × SceneNode)) (id : ℕ) (n : SceneNode)
    (x : ℕ) (hfresh : lookupN nodes id = none) :
    lookupN (nodes ++ [(id, n)]) x = if x = id then some n else lookupN nodes x := by
  induction nodes with
  | nil =>
    by_cases h : x = id
    · subst h; simp [lookupN_cons]
    · rw [if_neg h, lookupN_nil, List.nil_append, lookupN_cons, lookupN_nil]
      rw [if_neg (fun hc => h hc.symm)]
  | cons kn rest ih =>
    rw [lookupN_cons] at hfresh
    have hkid : ¬ kn.1 = id := by
      intro hc
      rw [if_pos hc] at hfresh
      exact Option.noConfusion hfresh
    rw [if_neg hkid] at hfresh
    rw [List.cons_append, lookupN_cons, lookupN_cons, ih hfresh]
    by_cases h : kn.1 = x
    · rw [if_pos h, if_pos h]
      rw [if_neg (fun hc : x = id => hkid (h.trans hc))]
    · rw [if_neg h, if_neg h]

theorem lookupN_modifyN (nodes : List (ℕ × SceneNode)) (id : ℕ) (f : SceneNode → SceneNode)
    (x : ℕ) :
    lookupN (modifyN nodes id f) x
      = if x = id then (lookupN nodes id).map f else lookupN nodes x := by
  induction nodes with
  | nil =>
    by_cases h : x = id <;> simp [modifyN, lookupN_nil, h]
  | cons kn rest ih =>
    simp only [modifyN, List.map_cons] at ih ⊢
    by_cases hx : x = id
    · subst hx
      by_cases hk : kn.1 = x
      · simp [hk, lookupN_cons, ih]
      · simp [hk, lookupN_cons, ih]
    · by_cases hk : kn.1 = id
      · have hknx : ¬ kn.1 = x := fun hc => hx (hc.symm.trans hk)
        have hidx : ¬ id = x := fun hc => hx hc.symm
        simp [hk, hknx, hidx, lookupN_cons, ih, hx]
      · by_cases hknx : kn.1 = x
        · simp [hk, hknx, lookupN_cons, hx]
        · simp [hk, hknx, lookupN_cons, ih, hx]

theorem lookupN_eraseN (nodes : List (ℕ × SceneNode)) (id : ℕ) (x : ℕ) :
    lookupN (eraseN nodes id) x
      = if x = id then none else lookupN nodes x := by
  induction nodes with
  | nil =>
    by_cases h : x = id <;> simp [eraseN, lookupN_nil, h]
  | cons kn rest ih =>
    simp only [eraseN, List.filter_cons] at ih ⊢
    by_cases hk : kn.1 = id
    · have hb : (kn.1 != id) = false := by simp [hk]
      rw [hb]
      by_cases hx : x = id
      · subst hx
        simp [ih]
      · have hknx : ¬ kn.1 = x := fun hc => hx (hc.symm.trans hk)
        simp [ih, hx, lookupN_cons, hknx]
    · have hb : (kn.1 != id) = true := by simp [hk]
      rw [hb]
      by_cases hknx : kn.1 = x
      · have hx : ¬ x = id := fun hc => hk (hknx.trans hc)
        simp [lookupN_cons, hknx, hx, ih]
      · simp [lookupN_cons, hknx, ih]

theorem keys_modifyN (nodes : List (ℕ × SceneNode)) (id : ℕ) (f : SceneNode → SceneNode) :
    (modifyN nodes id f).map Prod.fst = nodes.map Prod.fst := by
  induction nodes with
  | nil => rfl
  | cons kn rest ih =>
    simp only [modifyN, List.map_cons] at ih ⊢
    by_cases hk : kn.1 = id
    · rw [if_pos hk, ih]
    · rw [if_neg hk, ih]

theorem keys_eraseN (nodes : List (ℕ × SceneNode)) (id : ℕ) :
    (eraseN nodes id).map Prod.fst = (nodes.map Prod.fst).filter (fun k => k != id) := by
  induction nodes with
  | nil => rfl
  | cons kn rest ih =>
    simp only [eraseN, List.filter_cons, List.map_cons] at ih ⊢
    by_cases hk : kn.1 = id
    · have hb : (kn.1 != id) = false := by simp [hk]
      rw [hb]
      simp only [Bool.false_eq_true, if_false, ih]
    · have hb : (kn.1 != id) = true := by simp [hk]
      rw [hb]
      simp only [if_true, List.map_cons, ih]

theorem keys_append_single (nodes : List (ℕ × SceneNode)) (id : ℕ) (n : SceneNode) :
    ((nodes ++ [(id, n)]).map Prod.fst) = nodes.map Prod.fst ++ [id] := by
  simp

theorem InvA.fresh {g : SceneGraph} (hinv : InvA g) : g.get_node g.next_id = none := by
  cases h : g.get_node g.next_id with
  | none => rfl
  | some n =>
    have := hinv.keys_lt g.next_id (by rw [h]; rfl)
    exact absurd this (lt_irrefl _)

/-- Pointwise effect of `create_node` (given a fresh id, as the invariant
guarantees). -/
theorem create_node_get (g : SceneGraph) (name : String) (x : ℕ)
    (hfresh : g.get_node g.next_id = none) :
    (g.create_node name).1.get_node x
      = if x = g.next_id then some (SceneNode.new g.next_id name)
        else g.get_node x := by
  unfold SceneGraph.create_node SceneGraph.get_node
  simp only [insertN]
  unfold SceneGraph.get_node at hfresh
  rw [if_neg (by rw [hfresh]; simp)]
  exact lookupN_append_single g.nodes g.next_id _ x hfresh

theorem create_node_with_transform_get (g : SceneGraph) (name : String) (t : Transform)
    (x : ℕ) (hfresh : g.get_node g.next_id = none) :
    (g.create_node_with_transform name t).1.get_node x
      = if x = g.next_id then some (SceneNode.with_transform g.next_id name t)
        else g.get_node x := by
  unfold SceneGraph.create_node_with_transform SceneGraph.get_node
  simp only [insertN]
  unfold SceneGraph.get_node at hfresh
  rw [if_neg (by rw [hfresh]; simp)]
  exact lookupN_append_single g.nodes g.next_id _ x hfresh

/-- On success, the full pointwise effect of `SceneGraph::parent`:
the child leaves the root list, its parent pointer is set, the new parent's
children list gains the child (if not already there), and the old parent (if
any, and distinct from the new one) loses the child from its children list.
Nothing else changes. -/
theorem parent_ok_spec (g : SceneGraph) (c p : ℕ) (nc np : SceneNode)
    (hinv : InvA g)
    (hc : g.get_node c = some nc) (hp : g.get_node p = some np)
    (hcyc : g.would_create_cycle c p = false) :
    (g.parent c p).2 = .ok () ∧
    (g.parent c p).1.root_nodes = g.root_nodes.filter (fun id => id != c) ∧
    (g.parent c p).1.next_id = g.next_id ∧
    (∀ x, (g.parent c p).1.get_node x =
      if x = c then some { nc with parent := some p }
      else if x = p then
        some (if c ∈ np.children then np
              else { np with children := np.children ++ [c] })
      else
        match nc.parent with
        | some old =>
          if x = old then
            (g.get_node x).map
              (fun n => { n with children := n.children.filter (fun id => id != c) })
          else g.get_node x
        | none => g.get_node x) := by
  have hpc : p ≠ c := by
    intro he
    subst he
    unfold SceneGraph.would_create_cycle at hcyc
    unfold cycleWalk at hcyc
    rw [hp] at hcyc
    simp at hcyc
  have holdc : ∀ old, nc.parent = some old → old ≠ c := by
    intro old hold he
    apply hinv.acyclic c 1 Nat.one_pos
    show (iterF g 0 c).bind (parentF g) = some c
    simp [iterF, parentF, hc, hold, he]
  have hcn : ¬ (g.get_node c).isNone := by rw [hc]; simp
  have hpn : ¬ (g.get_node p).isNone := by rw [hp]; simp
  have hc' : lookupN g.nodes c = some nc := hc
  have hp' : lookupN g.nodes p = some np := hp
  unfold SceneGraph.parent
  rw [if_neg hcn, if_neg hpn, if_neg (by rw [hcyc]; simp)]
  refine ⟨rfl, ?_, ?_, ?_⟩
  · -- root list: only the first step touches it
    cases hop : nc.parent with
    | none => simp [SceneGraph.get_node, hc', hop]
    | some old =>
      by_cases hop2 : old = p <;> simp [SceneGraph.get_node, hc', hop, hop2]
  · cases hop : nc.parent with
    | none => simp [SceneGraph.get_node, hc', hop]
    | some old =>
      by_cases hop2 : old = p <;> simp [SceneGraph.get_node, hc', hop, hop2]
  · intro x
    have hcp : ¬ c = p := fun hh => hpc hh.symm
    cases hop : nc.parent with
    | none =>
      have hbind : ((lookupN g.nodes c).bind fun n => n.parent) = none := by
        rw [hc']; simpa using hop
      simp only [SceneGraph.get_node, hbind]
      by_cases hx : x = c
      · have hxp : ¬ x = p := fun hh => hcp ((hx ▸ hh : c = p))
        simp [lookupN_modifyN, hx, hxp, hc', hcp]
      · by_cases hxp : x = p
        · by_cases hmem : c ∈ np.children <;>
            simp [lookupN_modifyN, hx, hxp, hp', hop, hmem, hpc]
        · simp [lookupN_modifyN, hx, hxp, hop]
    | some old =>
      have hoc : ¬ old = c := holdc old hop
      have hco : ¬ c = old := fun hh => hoc hh.symm
      have hbind : ((lookupN g.nodes c).bind fun n => n.parent) = some old := by
        rw [hc']; simpa using hop
      simp only [SceneGraph.get_node, hbind]
      by_cases hop2 : old = p
      · subst hop2
        rw [if_neg (show ¬ (old ≠ old) from fun hh => hh rfl)]
        by_cases hx : x = c
        · have hxp : ¬ x = old := fun hh => hcp ((hx ▸ hh : c = old))
          simp [lookupN_modifyN, hx, hxp, hc', hop, hcp, hco, hpc, hoc]
        · by_cases hxp : x = old
          · by_cases hmem : c ∈ np.children <;>
              simp [lookupN_modifyN, hx, hxp, hp', hop, hmem, hpc, hoc, hcp, hco]
          · simp [lookupN_modifyN, hx, hxp, hop]
      · have hpo : ¬ p = old := fun hh => hop2 hh.symm
        rw [if_pos (show old ≠ p from hop2)]
        by_cases hx : x = c
        · have hxp : ¬ x = p := fun hh => hcp ((hx ▸ hh : c = p))
          have hxo : ¬ x = old := fun hh => hco ((hx ▸ hh : c = old))
          simp [lookupN_modifyN, hx, hxp, hxo, hc', hop, hcp, hco, hpc, hoc, hpo, hop2]
        · by_cases hxp : x = p
          · have hxo : ¬ x = old := fun hh => hop2 (hh.symm.trans hxp)
            by_cases hmem : c ∈ np.children <;>
              simp [lookupN_modifyN, hx, hxp, hxo, hp', hop, hmem, hpc, hcp, hoc,
                hco, hpo, hop2]
          · by_cases hxo : x = old
            · simp [lookupN_modifyN, hx, hxp, hxo, hop, SceneGraph.get_node, hpc,
                hcp, hoc, hco, hpo, hop2]
            · simp [lookupN_modifyN, hx, hxp, hxo, hop]


/-- The list of all definitions that a concrete evaluation of a node update
unfolds (shared by the C8 and C10 concrete computations). -/
theorem applyTrack_opacity (time : ℚ) (st : SceneNode × Bool)
    (track : AnimationTrack Vector3) (h : track.name = "opacity") :
    SceneNode.applyTrack time st (.vec3 track)
      = ({ st.1 with opacity := fclamp (track.sampleT time).x 0 1 }, st.2) := by
  have h1 : track.name ≠ "position" := by rw [h]; decide
  have h2 : track.name ≠ "rotation" := by rw [h]; decide
  have h3 : track.name ≠ "scale" := by rw [h]; decide
  simp [SceneNode.applyTrack, h, h1, h2, h3]

/-- A node whose only animation is a constant `move_to` effect: the sampled
position always equals the node's current local position. -/
def c8node : SceneNode :=
  (SceneNode.new 0 "n").add_animation
    (AnimationInstance.new (move_to ⟨0, 0, 0⟩ ⟨0, 0, 0⟩ 1) 0)

/-- Counterexample to claim C8's "if and only if a transform-affecting field
changed": updating `c8node` applies a position track whose sampled value equals
the current local position, so no transform-affecting field (indeed no field of
the local transform, nor the opacity) changes, yet `update_animations` returns
`true` — the flag is set by track *application*, not by value change. -/
theorem c8_counterexample :
    (c8node.update_animations (1/2)).2 = true ∧
    (c8node.update_animations (1/2)).1._local_transform = c8node._local_transform ∧
    (c8node.update_animations (1/2)).1.opacity = c8node.opacity := by
  refine ⟨?_, ?_, ?_⟩ <;>
    norm_num [c8node, SceneNode.update_animations, SceneNode.new, SceneNode.add_animation,
      SceneNode.animStep, SceneNode.stepAnim, SceneNode.applyTrack, AnimationInstance.new,
      move_to, AnimationClip.new, AnimationClip.add_track, AnimationTrack.new,
      AnimationTrack.add_keyframe, AnimationTrack.duration, AnimationClip.duration,
      AnyTrack.duration, sortKF, insertKF, Keyframe.new, TimeValue.new, TimeValue.add,
      TimeValue.sub, TimeValue.rem, AnimationTrack.sampleT, findSegT,
      InterpolationType.apply, Animatable.lerp, Transform.new, Vector3.zero]

/-- Claim C8, corrected: the flag returned by `SceneNode::update_animations` is
set whenever a playing instance applies a `Vector3` track named "position",
"rotation" or "scale", whether or not the written value differs from the old
one (so it is *not* equivalent to "a transform-affecting field changed" — see
`c8_counterexample`).  The rest of the claim holds: a playing instance whose
tracks are all non-transform tracks (e.g. opacity tracks, which write the
clamped `x` component, or unrecognized names, which are ignored) yields `false`,
and when every node's flag is `false` the graph-level `update_animations` skips
the transform re-propagation pass entirely. -/
theorem c8_update_flag :
    (∀ (node : SceneNode) (delta_time : ℚ),
      (node.update_animations delta_time).2
        = node.animations.any (fun a =>
            a.is_playing && a.clip.tracks.any AnyTrack.isTransformTrack)) ∧
    (∀ (node : SceneNode) (delta_time : ℚ),
      (∀ a ∈ node.animations, a.is_playing = true →
        ∀ tb ∈ a.clip.tracks, tb.isTransformTrack = false) →
      (node.update_animations delta_time).2 = false) ∧
    (∀ (time : ℚ) (st : SceneNode × Bool) (track : AnimationTrack Vector3),
      track.name = "opacity" →
      SceneNode.applyTrack time st (.vec3 track)
        = ({ st.1 with opacity := fclamp (track.sampleT time).x 0 1 }, st.2)) ∧
    (∀ (g : SceneGraph) (delta_time : ℚ),
      (∀ kn ∈ g.nodes, (kn.2.update_animations delta_time).2 = false) →
      g.update_animations delta_time
        = { g with nodes := (g.nodes.map
            (fun kn => (kn.1, (kn.2.update_animations delta_time).1))) }) := by
  have hflag : ∀ (node : SceneNode) (delta_time : ℚ),
      (node.update_animations delta_time).2
        = node.animations.any (fun a =>
            a.is_playing && a.clip.tracks.any AnyTrack.isTransformTrack) := by
    intro node delta_time
    simp only [SceneNode.update_animations]
    rw [(update_animations_fold delta_time node.animations (node, ([], false))).2]
    simp
  refine ⟨hflag, ?_, ?_, ?_⟩
  · intro node delta_time h
    rw [hflag]
    rw [List.any_eq_false]
    intro a ha
    by_cases hp : a.is_playing = true
    · have htr : a.clip.tracks.any AnyTrack.isTransformTrack = false := by
        rw [List.any_eq_false]
        intro tb htb
        simp [h a ha hp tb htb]
      simp [hp, htr]
    · rw [Bool.not_eq_true] at hp
      simp [hp]
  · intro time st track h
    exact applyTrack_opacity time st track h
  · intro g delta_time h
    simp only [SceneGraph.update_animations]
    have hch : (g.nodes.map (fun kn => (kn.1, kn.2.update_animations delta_time))).any
        (fun kr => kr.2.2) = false := by
      rw [List.any_eq_false]
      intro kr hkr
      rcases List.mem_map.mp hkr with ⟨kn, hkn, rfl⟩
      simp [h kn hkn]
    rw [hch]
    simp

/-- Witness for `c8_update_flag`: a node with a playing fade-in instance (an
opacity track only) reports no transform change. -/
theorem c8_witness :
    (∀ a ∈ ((SceneNode.new 0 "w").add_animation
        (AnimationInstance.new (fade_in 1) 0)).animations, a.is_playing = true →
      ∀ tb ∈ a.clip.tracks, tb.isTransformTrack = false) ∧
    (((SceneNode.new 0 "w").add_animation
        (AnimationInstance.new (fade_in 1) 0)).update_animations 1).2 = false := by
  have h : ∀ a ∈ ((SceneNode.new 0 "w").add_animation
      (AnimationInstance.new (fade_in 1) 0)).animations, a.is_playing = true →
      ∀ tb ∈ a.clip.tracks, tb.isTransformTrack = false := by
    intro a ha _ tb htb
    simp only [SceneNode.new, SceneNode.add_animation, AnimationInstance.new,
      List.nil_append, List.mem_singleton] at ha
    subst ha
    simp only [fade_in, AnimationClip.add_track, AnimationClip.new,
      List.nil_append, List.mem_singleton] at htb
    subst htb
    simp [AnyTrack.isTransformTrack, AnimationTrack.add_keyframe, AnimationTrack.new]
  exact ⟨h, c8_update_flag.2.1 _ 1 h⟩

/-- Claim C10: after `SceneNode::update_animations`, the surviving instance
list is exactly the advanced instances that are still playing or whose clip
loops (the `retain` call).  `pause` only clears `is_playing` (keeping the
clock), so a paused non-looping instance is indistinguishable from a finished
one and is dropped by the very next update. -/
theorem c10_instance_retention :
    (∀ (node : SceneNode) (delta_time : ℚ),
      (node.update_animations delta_time).1.animations
        = (node.animations.map
            (fun a => if a.is_playing then SceneNode.stepAnim delta_time a else a)).filter
              (fun a => a.is_playing || a.clip.loop_animation)) ∧
    (∀ (node : SceneNode) (delta_time : ℚ) (a : AnimationInstance),
      a.is_playing = false → a.clip.loop_animation = false →
      a ∉ (node.update_animations delta_time).1.animations) ∧
    (∀ a : AnimationInstance,
      a.pause.is_playing = false ∧ a.pause.current_time = a.current_time ∧
        a.pause.clip = a.clip) ∧
    (∀ (node : SceneNode) (delta_time : ℚ) (a : AnimationInstance),
      node.animations = [a.pause] → a.clip.loop_animation = false →
      (node.update_animations delta_time).1.animations = []) := by
  have hlist : ∀ (node : SceneNode) (delta_time : ℚ),
      (node.update_animations delta_time).1.animations
        = (node.animations.map
            (fun a => if a.is_playing then SceneNode.stepAnim delta_time a else a)).filter
              (fun a => a.is_playing || a.clip.loop_animation) := by
    intro node delta_time
    simp only [SceneNode.update_animations]
    rw [(update_animations_fold delta_time node.animations (node, ([], false))).1]
    simp
  refine ⟨hlist, ?_, ?_, ?_⟩
  · intro node delta_time a hp hl hmem
    rw [hlist] at hmem
    rcases List.mem_filter.mp hmem with ⟨-, hkeep⟩
    rw [hp, hl] at hkeep
    simp at hkeep
  · intro a
    exact ⟨rfl, rfl, rfl⟩
  · intro node delta_time a hanims hl
    rw [hlist, hanims]
    have hp : a.pause.is_playing = false := rfl
    have hcl : a.pause.clip = a.clip := rfl
    simp [hp, hcl, hl]

/-- Witness for `c10_instance_retention`: pausing a playing non-looping fade-in
instance makes the next node update delete it. -/
theorem c10_witness :
    ((SceneNode.new 0 "w").add_animation
        ((AnimationInstance.new (fade_in 1) 0).pause)).animations
      = [(AnimationInstance.new (fade_in 1) 0).pause] ∧
    (fade_in 1).loop_animation = false ∧
    (((SceneNode.new 0 "w").add_animation
        ((AnimationInstance.new (fade_in 1) 0).pause)).update_animations 1).1.animations
      = [] := by
  refine ⟨by simp [SceneNode.new, SceneNode.add_animation], rfl, ?_⟩
  exact c10_instance_retention.2.2.2 _ 1 (AnimationInstance.new (fade_in 1) 0)
    (by simp [SceneNode.new, SceneNode.add_animation]) rfl

/-- Erase everything `compute_model_matrix`, the renderable walk and the
transform propagation never read: both rotation fields and the animation
list.  Two nodes with the same image under `renderStrip` are
indistinguishable to the rendering pipeline. -/
def renderStrip (n : SceneNode) : SceneNode :=
  { n with
      _local_transform := { n._local_transform with rotation := Quaternion.identity },
      world_transform := { n.world_transform with rotation := Quaternion.identity },
      animations := [] }

/-- Two graphs that agree up to rotations and animation lists. -/
def RendAgree (g g' : SceneGraph) : Prop :=
  g.root_nodes = g'.root_nodes ∧
  g.nodes.map (fun kn => (kn.1, renderStrip kn.2))
    = g'.nodes.map (fun kn => (kn.1, renderStrip kn.2))

theorem mapCongrMem {α β : Type} (f f' : α → β) (l : List α)
    (h : ∀ a ∈ l, f a = f' a) : l.map f = l.map f' := by
  induction l with
  | nil => rfl
  | cons a rest ih =>
    simp only [List.map_cons]
    rw [h a (List.mem_cons_self a rest), ih (fun b hb => h b (List.mem_cons_of_mem a hb))]

theorem foldlFunExt {α β : Type} (f f' : α → β → α) (h : ∀ a b, f a b = f' a b) :
    ∀ (l : List β) (a : α), l.foldl f a = l.foldl f' a := by
  intro l
  induction l with
  | nil => intro a; rfl
  | cons b rest ih => intro a; simp only [List.foldl_cons]; rw [h a b]; exact ih _

theorem lookupN_mapVal (f : SceneNode → SceneNode) (nodes : List (ℕ × SceneNode))
    (id : ℕ) :
    lookupN (nodes.map (fun kn => (kn.1, f kn.2))) id = (lookupN nodes id).map f := by
  induction nodes with
  | nil => rfl
  | cons kn rest ih =>
    by_cases hk : kn.1 = id
    · simp [List.map_cons, lookupN_cons, hk]
    · simp [List.map_cons, lookupN_cons, hk, ih]

theorem modifyN_mapVal (s f f' : SceneNode → SceneNode)
    (h : ∀ n, s (f n) = f' (s n)) (nodes : List (ℕ × SceneNode)) (id : ℕ) :
    (modifyN nodes id f).map (fun kn => (kn.1, s kn.2))
      = modifyN (nodes.map (fun kn => (kn.1, s kn.2))) id f' := by
  simp only [modifyN, List.map_map]
  apply mapCongrMem
  intro kn _
  by_cases hk : kn.1 = id
  · simp [Function.comp, hk, h]
  · simp [Function.comp, hk]

theorem rendAgree_length {g g' : SceneGraph} (h : RendAgree g g') :
    g.nodes.length = g'.nodes.length := by
  have := congrArg List.length h.2
  simpa using this

theorem rendAgree_get {g g' : SceneGraph} (h : RendAgree g g') (x : ℕ) :
    (g.get_node x).map renderStrip = (g'.get_node x).map renderStrip := by
  have h1 := lookupN_mapVal renderStrip g.nodes x
  have h2 := lookupN_mapVal renderStrip g'.nodes x
  rw [h.2] at h1
  simp only [SceneGraph.get_node]
  rw [← h1, ← h2]

/-- The canonical parent-world transform: `update_node_transform_recursive`
only reads the position and scale of the transform passed down. -/
def canonPW (t : Transform) : Transform :=
  ⟨t.position, Quaternion.identity, t.scale⟩

theorem utr_rendAgree :
    ∀ (fuel : ℕ) (g g' : SceneGraph) (id : ℕ) (pw pw' : Transform),
      RendAgree g g' → pw.position = pw'.position → pw.scale = pw'.scale →
      RendAgree (SceneGraph.update_node_transform_recursive fuel g id pw)
        (SceneGraph.update_node_transform_recursive fuel g' id pw') := by
  intro fuel
  induction fuel with
  | zero => intro g g' id pw pw' h _ _; exact h
  | succ fuel ih =>
    intro g g' id pw pw' h hpos hscale
    have hget := rendAgree_get h id
    -- the children lists agree
    have hch : (match g.get_node id with
        | some node => node.children | none => ([] : List ℕ))
        = (match g'.get_node id with
        | some node => node.children | none => ([] : List ℕ)) := by
      cases hg : g.get_node id with
      | none =>
        cases hg' : g'.get_node id with
        | none => rfl
        | some n' => rw [hg, hg'] at hget; simp at hget
      | some n =>
        cases hg' : g'.get_node id with
        | none => rw [hg, hg'] at hget; simp at hget
        | some n' =>
          rw [hg, hg'] at hget
          simp only [Option.map_some', Option.some.injEq] at hget
          have h0 := congrArg SceneNode.children hget
          exact h0
    -- the updated graphs agree
    have hkey : ∀ (t : Transform) (n : SceneNode),
        renderStrip ({ n with world_transform :=
          { position := t.position + n._local_transform.position,
            rotation := n._local_transform.rotation,
            scale := ⟨t.scale.x * n._local_transform.scale.x,
                      t.scale.y * n._local_transform.scale.y,
                      t.scale.z * n._local_transform.scale.z⟩ } })
          = { renderStrip n with world_transform :=
          { position := (canonPW t).position + (renderStrip n)._local_transform.position,
            rotation := (renderStrip n)._local_transform.rotation,
            scale := ⟨(canonPW t).scale.x * (renderStrip n)._local_transform.scale.x,
                      (canonPW t).scale.y * (renderStrip n)._local_transform.scale.y,
                      (canonPW t).scale.z * (renderStrip n)._local_transform.scale.z⟩ } } := by
      intro t n; rfl
    have hcanon : canonPW pw = canonPW pw' := by
      simp only [canonPW, hpos, hscale]
    have h1 : RendAgree
        { g with nodes := (modifyN g.nodes id (fun node =>
            { node with world_transform :=
                { position := pw.position + node._local_transform.position,
                  rotation := node._local_transform.rotation,
                  scale := ⟨pw.scale.x * node._local_transform.scale.x,
                            pw.scale.y * node._local_transform.scale.y,
                            pw.scale.z * node._local_transform.scale.z⟩ } })) }
        { g' with nodes := (modifyN g'.nodes id (fun node =>
            { node with world_transform :=
                { position := pw'.position + node._local_transform.position,
                  rotation := node._local_transform.rotation,
                  scale := ⟨pw'.scale.x * node._local_transform.scale.x,
                            pw'.scale.y * node._local_transform.scale.y,
                            pw'.scale.z * node._local_transform.scale.z⟩ } })) } := by
      refine ⟨h.1, ?_⟩
      rw [modifyN_mapVal renderStrip _ (fun node =>
            { node with world_transform :=
                { position := (canonPW pw).position + node._local_transform.position,
                  rotation := node._local_transform.rotation,
                  scale := ⟨(canonPW pw).scale.x * node._local_transform.scale.x,
                            (canonPW pw).scale.y * node._local_transform.scale.y,
                            (canonPW pw).scale.z * node._local_transform.scale.z⟩ } })
            (hkey pw)]
      rw [modifyN_mapVal renderStrip _ (fun node =>
            { node with world_transform :=
                { position := (canonPW pw').position + node._local_transform.position,
                  rotation := node._local_transform.rotation,
                  scale := ⟨(canonPW pw').scale.x * node._local_transform.scale.x,
                            (canonPW pw').scale.y * node._local_transform.scale.y,
                            (canonPW pw').scale.z * node._local_transform.scale.z⟩ } })
            (hkey pw')]
      rw [h.2, hcanon]
    -- the worlds read back for the children agree on position and scale
    simp only [SceneGraph.update_node_transform_recursive]
    rw [← hch]
    set g1 := { g with nodes := (modifyN g.nodes id (fun node =>
        { node with world_transform :=
            { position := pw.position + node._local_transform.position,
              rotation := node._local_transform.rotation,
              scale := ⟨pw.scale.x * node._local_transform.scale.x,
                        pw.scale.y * node._local_transform.scale.y,
                        pw.scale.z * node._local_transform.scale.z⟩ } })) } with hg1
    set g1' := { g' with nodes := (modifyN g'.nodes id (fun node =>
        { node with world_transform :=
            { position := pw'.position + node._local_transform.position,
              rotation := node._local_transform.rotation,
              scale := ⟨pw'.scale.x * node._local_transform.scale.x,
                        pw'.scale.y * node._local_transform.scale.y,
                        pw'.scale.z * node._local_transform.scale.z⟩ } })) } with hg1'
    have hget1 := rendAgree_get h1 id
    have hw : (match g1.get_node id with
          | some node => node.world_transform | none => pw).position
        = (match g1'.get_node id with
          | some node => node.world_transform | none => pw').position ∧
        (match g1.get_node id with
          | some node => node.world_transform | none => pw).scale
        = (match g1'.get_node id with
          | some node => node.world_transform | none => pw').scale := by
      cases hg : g1.get_node id with
      | none =>
        cases hg' : g1'.get_node id with
        | none => exact ⟨hpos, hscale⟩
        | some n' => rw [hg, hg'] at hget1; simp at hget1
      | some n =>
        cases hg' : g1'.get_node id with
        | none => rw [hg, hg'] at hget1; simp at hget1
        | some n' =>
          rw [hg, hg'] at hget1
          simp only [Option.map_some', Option.some.injEq] at hget1
          have h0 := congrArg (fun m => m.world_transform.position) hget1
          have h1 := congrArg (fun m => m.world_transform.scale) hget1
          exact ⟨h0, h1⟩
    -- fold over the (shared) children list
    have haux : ∀ (cs : List ℕ) (a a' : SceneGraph), RendAgree a a' →
        RendAgree
          (cs.foldl (fun acc c => SceneGraph.update_node_transform_recursive fuel acc c
            (match g1.get_node id with
              | some node => node.world_transform | none => pw)) a)
          (cs.foldl (fun acc c => SceneGraph.update_node_transform_recursive fuel acc c
            (match g1'.get_node id with
              | some node => node.world_transform | none => pw')) a') := by
      intro cs
      induction cs with
      | nil => intro a a' ha; exact ha
      | cons c rest ihc =>
        intro a a' ha
        simp only [List.foldl_cons]
        exact ihc _ _ (ih a a' c _ _ ha hw.1 hw.2)
    exact haux _ _ _ h1

theorem update_transforms_rendAgree {g g' : SceneGraph} (h : RendAgree g g') :
    RendAgree g.update_transforms g'.update_transforms := by
  have hreset : RendAgree
      { g with nodes := (g.nodes.map (fun kn =>
          (kn.1, { kn.2 with world_transform := kn.2._local_transform }))) }
      { g' with nodes := (g'.nodes.map (fun kn =>
          (kn.1, { kn.2 with world_transform := kn.2._local_transform }))) } := by
    refine ⟨h.1, ?_⟩
    have hcomm : ∀ nodes : List (ℕ × SceneNode),
        (nodes.map (fun kn =>
          (kn.1, { kn.2 with world_transform := kn.2._local_transform }))).map
            (fun kn => (kn.1, renderStrip kn.2))
        = (nodes.map (fun kn => (kn.1, renderStrip kn.2))).map
            (fun kn => (kn.1, { kn.2 with world_transform := kn.2._local_transform })) := by
      intro nodes
      rw [List.map_map, List.map_map]
      rfl
    simp only [hcomm, h.2]
  have hlen : g.nodes.length = g'.nodes.length := rendAgree_length h
  have haux : ∀ (rs rs' : List ℕ), rs = rs' → ∀ (a a' : SceneGraph), RendAgree a a' →
      RendAgree
        (rs.foldl (fun acc rid => SceneGraph.update_node_transform_recursive
          (g'.nodes.length + 1) acc rid Transform.new) a)
        (rs'.foldl (fun acc rid => SceneGraph.update_node_transform_recursive
          (g'.nodes.length + 1) acc rid Transform.new) a') := by
    intro rs rs' heq
    subst heq
    induction rs with
    | nil => intro a a' ha; exact ha
    | cons r rest ihr =>
      intro a a' ha
      simp only [List.foldl_cons]
      exact ihr _ _ (utr_rendAgree _ a a' r _ _ ha rfl rfl)
  simp only [SceneGraph.update_transforms]
  rw [hlen]
  exact haux _ _ h.1 _ _ hreset

theorem gather_rendAgree {g g' : SceneGraph} (h : RendAgree g g') :
    ∀ (fuel : ℕ) (id : ℕ) (acc : List (TransformUniform × Renderable × ℚ)),
      SceneGraph.gather_renderables_recursive fuel g id acc
        = SceneGraph.gather_renderables_recursive fuel g' id acc := by
  intro fuel
  induction fuel with
  | zero => intro id acc; rfl
  | succ fuel ih =>
    intro id acc
    have hget := rendAgree_get h id
    cases hg : g.get_node id with
    | none =>
      cases hg' : g'.get_node id with
      | none => simp [SceneGraph.gather_renderables_recursive, hg, hg']
      | some n' => rw [hg, hg'] at hget; simp at hget
    | some n =>
      cases hg' : g'.get_node id with
      | none => rw [hg, hg'] at hget; simp at hget
      | some n' =>
        rw [hg, hg'] at hget
        simp only [Option.map_some', Option.some.injEq] at hget
        have hv : n.visible = n'.visible := by
          have h0 := congrArg SceneNode.visible hget; exact h0
        have hop : n.opacity = n'.opacity := by
          have h0 := congrArg SceneNode.opacity hget; exact h0
        have hr : n.renderable = n'.renderable := by
          have h0 := congrArg SceneNode.renderable hget; exact h0
        have hc : n.children = n'.children := by
          have h0 := congrArg SceneNode.children hget; exact h0
        have hm : n.compute_model_matrix = n'.compute_model_matrix := by
          have h0 := congrArg SceneNode.compute_model_matrix hget; exact h0
        simp only [SceneGraph.gather_renderables_recursive, hg, hg']
        rw [← hv, ← hop, ← hr, ← hc, ← hm]
        by_cases hcond : n.visible = true ∧ 0 < n.opacity
        · rw [if_pos hcond, if_pos hcond]
          exact foldlFunExt _ _ (fun a c => ih c a) n.children _
        · rw [if_neg hcond, if_neg hcond]

theorem get_visible_rendAgree {g g' : SceneGraph} (h : RendAgree g g') :
    g.get_visible_renderables = g'.get_visible_renderables := by
  simp only [SceneGraph.get_visible_renderables]
  rw [← h.1, ← rendAgree_length h]
  exact foldlFunExt _ _
    (fun acc rid => gather_rendAgree h (g.nodes.length + 1) rid acc) g.root_nodes []

/-- Applying a track named "rotation" (or any `Color` track) changes nothing
the renderer can see. -/
theorem applyTrack_rotation_strip (time : ℚ) (st : SceneNode × Bool) (tb : AnyTrack)
    (h : tb.trackName = "rotation") :
    renderStrip (SceneNode.applyTrack time st tb).1 = renderStrip st.1 := by
  cases tb with
  | color tr => rfl
  | vec3 tr =>
    have h' : tr.name = "rotation" := h
    have h1 : tr.name ≠ "position" := by rw [h']; decide
    simp only [SceneNode.applyTrack, if_neg h1, if_pos h']
    rfl

/-- A node whose animations carry only "rotation" tracks is unchanged, up to
`renderStrip`, by `update_animations`. -/
theorem update_animations_strip (node : SceneNode) (delta_time : ℚ)
    (h : ∀ a ∈ node.animations, ∀ tb ∈ a.clip.tracks, tb.trackName = "rotation") :
    renderStrip (node.update_animations delta_time).1 = renderStrip node := by
  have haux2 : ∀ (tracks : List AnyTrack) (time : ℚ) (st : SceneNode × Bool),
      (∀ tb ∈ tracks, tb.trackName = "rotation") →
      renderStrip (tracks.foldl (SceneNode.applyTrack time) st).1 = renderStrip st.1 := by
    intro tracks
    induction tracks with
    | nil => intro time st _; rfl
    | cons tb rest iht =>
      intro time st hh
      simp only [List.foldl_cons]
      rw [iht _ _ (fun b hb => hh b (List.mem_cons_of_mem tb hb))]
      exact applyTrack_rotation_strip time st tb (hh tb (List.mem_cons_self tb rest))
  have haux : ∀ (l : List AnimationInstance)
      (st : SceneNode × List AnimationInstance × Bool),
      (∀ a ∈ l, ∀ tb ∈ a.clip.tracks, tb.trackName = "rotation") →
      renderStrip (l.foldl (SceneNode.animStep delta_time) st).1 = renderStrip st.1 := by
    intro l
    induction l with
    | nil => intro st _; rfl
    | cons a rest iha =>
      intro st hh
      simp only [List.foldl_cons]
      rw [iha _ (fun b hb => hh b (List.mem_cons_of_mem a hb))]
      by_cases hp : a.is_playing
      · simp only [SceneNode.animStep, hp, if_true]
        exact haux2 _ _ _ (by
          rw [stepAnim_clip]
          exact hh a (List.mem_cons_self a rest))
      · simp [SceneNode.animStep, hp]
  have hmain := haux node.animations (node, ([], false)) h
  simp only [SceneNode.update_animations]
  have hfilter : ∀ (m : SceneNode) (l : List AnimationInstance),
      renderStrip { m with animations := l } = renderStrip m := by
    intro m l; rfl
  rw [hfilter]
  exact hmain

/-- Claim C9: the model matrix is `diag(world scale)` with the world position
in the translation column, so it is determined by world position and scale
alone; any two graphs agreeing up to rotations and animation state render
identically, and this agreement is preserved by the transform-propagation
pass; the `rotate` effect emits only "rotation"-named tracks, which change
nothing up to `renderStrip`; hence, on a graph whose transforms are already
propagated (re-propagation does not change the rendered output), playing any
set of rotation-track animations leaves `get_visible_renderables` unchanged. -/
theorem c9_rotation_no_render_effect :
    (∀ n : SceneNode,
      n.compute_model_matrix =
        { model_view_proj :=
            [[n.world_transform.scale.x, 0, 0, 0],
             [0, n.world_transform.scale.y, 0, 0],
             [0, 0, n.world_transform.scale.z, 0],
             [n.world_transform.position.x, n.world_transform.position.y,
              n.world_transform.position.z, 1]] }) ∧
    (∀ n m : SceneNode,
      n.world_transform.position = m.world_transform.position →
      n.world_transform.scale = m.world_transform.scale →
      n.compute_model_matrix = m.compute_model_matrix) ∧
    (∀ g g' : SceneGraph, RendAgree g g' →
      g.get_visible_renderables = g'.get_visible_renderables) ∧
    (∀ g g' : SceneGraph, RendAgree g g' →
      RendAgree g.update_transforms g'.update_transforms) ∧
    (∀ (node : SceneNode) (delta_time : ℚ),
      (∀ a ∈ node.animations, ∀ tb ∈ a.clip.tracks, tb.trackName = "rotation") →
      renderStrip (node.update_animations delta_time).1 = renderStrip node) ∧
    (∀ (from_angle to_angle duration : ℚ),
      ∀ tb ∈ (rotate from_angle to_angle duration).tracks, tb.trackName = "rotation") ∧
    (∀ (g : SceneGraph) (delta_time : ℚ),
      (∀ kn ∈ g.nodes, ∀ a ∈ kn.2.animations, ∀ tb ∈ a.clip.tracks,
        tb.trackName = "rotation") →
      g.update_transforms.get_visible_renderables = g.get_visible_renderables →
      (g.update_animations delta_time).get_visible_renderables
        = g.get_visible_renderables) := by
  refine ⟨fun n => rfl, ?_, fun g g' h => get_visible_rendAgree h,
    fun g g' h => update_transforms_rendAgree h,
    fun node delta_time h => update_animations_strip node delta_time h, ?_, ?_⟩
  · intro n m hp hs
    simp only [SceneNode.compute_model_matrix, hp, hs]
  · intro from_angle to_angle duration tb htb
    simp only [rotate, AnimationClip.add_track, AnimationClip.new,
      List.nil_append, List.mem_singleton] at htb
    subst htb
    simp [AnyTrack.trackName, AnimationTrack.add_keyframe, AnimationTrack.new]
  · intro g delta_time hall hcons
    have hagree : RendAgree g
        { g with nodes := ((g.nodes.map
            (fun kn => (kn.1, kn.2.update_animations delta_time))).map
              (fun kr => (kr.1, kr.2.1))) } := by
      refine ⟨rfl, ?_⟩
      rw [List.map_map, List.map_map]
      apply mapCongrMem
      intro kn hkn
      simp only [Function.comp_apply]
      rw [update_animations_strip kn.2 delta_time (hall kn hkn)]
    simp only [SceneGraph.update_animations]
    by_cases hch : (g.nodes.map
        (fun kn => (kn.1, kn.2.update_animations delta_time))).any
          (fun kr => kr.2.2)
    · rw [if_pos hch]
      calc ({ g with nodes := ((g.nodes.map
              (fun kn => (kn.1, kn.2.update_animations delta_time))).map
                (fun kr => (kr.1, kr.2.1))) } : SceneGraph).update_transforms.get_visible_renderables
          = g.update_transforms.get_visible_renderables :=
            (get_visible_rendAgree (update_transforms_rendAgree hagree)).symm
        _ = g.get_visible_renderables := hcons
    · rw [if_neg hch]
      exact (get_visible_rendAgree hagree).symm

/-- A single root carrying a renderable and a playing `rotate` instance. -/
def c9node : SceneNode :=
  ((SceneNode.new 1 "r").set_renderable (.Rectangle 1 1 Color.BLACK)).add_animation
    (AnimationInstance.new (rotate 0 1 1) 0)

def c9g : SceneGraph :=
  { nodes := [(1, c9node)], root_nodes := [1], next_id := 2 }

/-- Witness for `c9_rotation_no_render_effect`: on the already-propagated
one-node graph `c9g`, playing the rotation animation leaves the rendered
output unchanged. -/
theorem c9_witness :
    (∀ kn ∈ c9g.nodes, ∀ a ∈ kn.2.animations, ∀ tb ∈ a.clip.tracks,
      tb.trackName = "rotation") ∧
    c9g.update_transforms.get_visible_renderables = c9g.get_visible_renderables ∧
    (c9g.update_animations (1/2)).get_visible_renderables
      = c9g.get_visible_renderables := by
  have h1 : ∀ kn ∈ c9g.nodes, ∀ a ∈ kn.2.animations, ∀ tb ∈ a.clip.tracks,
      tb.trackName = "rotation" := by decide
  have h2 : c9g.update_transforms.get_visible_renderables
      = c9g.get_visible_renderables := by
    norm_num [c9g, c9node, SceneGraph.update_transforms, SceneGraph.get_visible_renderables,
      SceneGraph.update_node_transform_recursive, SceneGraph.gather_renderables_recursive,
      SceneGraph.get_node, lookupN, modifyN, SceneNode.new, SceneNode.set_renderable,
      SceneNode.add_animation, SceneNode.compute_model_matrix, Transform.new,
      Vector3.add_def, Vector3.zero, Vector3.one, Quaternion.identity,
      AnimationInstance.new, rotate,
      AnimationClip.new, AnimationClip.add_track, AnimationTrack.new,
      AnimationTrack.add_keyframe, Keyframe.new, TimeValue.new, sortKF, insertKF]
  exact ⟨h1, h2, c9_rotation_no_render_effect.2.2.2.2.2.2 c9g (1/2) h1 h2⟩

/-- Reachability through the children lists (the subtree walked by
`remove_node`). -/
inductive Desc (g : SceneGraph) (y : ℕ) : ℕ → Prop
  | refl : Desc g y y
  | step {x c : ℕ} {n : SceneNode} : Desc g y x → g.get_node x = some n →
      c ∈ n.children → Desc g y c

theorem desc_trans {g : SceneGraph} {a b x : ℕ} (h1 : Desc g a b) (h2 : Desc g b x) :
    Desc g a x := by
  induction h2 with
  | refl => exact h1
  | step hd hg hc ih => exact Desc.step ih hg hc

theorem desc_of_absent {g : SceneGraph} {y x : ℕ} (hy : g.get_node y = none)
    (h : Desc g y x) : x = y := by
  induction h with
  | refl => rfl
  | step hd hg hc ih =>
    subst ih
    rw [hy] at hg
    exact absurd hg (by simp)

/-- The mid-removal structural invariant: enough of `InvA` to drive the
removal recursion (it survives the intermediate states in which subtree roots
have dangling parent pointers). -/
structure MInv (g : SceneGraph) : Prop where
  keys_nodup : (g.nodes.map Prod.fst).Nodup
  child_ex : ∀ x n c, g.get_node x = some n → c ∈ n.children →
    (g.get_node c).isSome
  link_down : ∀ p pn c cn, g.get_node p = some pn → c ∈ pn.children →
    g.get_node c = some cn → cn.parent = some p
  acyclic : Acyclic g

theorem MInv.of_invA {g : SceneGraph} (h : InvA g) : MInv g :=
  ⟨h.keys_nodup, h.child_ex, h.link_down, h.acyclic⟩

/-- A graph whose single-step parent relation is contained in `g`'s is acyclic
whenever `g` is. -/
theorem acyclic_of_parentF_le {g g' : SceneGraph}
    (h : ∀ x z, parentF g' x = some z → parentF g x = some z)
    (hacy : Acyclic g) : Acyclic g' := by
  have htr : ∀ k x w, iterF g' k x = some w → iterF g k x = some w := by
    intro k
    induction k with
    | zero => intro x w hw; exact hw
    | succ k ih =>
      intro x w hw
      simp only [iterF] at hw ⊢
      cases hj : iterF g' k x with
      | none => rw [hj] at hw; simp at hw
      | some z =>
        rw [hj] at hw
        rw [Option.some_bind] at hw
        rw [ih x z hj]
        rw [Option.some_bind]
        exact h z w hw
  intro x k hk hcyc
  exact hacy x k hk (htr k x x hcyc)

/-- Every descendant is an ancestor through the parent chain (uses the
downward links and the existence of the children). -/
theorem desc_iterF {g : SceneGraph} (hM : MInv g) {y x : ℕ} (h : Desc g y x) :
    ∃ k, iterF g k x = some y := by
  induction h with
  | refl => exact ⟨0, rfl⟩
  | step hd hg hc ih =>
    rcases ih with ⟨k, hk⟩
    rename_i w c n
    rcases Option.isSome_iff_exists.mp (hM.child_ex w n c hg hc) with ⟨nc, hnc⟩
    have hpar : parentF g c = some w := by
      simp [parentF, hnc, hM.link_down w n c nc hg hc hnc]
    refine ⟨k + 1, ?_⟩
    rw [iterF_succ_front]
    simp [hpar, hk]

/-- A present node is never a strict descendant of one of its children
(otherwise the parent chain would form a cycle). -/
theorem desc_not_through {g : SceneGraph} (hM : MInv g) {y c : ℕ} {node : SceneNode}
    (hy : g.get_node y = some node) (hc : c ∈ node.children) {x : ℕ}
    (hd : Desc g c x) : x ≠ y := by
  intro hxy
  have hdy : Desc g c y := hxy ▸ hd
  rcases desc_iterF hM hdy with ⟨k, hk⟩
  rcases Option.isSome_iff_exists.mp (hM.child_ex y node c hy hc) with ⟨nc, hnc⟩
  have hpar : parentF g c = some y := by
    simp [parentF, hnc, hM.link_down y node c nc hy hc hnc]
  have : iterF g (k + 1) y = some y := by
    simp only [iterF]
    rw [hk]
    simpa using hpar
  exact hM.acyclic y (k + 1) (Nat.succ_pos k) this

/-- Decomposition of a subtree at its root. -/
theorem desc_root_cases {g : SceneGraph} {y : ℕ} {node : SceneNode}
    (hy : g.get_node y = some node) {x : ℕ} :
    Desc g y x ↔ (x = y ∨ ∃ c ∈ node.children, Desc g c x) := by
  constructor
  · intro h
    induction h with
    | refl => exact Or.inl rfl
    | step hd hg hc ih =>
      rename_i w c n
      rcases ih with hwy | ⟨c0, hc0, hdc⟩
      · subst hwy
        rw [hy] at hg
        cases hg
        exact Or.inr ⟨c, hc, Desc.refl⟩
      · exact Or.inr ⟨c0, hc0, Desc.step hdc hg hc⟩
  · intro h
    rcases h with rfl | ⟨c, hc, hd⟩
    · exact Desc.refl
    · exact desc_trans (Desc.step Desc.refl hy hc) hd

theorem lookupN_mem {nodes : List (ℕ × SceneNode)} {id : ℕ} {n : SceneNode}
    (h : lookupN nodes id = some n) : (id, n) ∈ nodes := by
  unfold lookupN at h
  cases hf : nodes.find? (fun kn => kn.1 == id) with
  | none => rw [hf] at h; exact absurd h (by simp)
  | some kn =>
    rw [hf] at h
    have hk : kn.1 = id := by simpa using List.find?_some hf
    have hmem := List.mem_of_find?_eq_some hf
    have h2 : kn.2 = n := by simpa using h
    have : kn = (id, n) := by
      rcases kn with ⟨a, b⟩
      simp only [Prod.mk.injEq]
      exact ⟨hk, h2⟩
    rw [← this]
    exact hmem

theorem eraseN_length_lt {nodes : List (ℕ × SceneNode)} {id : ℕ} {n : SceneNode}
    (h : lookupN nodes id = some n) : (eraseN nodes id).length < nodes.length := by
  have hmem := lookupN_mem h
  simp only [eraseN]
  refine List.length_filter_lt_length_iff_exists.mpr ⟨(id, n), hmem, ?_⟩
  simp

/-- The pointwise effect of the non-recursive removal step (parentless case). -/
theorem removeStep_get_root (g : SceneGraph) (y : ℕ) (node : SceneNode)
    (hp : node.parent = none) (x : ℕ) :
    (SceneGraph.removeStep g y node).get_node x
      = if x = y then none else g.get_node x := by
  simp only [SceneGraph.removeStep, hp, SceneGraph.get_node]
  exact lookupN_eraseN g.nodes y x

/-- The pointwise effect of the non-recursive removal step (parented case). -/
theorem removeStep_get_child (g : SceneGraph) (y : ℕ) (node : SceneNode) (pid : ℕ)
    (hp : node.parent = some pid) (x : ℕ) :
    (SceneGraph.removeStep g y node).get_node x
      = if x = y then none
        else if x = pid then
          (g.get_node x).map
            (fun n => { n with children := n.children.filter (fun id => id != y) })
        else g.get_node x := by
  simp only [SceneGraph.removeStep, hp, SceneGraph.get_node]
  rw [lookupN_modifyN]
  by_cases hxp : x = pid
  · rw [if_pos hxp, lookupN_eraseN]
    by_cases hpy : pid = y
    · have hxy : x = y := hxp.trans hpy
      rw [if_pos hpy, if_pos hxy]
      rfl
    · have hxy : ¬ x = y := fun hq => hpy (hxp.symm.trans hq)
      rw [if_neg hpy, if_neg hxy, if_pos hxp, hxp]
  · rw [if_neg hxp, lookupN_eraseN]
    by_cases hxy : x = y
    · rw [if_pos hxy, if_pos hxy]
    · rw [if_neg hxy, if_neg hxy, if_neg hxp]

theorem removeStep_roots (g : SceneGraph) (y : ℕ) (node : SceneNode) :
    (SceneGraph.removeStep g y node).root_nodes
      = g.root_nodes.filter (fun id => id != y) := by
  cases hp : node.parent <;> simp [SceneGraph.removeStep, hp]

theorem removeStep_next (g : SceneGraph) (y : ℕ) (node : SceneNode) :
    (SceneGraph.removeStep g y node).next_id = g.next_id := by
  cases hp : node.parent <;> simp [SceneGraph.removeStep, hp]

theorem removeStep_length (g : SceneGraph) (y : ℕ) (node : SceneNode)
    (hy : g.get_node y = some node) :
    (SceneGraph.removeStep g y node).nodes.length < g.nodes.length := by
  have h1 : (eraseN g.nodes y).length < g.nodes.length := eraseN_length_lt hy
  cases hp : node.parent with
  | none => simpa [SceneGraph.removeStep, hp] using h1
  | some pid =>
    simp only [SceneGraph.removeStep, hp, modifyN, List.length_map]
    exact h1

theorem removeStep_none (g : SceneGraph) (y : ℕ) (node : SceneNode) (x : ℕ) :
    ((SceneGraph.removeStep g y node).get_node x = none
      ↔ (g.get_node x = none ∨ x = y)) := by
  cases hp : node.parent with
  | none =>
    rw [removeStep_get_root g y node hp x]
    by_cases hxy : x = y
    · simp [hxy]
    · simp [hxy]
  | some pid =>
    rw [removeStep_get_child g y node pid hp x]
    by_cases hxy : x = y
    · simp [hxy]
    · rw [if_neg hxy]
      by_cases hxp : x = pid
      · rw [if_pos hxp]
        constructor
        · intro h
          exact Or.inl (Option.map_eq_none'.mp h)
        · intro h
          rcases h with h1 | h1
          · rw [h1]; rfl
          · exact absurd h1 hxy
      · rw [if_neg hxp]
        constructor
        · exact fun h => Or.inl h
        · intro h
          rcases h with h1 | h1
          · exact h1
          · exact absurd h1 hxy

theorem removeStep_some (g : SceneGraph) (y : ℕ) (node : SceneNode)
    (hy : g.get_node y = some node) (hM : MInv g) :
    ∀ x n', (SceneGraph.removeStep g y node).get_node x = some n' →
      ∃ n, g.get_node x = some n ∧
        n'.children.Sublist n.children ∧
        (∀ c, c ∈ n'.children ↔ (c ∈ n.children ∧ c ≠ y)) ∧
        n = { n' with children := n.children } := by
  intro x n' hx
  have hxy : ¬ x = y := by
    intro hq
    rw [(removeStep_none g y node x).mpr (Or.inr hq)] at hx
    cases hx
  have hnotmem : ∀ n, g.get_node x = some n →
      (node.parent = some x → False) → y ∉ n.children := by
    intro n hn hnp hymem
    exact hnp (hM.link_down x n y node hn hymem hy)
  cases hp : node.parent with
  | none =>
    rw [removeStep_get_root g y node hp x, if_neg hxy] at hx
    refine ⟨n', hx, List.Sublist.refl _, ?_, ?_⟩
    · intro c
      constructor
      · intro hcmem
        refine ⟨hcmem, fun hcy => ?_⟩
        refine hnotmem n' hx (fun hq => ?_) (hcy ▸ hcmem)
        exact Option.noConfusion (hp.symm.trans hq)
      · exact fun h => h.1
    · cases n'
      rfl
  | some pid =>
    rw [removeStep_get_child g y node pid hp x, if_neg hxy] at hx
    by_cases hxp : x = pid
    · rw [if_pos hxp] at hx
      cases hg : g.get_node x with
      | none => rw [hg] at hx; exact absurd hx (by simp)
      | some n =>
        rw [hg] at hx
        simp only [Option.map_some', Option.some.injEq] at hx
        refine ⟨n, rfl, ?_, ?_, ?_⟩
        · rw [← hx]
          exact List.filter_sublist n.children
        · intro c
          rw [← hx]
          simp [List.mem_filter, bne_iff_ne]
        · rw [← hx]
    · rw [if_neg hxp] at hx
      refine ⟨n', hx, List.Sublist.refl _, ?_, ?_⟩
      · intro c
        constructor
        · intro hcmem
          refine ⟨hcmem, fun hcy => ?_⟩
          refine hnotmem n' hx (fun hq => ?_) (hcy ▸ hcmem)
          exact hxp (Option.some.inj (hp.symm.trans hq)).symm
        · exact fun h => h.1
      · cases n'
        rfl

theorem removeStep_MInv (g : SceneGraph) (y : ℕ) (node : SceneNode)
    (hy : g.get_node y = some node) (hM : MInv g) :
    MInv (SceneGraph.removeStep g y node) := by
  have hsome := removeStep_some g y node hy hM
  constructor
  · -- keys
    cases hp : node.parent with
    | none =>
      simp only [SceneGraph.removeStep, hp, keys_eraseN]
      exact hM.keys_nodup.filter _
    | some pid =>
      simp only [SceneGraph.removeStep, hp]
      rw [keys_modifyN, keys_eraseN]
      exact hM.keys_nodup.filter _
  · -- child_ex
    intro x n' c hx hc
    rcases hsome x n' hx with ⟨n, hn, -, hmem, -⟩
    rcases (hmem c).mp hc with ⟨hcm, hcy⟩
    have hcs := hM.child_ex x n c hn hcm
    rcases Option.isSome_iff_exists.mp hcs with ⟨nc, hnc⟩
    rw [Option.isSome_iff_ne_none]
    intro hcon
    rw [removeStep_none] at hcon
    rcases hcon with hcon | hcon
    · rw [hcon] at hnc; cases hnc
    · exact hcy hcon
  · -- link_down
    intro p pn c cn hp hc hcn
    rcases hsome p pn hp with ⟨pn0, hpn0, -, hmem, -⟩
    rcases hsome c cn hcn with ⟨cn0, hcn0, -, -, heq⟩
    rcases (hmem c).mp hc with ⟨hcm, -⟩
    have h1 := hM.link_down p pn0 c cn0 hpn0 hcm hcn0
    have hpar : cn0.parent = cn.parent := by rw [heq]
    rw [← hpar]
    exact h1
  · -- acyclic
    refine acyclic_of_parentF_le ?_ hM.acyclic
    intro x z hxz
    simp only [parentF] at hxz ⊢
    cases hx : (SceneGraph.removeStep g y node).get_node x with
    | none => rw [hx] at hxz; exact absurd hxz (by simp)
    | some n' =>
      rw [hx] at hxz
      rcases hsome x n' hx with ⟨n, hn, -, -, heq⟩
      rw [hn]
      have hpar : n.parent = n'.parent := by rw [heq]
      rw [Option.some_bind] at hxz ⊢
      rw [hpar]
      exact hxz

/-- Removal of a present node does not disturb reachability inside the
subtrees hanging off its children. -/
theorem removeStep_desc (g : SceneGraph) (y : ℕ) (node : SceneNode)
    (hy : g.get_node y = some node) (hM : MInv g) {c : ℕ} (hc : c ∈ node.children) :
    ∀ x, Desc (SceneGraph.removeStep g y node) c x ↔ Desc g c x := by
  have hsome := removeStep_some g y node hy hM
  intro x
  constructor
  · intro h
    induction h with
    | refl => exact Desc.refl
    | step hd hg hcm ih =>
      rename_i w d n'
      rcases hsome w n' hg with ⟨n, hn, -, hmem, -⟩
      exact Desc.step ih hn ((hmem d).mp hcm).1
  · intro h
    induction h with
    | refl => exact Desc.refl
    | step hd hg hcm ih =>
      rename_i w d n
      have hwy : w ≠ y := desc_not_through hM hy hc hd
      have hw' : (SceneGraph.removeStep g y node).get_node w ≠ none := by
        intro hcon
        rw [removeStep_none] at hcon
        rcases hcon with hcon | hcon
        · rw [hcon] at hg; cases hg
        · exact hwy hcon
      rcases Option.ne_none_iff_exists'.mp hw' with ⟨n', hn'⟩
      rcases hsome w n' hn' with ⟨n0, hn0, -, hmem, -⟩
      have hn0n : n0 = n := by
        rw [hg] at hn0
        exact (Option.some.inj hn0).symm
      subst hn0n
      have hdy : d ≠ y := desc_not_through hM hy hc (Desc.step hd hg hcm)
      exact Desc.step ih hn' ((hmem d).mpr ⟨hcm, hdy⟩)

/-- Reachability from any of a list of subtree roots. -/
def DescL (g : SceneGraph) (cs : List ℕ) (x : ℕ) : Prop :=
  ∃ c ∈ cs, Desc g c x

theorem node_eta_compose {n n' n'' : SceneNode}
    (h1 : n = { n' with children := n.children })
    (h2 : n' = { n'' with children := n'.children }) :
    n = { n'' with children := n.children } := by
  cases n; cases n'; cases n''
  simp_all

/-- Transfer of children-reachability through a graph transformation that
deletes exactly the nodes satisfying `R` (a predicate closed under children
steps) and filters them out of the children lists. -/
theorem desc_transfer_closed (g g' : SceneGraph) (R : ℕ → Prop)
    (hnone : ∀ x, g'.get_node x = none ↔ (g.get_node x = none ∨ R x))
    (hsome : ∀ x n', g'.get_node x = some n' → ∃ n, g.get_node x = some n ∧
        (∀ c, c ∈ n'.children ↔ (c ∈ n.children ∧ ¬ R c)))
    (hR : ∀ x n c, R x → g.get_node x = some n → c ∈ n.children → R c) :
    ∀ z x, Desc g' z x ↔ (x = z ∨ (Desc g z x ∧ ¬ R x)) := by
  intro z x
  constructor
  · intro h
    induction h with
    | refl => exact Or.inl rfl
    | step hd hg hcm ih =>
      rename_i w d n'
      rcases hsome w n' hg with ⟨n, hn, hmem⟩
      rcases (hmem d).mp hcm with ⟨hdm, hnRd⟩
      rcases ih with hwz | ⟨hdw, -⟩
      · subst hwz
        exact Or.inr ⟨Desc.step Desc.refl hn hdm, hnRd⟩
      · exact Or.inr ⟨Desc.step hdw hn hdm, hnRd⟩
  · intro h
    rcases h with rfl | ⟨hd, hnR⟩
    · exact Desc.refl
    · revert hnR
      induction hd with
      | refl => intro _; exact Desc.refl
      | step hdw hgw hcw ih =>
        rename_i w d n
        intro hnRd
        have hnRw : ¬ R w := fun hRw => hnRd (hR w n d hRw hgw hcw)
        have hw' : g'.get_node w ≠ none := by
          intro hcon
          rcases (hnone w).mp hcon with hcon1 | hcon1
          · rw [hcon1] at hgw; cases hgw
          · exact hnRw hcon1
        rcases Option.ne_none_iff_exists'.mp hw' with ⟨n', hn'⟩
        rcases hsome w n' hn' with ⟨n0, hn0, hmem⟩
        have hn0n : n0 = n := by
          rw [hgw] at hn0
          exact (Option.some.inj hn0).symm
        subst hn0n
        exact Desc.step (ih hnRw) hn' ((hmem d).mpr ⟨hcw, hnRd⟩)

/-- The full specification of one (fuelled) removal pass: which nodes are
gone, how the survivors changed (only their children lists, by dropping
removed entries), what happened to the root list, id counter and arena size,
and that the mid-removal invariant still holds. -/
structure RemSpec (g res : SceneGraph) (P : ℕ → Prop) : Prop where
  none_iff : ∀ x, res.get_node x = none ↔ (g.get_node x = none ∨ P x)
  some_char : ∀ x n', res.get_node x = some n' →
    ∃ n, g.get_node x = some n ∧ n'.children.Sublist n.children ∧
      (∀ c, c ∈ n'.children ↔ (c ∈ n.children ∧ ¬ P c)) ∧
      n = { n' with children := n.children }
  next_eq : res.next_id = g.next_id
  rootsub : res.root_nodes.Sublist g.root_nodes
  roots_mem : ∀ r ∈ g.root_nodes, (r ∈ res.root_nodes ↔ (g.get_node r = none ∨ ¬ P r))
  len_le : res.nodes.length ≤ g.nodes.length
  minv : MInv res

/-- A graph is its own removal result for an always-false removal predicate,
as long as nothing is reachable: the reflexive case of the fold. -/
theorem remSpec_refl (g : SceneGraph) (hM : MInv g) (P : ℕ → Prop)
    (hP : ∀ x, P x → g.get_node x = none) : RemSpec g g P := by
  constructor
  · intro x
    constructor
    · exact fun h => Or.inl h
    · intro h
      rcases h with h | h
      · exact h
      · exact hP x h
  · intro x n' hx
    refine ⟨n', hx, List.Sublist.refl _, ?_, ?_⟩
    · intro c
      constructor
      · intro hc
        refine ⟨hc, fun hPc => ?_⟩
        have := hM.child_ex x n' c hx hc
        rw [hP c hPc] at this
        cases this
      · exact fun h => h.1
    · cases n'
      rfl
  · rfl
  · exact List.Sublist.refl _
  · intro r hr
    constructor
    · intro _
      by_cases hPr : P r
      · exact Or.inl (hP r hPr)
      · exact Or.inr hPr
    · intro _
      exact hr
  · exact Nat.le_refl _
  · exact hM

theorem remove_fuel_zero (g : SceneGraph) (y : ℕ) :
    SceneGraph.remove_node_fuel 0 g y = (g, none) := rfl

theorem remove_fuel_succ_none (fuel : ℕ) (g : SceneGraph) (y : ℕ)
    (h : g.get_node y = none) :
    SceneGraph.remove_node_fuel (fuel + 1) g y = (g, none) := by
  simp [SceneGraph.remove_node_fuel, h]

theorem remove_fuel_succ_some (fuel : ℕ) (g : SceneGraph) (y : ℕ) (node : SceneNode)
    (h : g.get_node y = some node) :
    SceneGraph.remove_node_fuel (fuel + 1) g y
      = (node.children.foldl (fun acc c => (SceneGraph.remove_node_fuel fuel acc c).1)
          (SceneGraph.removeStep g y node), some node) := by
  simp [SceneGraph.remove_node_fuel, h]

/-- Sequential removal of a list of subtrees, specified against the starting
graph. -/
theorem remove_fold_spec (fuel : ℕ)
    (IH : ∀ (g : SceneGraph) (y : ℕ), MInv g → g.nodes.length ≤ fuel →
      RemSpec g (SceneGraph.remove_node_fuel fuel g y).1 (Desc g y)) :
    ∀ (cs : List ℕ) (g : SceneGraph), MInv g → g.nodes.length ≤ fuel →
      RemSpec g (cs.foldl (fun acc c => (SceneGraph.remove_node_fuel fuel acc c).1) g)
        (DescL g cs) := by
  intro cs
  induction cs with
  | nil =>
    intro g hM _
    exact remSpec_refl g hM _ (fun x hx => absurd hx (by simp [DescL]))
  | cons c0 cs ih =>
    intro g hM hlen
    rw [List.foldl_cons]
    have S1 := IH g c0 hM hlen
    have S2 := ih (SceneGraph.remove_node_fuel fuel g c0).1 S1.minv
      (S1.len_le.trans hlen)
    set g1 := (SceneGraph.remove_node_fuel fuel g c0).1 with hg1
    set res := cs.foldl (fun acc c => (SceneGraph.remove_node_fuel fuel acc c).1) g1
      with hres
    have htr : ∀ z x, Desc g1 z x ↔ (x = z ∨ (Desc g z x ∧ ¬ Desc g c0 x)) := by
      refine desc_transfer_closed g g1 (Desc g c0) S1.none_iff ?_ ?_
      · intro x n' hx
        rcases S1.some_char x n' hx with ⟨n, h1, -, h3, -⟩
        exact ⟨n, h1, h3⟩
      · intro x n c hR hg hc
        exact Desc.step hR hg hc
    have hDL1 : ∀ x, ¬ Desc g c0 x → (DescL g1 cs x ↔ DescL g cs x) := by
      intro x hnc0
      constructor
      · rintro ⟨z, hz, hd⟩
        rcases (htr z x).mp hd with heq | ⟨hd2, -⟩
        · exact ⟨z, hz, by rw [heq]; exact Desc.refl⟩
        · exact ⟨z, hz, hd2⟩
      · rintro ⟨z, hz, hd⟩
        exact ⟨z, hz, (htr z x).mpr (Or.inr ⟨hd, hnc0⟩)⟩
    have hcomb : ∀ x, (Desc g c0 x ∨ DescL g1 cs x) ↔ DescL g (c0 :: cs) x := by
      intro x
      constructor
      · intro h
        rcases h with h | h
        · exact ⟨c0, List.mem_cons_self c0 cs, h⟩
        · by_cases hc0 : Desc g c0 x
          · exact ⟨c0, List.mem_cons_self c0 cs, hc0⟩
          · rcases (hDL1 x hc0).mp h with ⟨z, hz, hd⟩
            exact ⟨z, List.mem_cons_of_mem c0 hz, hd⟩
      · rintro ⟨z, hz, hd⟩
        rcases List.mem_cons.mp hz with rfl | hz2
        · exact Or.inl hd
        · by_cases hc0 : Desc g c0 x
          · exact Or.inl hc0
          · exact Or.inr ((hDL1 x hc0).mpr ⟨z, hz2, hd⟩)
    constructor
    · -- none_iff
      intro x
      rw [S2.none_iff x, S1.none_iff x]
      constructor
      · intro h
        rcases h with (h | h) | h
        · exact Or.inl h
        · exact Or.inr ((hcomb x).mp (Or.inl h))
        · exact Or.inr ((hcomb x).mp (Or.inr h))
      · intro h
        rcases h with h | h
        · exact Or.inl (Or.inl h)
        · rcases (hcomb x).mpr h with h2 | h2
          · exact Or.inl (Or.inr h2)
          · exact Or.inr h2
    · -- some_char
      intro x n'' hx
      rcases S2.some_char x n'' hx with ⟨n', h1', sub2, mem2, eta2⟩
      rcases S1.some_char x n' h1' with ⟨n, h1, sub1, mem1, eta1⟩
      refine ⟨n, h1, sub2.trans sub1, ?_, node_eta_compose eta1 eta2⟩
      intro c
      constructor
      · intro hc
        rcases (mem2 c).mp hc with ⟨hc1, hnd2⟩
        rcases (mem1 c).mp hc1 with ⟨hc0, hnd1⟩
        refine ⟨hc0, fun hcon => ?_⟩
        rcases (hcomb c).mpr hcon with h2 | h2
        · exact hnd1 h2
        · exact hnd2 h2
      · rintro ⟨hc0, hnd⟩
        have hnd1 : ¬ Desc g c0 c := fun h2 => hnd ((hcomb c).mp (Or.inl h2))
        have hnd2 : ¬ DescL g1 cs c := fun h2 => hnd ((hcomb c).mp (Or.inr h2))
        exact (mem2 c).mpr ⟨(mem1 c).mpr ⟨hc0, hnd1⟩, hnd2⟩
    · exact S2.next_eq.trans S1.next_eq
    · exact S2.rootsub.trans S1.rootsub
    · -- roots_mem
      intro r hr
      by_cases hgr : g.get_node r = none
      · refine iff_of_true ?_ (Or.inl hgr)
        have hro : r ∈ g1.root_nodes := (S1.roots_mem r hr).mpr (Or.inl hgr)
        exact (S2.roots_mem r hro).mpr (Or.inl ((S1.none_iff r).mpr (Or.inl hgr)))
      · by_cases hro : r ∈ g1.root_nodes
        · have hnc0 : ¬ Desc g c0 r := by
            rcases (S1.roots_mem r hr).mp hro with h | h
            · exact absurd h hgr
            · exact h
          have hg1r : ¬ (g1.get_node r = none) := by
            intro hcon
            rcases (S1.none_iff r).mp hcon with h | h
            · exact hgr h
            · exact hnc0 h
          rw [S2.roots_mem r hro]
          constructor
          · intro h
            rcases h with h | h
            · exact absurd h hg1r
            · refine Or.inr (fun hcon => ?_)
              rcases (hcomb r).mpr hcon with h2 | h2
              · exact hnc0 h2
              · exact h h2
          · intro h
            rcases h with h | h
            · exact absurd h hgr
            · refine Or.inr (fun hcon => ?_)
              exact h ((hcomb r).mp (Or.inr hcon))
        · refine iff_of_false (fun hc => hro (S2.rootsub.subset hc)) ?_
          intro hcon
          rcases hcon with h | h
          · exact hgr h
          · have hd : Desc g c0 r := by
              by_contra hnd
              exact hro ((S1.roots_mem r hr).mpr (Or.inr hnd))
            exact h ⟨c0, List.mem_cons_self c0 cs, hd⟩
    · exact S2.len_le.trans S1.len_le
    · exact S2.minv

/-- The fuelled `remove_node` satisfies the removal specification whenever the
fuel covers the arena size (as it does at the call site). -/
theorem remove_fuel_spec :
    ∀ (fuel : ℕ) (g : SceneGraph) (y : ℕ), MInv g → g.nodes.length ≤ fuel →
      RemSpec g (SceneGraph.remove_node_fuel fuel g y).1 (Desc g y) := by
  intro fuel
  induction fuel with
  | zero =>
    intro g y hM hlen
    have hempty : g.nodes = [] := List.length_eq_zero.mp (Nat.le_zero.mp hlen)
    have hnone : ∀ x, g.get_node x = none := by
      intro x
      simp [SceneGraph.get_node, hempty, lookupN_nil]
    rw [remove_fuel_zero]
    exact remSpec_refl g hM _ (fun x _ => hnone x)
  | succ fuel IH =>
    intro g y hM hlen
    cases hgy : g.get_node y with
    | none =>
      rw [remove_fuel_succ_none fuel g y hgy]
      refine remSpec_refl g hM _ (fun x hx => ?_)
      rw [desc_of_absent hgy hx]
      exact hgy
    | some node =>
      rw [remove_fuel_succ_some fuel g y node hgy]
      have hM1 := removeStep_MInv g y node hgy hM
      have hlen1 : (SceneGraph.removeStep g y node).nodes.length ≤ fuel :=
        Nat.lt_succ_iff.mp (lt_of_lt_of_le (removeStep_length g y node hgy) hlen)
      have SF := remove_fold_spec fuel IH node.children
        (SceneGraph.removeStep g y node) hM1 hlen1
      have hsome0 := removeStep_some g y node hgy hM
      have hnone0 := removeStep_none g y node
      have hDL2 : ∀ x, DescL (SceneGraph.removeStep g y node) node.children x
          ↔ ∃ c ∈ node.children, Desc g c x := by
        intro x
        constructor
        · rintro ⟨c, hc, hd⟩
          exact ⟨c, hc, (removeStep_desc g y node hgy hM hc x).mp hd⟩
        · rintro ⟨c, hc, hd⟩
          exact ⟨c, hc, (removeStep_desc g y node hgy hM hc x).mpr hd⟩
      have hdec : ∀ x, Desc g y x ↔ (x = y ∨ ∃ c ∈ node.children, Desc g c x) :=
        fun x => desc_root_cases hgy
      have hg1roots := removeStep_roots g y node
      constructor
      · -- none_iff
        intro x
        rw [SF.none_iff x, hnone0 x, hDL2 x, hdec x]
        constructor
        · intro h
          rcases h with (h | h) | h
          · exact Or.inl h
          · exact Or.inr (Or.inl h)
          · exact Or.inr (Or.inr h)
        · intro h
          rcases h with h | h | h
          · exact Or.inl (Or.inl h)
          · exact Or.inl (Or.inr h)
          · exact Or.inr h
      · -- some_char
        intro x n'' hx
        rcases SF.some_char x n'' hx with ⟨n', h1', sub2, mem2, eta2⟩
        rcases hsome0 x n' h1' with ⟨n, h1, sub1, mem1, eta1⟩
        refine ⟨n, h1, sub2.trans sub1, ?_, node_eta_compose eta1 eta2⟩
        intro c
        constructor
        · intro hc
          rcases (mem2 c).mp hc with ⟨hc1, hnd2⟩
          rcases (mem1 c).mp hc1 with ⟨hc0, hcy⟩
          refine ⟨hc0, fun hcon => ?_⟩
          rcases (hdec c).mp hcon with h2 | h2
          · exact hcy h2
          · exact hnd2 ((hDL2 c).mpr h2)
        · rintro ⟨hc0, hnd⟩
          have hcy : c ≠ y := fun h2 => hnd ((hdec c).mpr (Or.inl h2))
          have hnd2 : ¬ DescL (SceneGraph.removeStep g y node) node.children c :=
            fun h2 => hnd ((hdec c).mpr (Or.inr ((hDL2 c).mp h2)))
          exact (mem2 c).mpr ⟨(mem1 c).mpr ⟨hc0, hcy⟩, hnd2⟩
      · exact SF.next_eq.trans (removeStep_next g y node)
      · refine SF.rootsub.trans ?_
        rw [hg1roots]
        exact List.filter_sublist _
      · -- roots_mem
        intro r hr
        by_cases hry : r = y
        · refine iff_of_false ?_ ?_
          · intro hc
            have h2 := SF.rootsub.subset hc
            rw [hg1roots] at h2
            rcases List.mem_filter.mp h2 with ⟨-, h3⟩
            rw [hry] at h3
            simp at h3
          · intro hcon
            rcases hcon with h | h
            · rw [hry] at h
              rw [h] at hgy
              cases hgy
            · exact h (by rw [hry]; exact Desc.refl)
        · have hro : r ∈ (SceneGraph.removeStep g y node).root_nodes := by
            rw [hg1roots]
            refine List.mem_filter.mpr ⟨hr, ?_⟩
            simp [hry]
          rw [SF.roots_mem r hro]
          constructor
          · intro h
            rcases h with h | h
            · rcases (hnone0 r).mp h with h2 | h2
              · exact Or.inl h2
              · exact absurd h2 hry
            · refine Or.inr (fun hcon => ?_)
              rcases (hdec r).mp hcon with h2 | h2
              · exact hry h2
              · exact h ((hDL2 r).mpr h2)
          · intro h
            rcases h with h | h
            · exact Or.inl ((hnone0 r).mpr (Or.inl h))
            · refine Or.inr (fun hcon => ?_)
              exact h ((hdec r).mpr (Or.inr ((hDL2 r).mp hcon)))
      · exact SF.len_le.trans (le_of_lt (removeStep_length g y node hgy))
      · exact SF.minv

/-- `SceneGraph::remove_node` satisfies the removal specification. -/
theorem remove_node_spec (g : SceneGraph) (y : ℕ) (hM : MInv g) :
    RemSpec g (g.remove_node y).1 (Desc g y) :=
  remove_fuel_spec g.nodes.length g y hM (Nat.le_refl _)

/-- Ancestor chains that avoid the one re-pointed node transfer between two
graphs whose parent maps agree elsewhere. -/
theorem iterF_transfer (g g' : SceneGraph) (c : ℕ)
    (hpar : ∀ x, x ≠ c → parentF g' x = parentF g x) :
    ∀ (j : ℕ) (x : ℕ), (∀ i, i < j → iterF g' i x ≠ some c) →
      iterF g' j x = iterF g j x := by
  intro j
  induction j with
  | zero => intro x _; rfl
  | succ j ih =>
    intro x hx
    have h1 : iterF g' j x = iterF g j x :=
      ih x (fun i hi => hx i (Nat.lt_succ_of_lt hi))
    simp only [iterF]
    rw [h1]
    cases hw : iterF g j x with
    | none => rfl
    | some w =>
      have hwc : w ≠ c := by
        intro hq
        exact hx j (Nat.lt_succ_self j) (by rw [h1, hw, hq])
      rw [Option.some_bind, Option.some_bind]
      exact hpar w hwc

theorem invA_new : InvA SceneGraph.new := by
  have hget : ∀ x, SceneGraph.new.get_node x = none := fun x => rfl
  constructor
  · exact List.nodup_nil
  · intro x hx
    rw [hget] at hx
    cases hx
  · intro r hr
    cases hr
  · exact List.nodup_nil
  · intro x n p hx
    rw [hget] at hx
    cases hx
  · intro x n c hx
    rw [hget] at hx
    cases hx
  · intro x n hx
    rw [hget] at hx
    cases hx
  · intro x n p pn hx
    rw [hget] at hx
    cases hx
  · intro p pn c cn hp
    rw [hget] at hp
    cases hp
  · intro x n hx
    rw [hget] at hx
    cases hx
  · intro x k hk hcyc
    cases k with
    | zero => cases hk
    | succ k =>
      rw [iterF_succ_front] at hcyc
      have : parentF SceneGraph.new x = none := by
        simp [parentF, hget]
      rw [this] at hcyc
      cases hcyc

/-- Adding a fresh parentless childless node (and listing it as a root)
preserves the invariant. -/
theorem invA_extend (g : SceneGraph) (hinv : InvA g) (g' : SceneGraph)
    (n0 : SceneNode) (hp0 : n0.parent = none) (hc0 : n0.children = [])
    (hnodes : g'.nodes = g.nodes ++ [(g.next_id, n0)])
    (hroots : g'.root_nodes = g.root_nodes ++ [g.next_id])
    (hnext : g'.next_id = g.next_id + 1) : InvA g' := by
  have hfreshL : lookupN g.nodes g.next_id = none := hinv.fresh
  have hget : ∀ x, g'.get_node x
      = if x = g.next_id then some n0 else g.get_node x := by
    intro x
    simp only [SceneGraph.get_node, hnodes]
    exact lookupN_append_single g.nodes g.next_id n0 x hfreshL
  have hnotin : g.next_id ∉ g.nodes.map Prod.fst := by
    intro hmem
    have h2 := (get_node_isSome_iff_mem g g.next_id).mpr hmem
    rw [hinv.fresh] at h2
    cases h2
  have hsome_old : ∀ x n, g'.get_node x = some n → x ≠ g.next_id →
      g.get_node x = some n := by
    intro x n hx hne
    rw [hget, if_neg hne] at hx
    exact hx
  have hsome_tr : ∀ x, (g.get_node x).isSome → (g'.get_node x).isSome := by
    intro x hx
    rw [hget]
    by_cases hq : x = g.next_id
    · rw [if_pos hq]; rfl
    · rw [if_neg hq]; exact hx
  constructor
  · rw [hnodes]
    rw [show ((g.nodes ++ [(g.next_id, n0)]).map Prod.fst)
        = g.nodes.map Prod.fst ++ [g.next_id] from keys_append_single _ _ _]
    exact hinv.keys_nodup.append (List.nodup_singleton _)
      (by simpa using hnotin)
  · intro x hx
    rw [hget] at hx
    rw [hnext]
    by_cases hq : x = g.next_id
    · rw [hq]; exact Nat.lt_succ_self _
    · rw [if_neg hq] at hx
      exact Nat.lt_succ_of_lt (hinv.keys_lt x hx)
  · intro r hr
    rw [hroots] at hr
    rcases List.mem_append.mp hr with hr | hr
    · exact hsome_tr r (hinv.roots_sub r hr)
    · rw [List.mem_singleton.mp hr, hget, if_pos rfl]
      rfl
  · rw [hroots]
    refine hinv.roots_nodup.append (List.nodup_singleton _) ?_
    rw [List.disjoint_singleton]
    intro hmem
    have h2 := hinv.roots_sub _ hmem
    rw [hinv.fresh] at h2
    cases h2
  · intro x n p hx hp
    by_cases hq : x = g.next_id
    · rw [hget, if_pos hq] at hx
      cases hx
      rw [hp0] at hp
      cases hp
    · have hxg := hsome_old x n hx hq
      exact hsome_tr p (hinv.parent_ex x n p hxg hp)
  · intro x n c hx hc
    by_cases hq : x = g.next_id
    · rw [hget, if_pos hq] at hx
      cases hx
      rw [hc0] at hc
      cases hc
    · have hxg := hsome_old x n hx hq
      exact hsome_tr c (hinv.child_ex x n c hxg hc)
  · intro x n hx
    by_cases hq : x = g.next_id
    · rw [hget, if_pos hq] at hx
      cases hx
      rw [hc0]
      exact List.nodup_nil
    · exact hinv.child_nd x n (hsome_old x n hx hq)
  · intro x n p pn hx hp hpn
    by_cases hq : x = g.next_id
    · rw [hget, if_pos hq] at hx
      cases hx
      rw [hp0] at hp
      cases hp
    · have hxg := hsome_old x n hx hq
      have hpex := hinv.parent_ex x n p hxg hp
      have hpne : p ≠ g.next_id := by
        intro hcon
        rw [hcon, hinv.fresh] at hpex
        cases hpex
      exact hinv.link_up x n p pn hxg hp (hsome_old p pn hpn hpne)
  · intro p pn c cn hp hc hcn
    by_cases hq : p = g.next_id
    · rw [hget, if_pos hq] at hp
      cases hp
      rw [hc0] at hc
      cases hc
    · have hpg := hsome_old p pn hp hq
      have hcex := hinv.child_ex p pn c hpg hc
      have hcne : c ≠ g.next_id := by
        intro hcon
        rw [hcon, hinv.fresh] at hcex
        cases hcex
      exact hinv.link_down p pn c cn hpg hc (hsome_old c cn hcn hcne)
  · intro x n hx
    rw [hroots]
    by_cases hq : x = g.next_id
    · rw [hget, if_pos hq] at hx
      cases hx
      refine iff_of_true ?_ hp0
      exact List.mem_append.mpr (Or.inr (by rw [hq]; exact List.mem_singleton_self _))
    · have hxg := hsome_old x n hx hq
      rw [List.mem_append, List.mem_singleton]
      constructor
      · intro h
        rcases h with h | h
        · exact (hinv.root_iff x n hxg).mp h
        · exact absurd h hq
      · intro h
        exact Or.inl ((hinv.root_iff x n hxg).mpr h)
  · -- acyclic
    have hpar : ∀ x, x ≠ g.next_id → parentF g' x = parentF g x := by
      intro x hx
      simp only [parentF]
      rw [hget, if_neg hx]
    have hparnew : parentF g' g.next_id = none := by
      simp only [parentF]
      rw [hget, if_pos rfl, Option.some_bind, hp0]
    intro x k hk hcyc
    by_cases hvisit : ∃ i, i < k ∧ iterF g' i x = some g.next_id
    · rcases hvisit with ⟨i, hik, hi⟩
      have hnone : iterF g' (i + 1) x = none := by
        simp only [iterF]
        rw [hi, Option.some_bind, hparnew]
      have hks : (iterF g' k x).isSome := by rw [hcyc]; rfl
      have h2 := iterF_isSome_of_le g' (Nat.succ_le_of_lt hik) hks
      rw [hnone] at h2
      cases h2
    · push_neg at hvisit
      have htr := iterF_transfer g g' g.next_id hpar k x
        (fun i hi => hvisit i hi)
      rw [htr] at hcyc
      exact hinv.acyclic x k hk hcyc

theorem invA_create (g : SceneGraph) (name : String) (hinv : InvA g) :
    InvA (g.create_node name).1 := by
  refine invA_extend g hinv _ (SceneNode.new g.next_id name) rfl rfl ?_ rfl rfl
  simp only [SceneGraph.create_node, insertN]
  rw [if_neg (by rw [show lookupN g.nodes g.next_id = none from hinv.fresh]; simp)]

theorem invA_create_with (g : SceneGraph) (name : String) (t : Transform)
    (hinv : InvA g) : InvA (g.create_node_with_transform name t).1 := by
  refine invA_extend g hinv _ (SceneNode.with_transform g.next_id name t) rfl rfl ?_ rfl rfl
  simp only [SceneGraph.create_node_with_transform, insertN]
  rw [if_neg (by rw [show lookupN g.nodes g.next_id = none from hinv.fresh]; simp)]

theorem invA_remove (g : SceneGraph) (y : ℕ) (hinv : InvA g) :
    InvA (g.remove_node y).1 := by
  have S := remove_node_spec g y (MInv.of_invA hinv)
  have hsurv : ∀ x n', (g.remove_node y).1.get_node x = some n' → ¬ Desc g y x := by
    intro x n' hx hcon
    rw [(S.none_iff x).mpr (Or.inr hcon)] at hx
    cases hx
  constructor
  · exact S.minv.keys_nodup
  · intro x hx
    rcases Option.isSome_iff_exists.mp hx with ⟨n', hn'⟩
    rcases S.some_char x n' hn' with ⟨n, hn, -, -, -⟩
    rw [S.next_eq]
    exact hinv.keys_lt x (by rw [hn]; rfl)
  · intro r hr
    have hrg := S.rootsub.subset hr
    rw [Option.isSome_iff_ne_none]
    intro hcon
    rcases (S.none_iff r).mp hcon with h | h
    · have h2 := hinv.roots_sub r hrg
      rw [h] at h2
      cases h2
    · rcases (S.roots_mem r hrg).mp hr with h2 | h2
      · have h3 := hinv.roots_sub r hrg
        rw [h2] at h3
        cases h3
      · exact h2 h
  · exact S.rootsub.nodup hinv.roots_nodup
  · intro x n' p hx hp
    rcases S.some_char x n' hx with ⟨n, hn, -, -, heta⟩
    have hpar : n.parent = n'.parent := by rw [heta]
    have hpg : n.parent = some p := hpar.trans hp
    have hpex := hinv.parent_ex x n p hn hpg
    rcases Option.isSome_iff_exists.mp hpex with ⟨pn, hpn⟩
    rw [Option.isSome_iff_ne_none]
    intro hcon
    rcases (S.none_iff p).mp hcon with h | h
    · rw [h] at hpn; cases hpn
    · have hmem := hinv.link_up x n p pn hn hpg hpn
      exact hsurv x n' hx (desc_trans h (Desc.step Desc.refl hpn hmem))
  · exact S.minv.child_ex
  · intro x n' hx
    rcases S.some_char x n' hx with ⟨n, hn, hsub, -, -⟩
    exact (hinv.child_nd x n hn).sublist hsub
  · intro x n' p pn' hx hp hpn'
    rcases S.some_char x n' hx with ⟨n, hn, -, -, heta⟩
    rcases S.some_char p pn' hpn' with ⟨pn, hpn, -, hpmem, -⟩
    have hpar : n.parent = n'.parent := by rw [heta]
    have hpg : n.parent = some p := hpar.trans hp
    have hmem := hinv.link_up x n p pn hn hpg hpn
    exact (hpmem x).mpr ⟨hmem, hsurv x n' hx⟩
  · exact S.minv.link_down
  · intro x n' hx
    rcases S.some_char x n' hx with ⟨n, hn, -, -, heta⟩
    have hpar : n.parent = n'.parent := by rw [heta]
    constructor
    · intro hr
      have hrg := S.rootsub.subset hr
      rw [← hpar]
      exact (hinv.root_iff x n hn).mp hrg
    · intro hpn
      have hxg : x ∈ g.root_nodes := (hinv.root_iff x n hn).mpr (hpar.trans hpn)
      exact (S.roots_mem x hxg).mpr (Or.inr (hsurv x n' hx))
  · exact S.minv.acyclic

theorem parent_err_child (g : SceneGraph) (c p : ℕ) (h : g.get_node c = none) :
    g.parent c p = (g, .error .nodeNotFound) := by
  simp [SceneGraph.parent, h]

theorem parent_err_parent (g : SceneGraph) (c p : ℕ)
    (hc : (g.get_node c).isSome) (h : g.get_node p = none) :
    g.parent c p = (g, .error .nodeNotFound) := by
  have hcn : ¬ (g.get_node c).isNone = true := by
    rw [Option.isNone_iff_eq_none]
    intro hq
    rw [hq] at hc
    cases hc
  simp [SceneGraph.parent, hcn, h]

theorem parent_err_cycle (g : SceneGraph) (c p : ℕ)
    (hc : (g.get_node c).isSome) (hp : (g.get_node p).isSome)
    (h : g.would_create_cycle c p = true) :
    g.parent c p = (g, .error .cycleDetected) := by
  have hcn : ¬ (g.get_node c).isNone = true := by
    rw [Option.isNone_iff_eq_none]
    intro hq
    rw [hq] at hc
    cases hc
  have hpn : ¬ (g.get_node p).isNone = true := by
    rw [Option.isNone_iff_eq_none]
    intro hq
    rw [hq] at hp
    cases hp
  simp [SceneGraph.parent, hcn, hpn, h]

/-- A successful `parent` call touches node values only (the arena keys are
untouched). -/
theorem parent_keys (g : SceneGraph) (c p : ℕ) (nc : SceneNode)
    (hc : g.get_node c = some nc) (hp : ¬ (g.get_node p).isNone = true)
    (hcyc : g.would_create_cycle c p = false) :
    (g.parent c p).1.nodes.map Prod.fst = g.nodes.map Prod.fst := by
  have hcn : ¬ (g.get_node c).isNone = true := by rw [hc]; simp
  have hcyn : ¬ g.would_create_cycle c p = true := by rw [hcyc]; simp
  have hc' : lookupN g.nodes c = some nc := hc
  unfold SceneGraph.parent
  rw [if_neg hcn, if_neg hp, if_neg hcyn]
  simp only [SceneGraph.get_node, hc', Option.some_bind]
  cases hop : nc.parent with
  | none =>
    simp only [keys_modifyN]
  | some old =>
    simp only [keys_modifyN]
    show ((if old ≠ p then
        ({ nodes := (modifyN g.nodes old (fun n =>
              { n with children := n.children.filter (fun id => id != c) })),
           root_nodes := g.root_nodes.filter (fun id => id != c),
           next_id := g.next_id } : SceneGraph)
      else
        ({ nodes := g.nodes,
           root_nodes := g.root_nodes.filter (fun id => id != c),
           next_id := g.next_id } : SceneGraph)) : SceneGraph).nodes.map Prod.fst
      = g.nodes.map Prod.fst
    by_cases hop2 : old ≠ p
    · rw [if_pos hop2]
      simp only [keys_modifyN]
    · rw [if_neg hop2]

/-- Re-pointing one node's parent to a node that it is not an ancestor of
preserves acyclicity of the parent relation. -/
theorem acyclic_update (g g' : SceneGraph) (c p : ℕ)
    (hpar : ∀ x, x ≠ c → parentF g' x = parentF g x)
    (hcstep : parentF g' c = some p)
    (hacy : Acyclic g) (hpc : p ≠ c)
    (hnoanc : ∀ k, 0 < k → iterF g k p ≠ some c) : Acyclic g' := by
  intro x k hk hcyc
  by_cases hvisit : ∃ i, i < k ∧ iterF g' i x = some c
  · rcases hvisit with ⟨i, hik, hi⟩
    -- rotate the cycle so that it starts at c
    have hrot : iterF g' k c = some c := by
      have hsplit : iterF g' k x = (iterF g' i x).bind (iterF g' (k - i)) := by
        rw [← iterF_add g' i (k - i) x, Nat.add_sub_cancel' (Nat.le_of_lt hik)]
      rw [hsplit, hi, Option.some_bind] at hcyc
      have h2 : iterF g' ((k - i) + i) c = some c := by
        rw [iterF_add g' (k - i) i c, hcyc, Option.some_bind, hi]
      rwa [Nat.sub_add_cancel (Nat.le_of_lt hik)] at h2
    -- peel the first (modified) step
    rcases Nat.exists_eq_add_of_lt hk with ⟨k1, hk1⟩
    rw [hk1, Nat.zero_add] at hrot
    rw [iterF_succ_front, hcstep, Option.some_bind] at hrot
    -- hrot : iterF g' k1 p = some c; take the least such index
    have hex : ∃ j, iterF g' j p = some c := ⟨k1, hrot⟩
    have hj0 := Nat.find_spec hex
    have hmin := fun i (hi : i < Nat.find hex) => Nat.find_min hex hi
    have htr := iterF_transfer g g' c hpar (Nat.find hex) p hmin
    rw [htr] at hj0
    cases hfind : Nat.find hex with
    | zero =>
      rw [hfind] at hj0
      exact hpc (Option.some.inj hj0)
    | succ j =>
      rw [hfind] at hj0
      exact hnoanc (j + 1) (Nat.succ_pos j) hj0
  · push_neg at hvisit
    have htr := iterF_transfer g g' c hpar k x (fun i hi => hvisit i hi)
    rw [htr] at hcyc
    exact hacy x k hk hcyc

/-- `SceneGraph::parent` preserves the structural invariant (error branches
leave the graph untouched; the success branch re-links consistently). -/
theorem invA_parent (g : SceneGraph) (c p : ℕ) (hinv : InvA g) :
    InvA (g.parent c p).1 := by
  cases hcg : g.get_node c with
  | none =>
    rw [parent_err_child g c p hcg]
    exact hinv
  | some nc =>
    cases hpg : g.get_node p with
    | none =>
      rw [parent_err_parent g c p (by rw [hcg]; rfl) hpg]
      exact hinv
    | some np =>
      cases hcyc : g.would_create_cycle c p with
      | true =>
        rw [parent_err_cycle g c p (by rw [hcg]; rfl) (by rw [hpg]; rfl) hcyc]
        exact hinv
      | false =>
        obtain ⟨-, hroot, hnext, hpt⟩ := parent_ok_spec g c p nc np hinv hcg hpg hcyc
        have hkeys := parent_keys g c p nc hcg (by rw [hpg]; simp) hcyc
        have hnot : ¬ (p = c ∨ ∃ k, 0 < k ∧ iterF g k p = some c) := by
          intro hcon
          rw [(would_create_cycle_iff g hinv.acyclic c p (by rw [hcg]; rfl)).mpr hcon]
            at hcyc
          cases hcyc
        have hpc : ¬ p = c := fun hq => hnot (Or.inl hq)
        have hnoanc : ∀ k, 0 < k → iterF g k p ≠ some c :=
          fun k hk hq => hnot (Or.inr ⟨k, hk, hq⟩)
        have hsc : ∀ z nz, g.get_node z = some nz → nz.parent ≠ some z := by
          intro z nz hz hcon
          exact hinv.acyclic z 1 Nat.one_pos (by simp [iterF, parentF, hz, hcon])
        have hgetC : (g.parent c p).1.get_node c = some { nc with parent := some p } := by
          rw [hpt c, if_pos rfl]
        have hgetP : (g.parent c p).1.get_node p
            = some (if c ∈ np.children then np
                    else { np with children := np.children ++ [c] }) := by
          rw [hpt p, if_neg hpc, if_pos rfl]
        have hptO : ∀ x, x ≠ c → x ≠ p → ∀ old, nc.parent = some old →
            (g.parent c p).1.get_node x
              = if x = old then
                  (g.get_node x).map
                    (fun n => { n with children := n.children.filter (fun id => id != c) })
                else g.get_node x := by
          intro x hxc hxp old hop
          rw [hpt x, if_neg hxc, if_neg hxp, hop]
        have hptN : ∀ x, x ≠ c → x ≠ p → nc.parent = none →
            (g.parent c p).1.get_node x = g.get_node x := by
          intro x hxc hxp hop
          rw [hpt x, if_neg hxc, if_neg hxp, hop]
        have P0 : ∀ x, ((g.parent c p).1.get_node x).isSome ↔ (g.get_node x).isSome := by
          intro x
          by_cases hxc : x = c
          · rw [hxc, hgetC, hcg]
            simp
          · by_cases hxp : x = p
            · rw [hxp, hgetP, hpg]
              simp
            · cases hop : nc.parent with
              | none => rw [hptN x hxc hxp hop]
              | some old =>
                rw [hptO x hxc hxp old hop]
                by_cases hxo : x = old
                · rw [if_pos hxo]
                  simp
                · rw [if_neg hxo]
        have P1 : ∀ x n' nx, (g.parent c p).1.get_node x = some n' →
            g.get_node x = some nx →
            n'.parent = if x = c then some p else nx.parent := by
          intro x n' nx hx hnx
          by_cases hxc : x = c
          · rw [if_pos hxc]
            rw [hxc, hgetC] at hx
            rw [← Option.some.inj hx]
          · rw [if_neg hxc]
            by_cases hxp : x = p
            · rw [hxp, hgetP] at hx
              rw [hxp, hpg] at hnx
              rw [← Option.some.inj hx, ← Option.some.inj hnx]
              by_cases hmem : c ∈ np.children
              · rw [if_pos hmem]
              · rw [if_neg hmem]
            · cases hop : nc.parent with
              | none =>
                rw [hptN x hxc hxp hop, hnx] at hx
                rw [← Option.some.inj hx]
              | some old =>
                rw [hptO x hxc hxp old hop] at hx
                by_cases hxo : x = old
                · rw [if_pos hxo, hnx] at hx
                  simp only [Option.map_some', Option.some.injEq] at hx
                  rw [← hx]
                · rw [if_neg hxo, hnx] at hx
                  rw [← Option.some.inj hx]
        have P2 : ∀ x n' nx, (g.parent c p).1.get_node x = some n' →
            g.get_node x = some nx → ∀ d,
            (d ∈ n'.children ↔
              ((d ∈ nx.children ∧ ¬ (d = c ∧ nc.parent = some x ∧ x ≠ p)) ∨
                (x = p ∧ d = c))) := by
          intro x n' nx hx hnx d
          by_cases hxc : x = c
          · rw [hxc, hgetC] at hx
            rw [hxc, hcg] at hnx
            have hnceq : nc = nx := Option.some.inj hnx
            have hn'eq : n' = { nc with parent := some p } := (Option.some.inj hx).symm
            rw [hn'eq, ← hnceq]
            constructor
            · intro hd
              refine Or.inl ⟨hd, fun hcon => ?_⟩
              exact hsc c nc hcg (by rw [hxc] at hcon; exact hcon.2.1)
            · intro hd
              rcases hd with ⟨hd, -⟩ | ⟨hq, -⟩
              · exact hd
              · exact absurd (hxc ▸ hq : c = p) (fun hh => hpc hh.symm)
          · by_cases hxp : x = p
            · rw [hxp, hgetP] at hx
              rw [hxp, hpg] at hnx
              have hnpeq : np = nx := Option.some.inj hnx
              have hn'eq : n' = (if c ∈ np.children then np
                  else { np with children := np.children ++ [c] }) :=
                (Option.some.inj hx).symm
              rw [hn'eq, ← hnpeq]
              by_cases hmem : c ∈ np.children
              · rw [if_pos hmem]
                constructor
                · intro hd
                  exact Or.inl ⟨hd, fun hcon => (hcon.2.2) hxp⟩
                · intro hd
                  rcases hd with ⟨hd, -⟩ | ⟨-, hdc⟩
                  · exact hd
                  · rw [hdc]; exact hmem
              · rw [if_neg hmem]
                simp only [List.mem_append, List.mem_singleton]
                constructor
                · intro hd
                  rcases hd with hd | hd
                  · exact Or.inl ⟨hd, fun hcon => (hcon.2.2) hxp⟩
                  · exact Or.inr ⟨hxp, hd⟩
                · intro hd
                  rcases hd with ⟨hd, -⟩ | ⟨-, hdc⟩
                  · exact Or.inl hd
                  · exact Or.inr hdc
            · cases hop : nc.parent with
              | none =>
                rw [hptN x hxc hxp hop, hnx] at hx
                rw [← Option.some.inj hx]
                constructor
                · intro hd
                  refine Or.inl ⟨hd, fun hcon => ?_⟩
                  exact Option.noConfusion hcon.2.1
                · intro hd
                  rcases hd with ⟨hd, -⟩ | ⟨hq, -⟩
                  · exact hd
                  · exact absurd hq hxp
              | some old =>
                rw [hptO x hxc hxp old hop] at hx
                by_cases hxo : x = old
                · rw [if_pos hxo, hnx] at hx
                  simp only [Option.map_some', Option.some.injEq] at hx
                  rw [← hx]
                  simp only [List.mem_filter, bne_iff_ne, ne_eq]
                  constructor
                  · intro hd
                    exact Or.inl ⟨hd.1, fun hcon => hd.2 hcon.1⟩
                  · intro hd
                    rcases hd with ⟨hd, hcon⟩ | ⟨hq, -⟩
                    · refine ⟨hd, fun hdc => hcon ⟨hdc, ?_, hxp⟩⟩
                      rw [hxo]
                    · exact absurd hq hxp
                · rw [if_neg hxo, hnx] at hx
                  rw [← Option.some.inj hx]
                  constructor
                  · intro hd
                    refine Or.inl ⟨hd, fun hcon => ?_⟩
                    exact hxo (Option.some.inj hcon.2.1).symm
                  · intro hd
                    rcases hd with ⟨hd, -⟩ | ⟨hq, -⟩
                    · exact hd
                    · exact absurd hq hxp
        constructor
        · rw [show ((g.parent c p).1.nodes.map Prod.fst) = g.nodes.map Prod.fst
            from hkeys]
          exact hinv.keys_nodup
        · intro x hx
          rw [hnext]
          exact hinv.keys_lt x ((P0 x).mp hx)
        · intro r hr
          rw [hroot] at hr
          rcases List.mem_filter.mp hr with ⟨hr1, -⟩
          exact (P0 r).mpr (hinv.roots_sub r hr1)
        · rw [hroot]
          exact hinv.roots_nodup.filter _
        · intro x n' q hx hq
          have hxs : (g.get_node x).isSome := (P0 x).mp (by rw [hx]; rfl)
          rcases Option.isSome_iff_exists.mp hxs with ⟨nx, hnx⟩
          have hP1 := P1 x n' nx hx hnx
          by_cases hxc : x = c
          · rw [if_pos hxc] at hP1
            have hqp : q = p := Option.some.inj (hP1 ▸ hq).symm
            rw [hqp]
            exact (P0 p).mpr (by rw [hpg]; rfl)
          · rw [if_neg hxc] at hP1
            have hq2 : nx.parent = some q := by rw [← hP1]; exact hq
            exact (P0 q).mpr (hinv.parent_ex x nx q hnx hq2)
        · intro x n' d hx hd
          have hxs : (g.get_node x).isSome := (P0 x).mp (by rw [hx]; rfl)
          rcases Option.isSome_iff_exists.mp hxs with ⟨nx, hnx⟩
          rcases (P2 x n' nx hx hnx d).mp hd with ⟨hdm, -⟩ | ⟨-, hdc⟩
          · exact (P0 d).mpr (hinv.child_ex x nx d hnx hdm)
          · rw [hdc]
            exact (P0 c).mpr (by rw [hcg]; rfl)
        · intro x n' hx
          by_cases hxc : x = c
          · rw [hxc, hgetC] at hx
            rw [← Option.some.inj hx]
            exact hinv.child_nd c nc hcg
          · by_cases hxp : x = p
            · rw [hxp, hgetP] at hx
              rw [← Option.some.inj hx]
              by_cases hmem : c ∈ np.children
              · rw [if_pos hmem]
                exact hinv.child_nd p np hpg
              · rw [if_neg hmem]
                exact (hinv.child_nd p np hpg).append (List.nodup_singleton _)
                  (by rw [List.disjoint_singleton]; exact hmem)
            · cases hop : nc.parent with
              | none =>
                rw [hptN x hxc hxp hop] at hx
                exact hinv.child_nd x n' hx
              | some old =>
                rw [hptO x hxc hxp old hop] at hx
                by_cases hxo : x = old
                · rw [if_pos hxo] at hx
                  cases hnx : g.get_node x with
                  | none => rw [hnx] at hx; cases hx
                  | some nx =>
                    rw [hnx] at hx
                    simp only [Option.map_some', Option.some.injEq] at hx
                    rw [← hx]
                    exact (hinv.child_nd x nx hnx).filter _
                · rw [if_neg hxo] at hx
                  exact hinv.child_nd x n' hx
        · intro x n' q qn' hx hq hqn'
          have hxs : (g.get_node x).isSome := (P0 x).mp (by rw [hx]; rfl)
          rcases Option.isSome_iff_exists.mp hxs with ⟨nx, hnx⟩
          have hP1 := P1 x n' nx hx hnx
          by_cases hxc : x = c
          · rw [if_pos hxc] at hP1
            have hqp : q = p := Option.some.inj (hP1 ▸ hq).symm
            have hqn'2 : qn' = (if c ∈ np.children then np
                else { np with children := np.children ++ [c] }) := by
              rw [hqp, hgetP] at hqn'
              exact (Option.some.inj hqn').symm
            have := (P2 q qn' np (by rw [hqp]; exact hqp ▸ hqn') (by rw [hqp]; exact hpg) x).mpr
              (Or.inr ⟨hqp, hxc⟩)
            exact this
          · rw [if_neg hxc] at hP1
            have hq2 : nx.parent = some q := by rw [← hP1]; exact hq
            have hqs : (g.get_node q).isSome := hinv.parent_ex x nx q hnx hq2
            rcases Option.isSome_iff_exists.mp hqs with ⟨nq, hnq⟩
            have hmem := hinv.link_up x nx q nq hnx hq2 hnq
            exact (P2 q qn' nq hqn' hnq x).mpr (Or.inl ⟨hmem, fun hcon => hxc hcon.1⟩)
        · intro q qn' d dn' hq hd hdn'
          have hqs : (g.get_node q).isSome := (P0 q).mp (by rw [hq]; rfl)
          rcases Option.isSome_iff_exists.mp hqs with ⟨nq, hnq⟩
          rcases (P2 q qn' nq hq hnq d).mp hd with ⟨hdm, hcond⟩ | ⟨hqp, hdc⟩
          · have hds : (g.get_node d).isSome := hinv.child_ex q nq d hnq hdm
            rcases Option.isSome_iff_exists.mp hds with ⟨nd, hnd⟩
            have hdq := hinv.link_down q nq d nd hnq hdm hnd
            have hP1 := P1 d dn' nd hdn' hnd
            by_cases hdc : d = c
            · rw [if_pos hdc] at hP1
              have hndnc : nd = nc := by
                rw [hdc, hcg] at hnd
                exact (Option.some.inj hnd).symm
              have hqp : q = p := by
                by_contra hqp
                exact hcond ⟨hdc, by rw [← hndnc]; exact hdq, hqp⟩
              rw [hP1, hqp]
            · rw [if_neg hdc] at hP1
              rw [hP1]
              exact hdq
          · have hdn'2 : dn' = { nc with parent := some p } := by
              rw [hdc, hgetC] at hdn'
              exact (Option.some.inj hdn').symm
            rw [hdn'2, hqp]
        · intro x n' hx
          rw [hroot]
          have hxs : (g.get_node x).isSome := (P0 x).mp (by rw [hx]; rfl)
          rcases Option.isSome_iff_exists.mp hxs with ⟨nx, hnx⟩
          have hP1 := P1 x n' nx hx hnx
          by_cases hxc : x = c
          · rw [if_pos hxc] at hP1
            refine iff_of_false ?_ ?_
            · intro hmem
              rcases List.mem_filter.mp hmem with ⟨-, h2⟩
              rw [hxc] at h2
              simp at h2
            · rw [hP1]
              simp
          · rw [if_neg hxc] at hP1
            constructor
            · intro hmem
              rcases List.mem_filter.mp hmem with ⟨h1, -⟩
              rw [hP1]
              exact (hinv.root_iff x nx hnx).mp h1
            · intro hpn
              refine List.mem_filter.mpr ⟨?_, by simpa using hxc⟩
              exact (hinv.root_iff x nx hnx).mpr (by rw [← hP1]; exact hpn)
        · refine acyclic_update g (g.parent c p).1 c p ?_ ?_ hinv.acyclic hpc hnoanc
          · intro x hxc
            simp only [parentF]
            cases hx : (g.parent c p).1.get_node x with
            | none =>
              have hgx : g.get_node x = none := by
                cases hgx2 : g.get_node x with
                | none => rfl
                | some nx =>
                  have h2 := (P0 x).mpr (by rw [hgx2]; rfl)
                  rw [hx] at h2
                  cases h2
              rw [hgx]
            | some n' =>
              have hxs : (g.get_node x).isSome := (P0 x).mp (by rw [hx]; rfl)
              rcases Option.isSome_iff_exists.mp hxs with ⟨nx, hnx⟩
              rw [hnx, Option.some_bind, Option.some_bind]
              have hP1 := P1 x n' nx hx hnx
              rw [if_neg hxc] at hP1
              exact hP1
          · simp [parentF, hgetC]

/-- The public mutating operations on a scene graph. -/
inductive SceneOp where
  | create (name : String)
  | createWith (name : String) (t : Transform)
  | reparent (child_id parent_id : ℕ)
  | remove (node_id : ℕ)

def applyOp (g : SceneGraph) : SceneOp → SceneGraph
  | .create name => (g.create_node name).1
  | .createWith name t => (g.create_node_with_transform name t).1
  | .reparent child_id parent_id => (g.parent child_id parent_id).1
  | .remove node_id => (g.remove_node node_id).1

def applyOps (g : SceneGraph) (ops : List SceneOp) : SceneGraph :=
  ops.foldl applyOp g

theorem invA_applyOp (g : SceneGraph) (op : SceneOp) (hinv : InvA g) :
    InvA (applyOp g op) := by
  cases op with
  | create name => exact invA_create g name hinv
  | createWith name t => exact invA_create_with g name t hinv
  | reparent child_id parent_id => exact invA_parent g child_id parent_id hinv
  | remove node_id => exact invA_remove g node_id hinv

theorem invA_applyOps (ops : List SceneOp) : InvA (applyOps SceneGraph.new ops) := by
  suffices h : ∀ g, InvA g → InvA (applyOps g ops) from h _ invA_new
  induction ops with
  | nil => intro g hg; exact hg
  | cons op rest ih =>
    intro g hg
    simp only [applyOps, List.foldl_cons]
    exact ih _ (invA_applyOp g op hg)

theorem invA_abc : InvA abcGraph := by
  unfold abcGraph
  exact invA_parent _ 3 2 (invA_parent _ 2 1
    (invA_create _ "C" (invA_create _ "B" (invA_create _ "A" invA_new))))

/-- Claim C5: every sequence of `create_node`/`create_node_with_transform`/
`parent`/`remove_node` operations starting from the empty graph maintains the
structural invariant — all ids stored in the root list or in parent/children
fields exist in the arena, the parent/children relation is mutually
consistent with no duplicated child, the parent relation is acyclic, and a
node is a root exactly when it has no parent.  Moreover `remove_node` removes
the entire subtree: `get_node` returns nothing for the removed node and for
every node reachable from it through children lists. -/
theorem c5_graph_invariant :
    (∀ ops : List SceneOp, InvA (applyOps SceneGraph.new ops)) ∧
    (∀ ops : List SceneOp,
      (∀ r ∈ (applyOps SceneGraph.new ops).root_nodes,
        ((applyOps SceneGraph.new ops).get_node r).isSome) ∧
      (∀ x n q, (applyOps SceneGraph.new ops).get_node x = some n →
        n.parent = some q → ((applyOps SceneGraph.new ops).get_node q).isSome) ∧
      (∀ x n d, (applyOps SceneGraph.new ops).get_node x = some n →
        d ∈ n.children → ((applyOps SceneGraph.new ops).get_node d).isSome) ∧
      (∀ x n q qn, (applyOps SceneGraph.new ops).get_node x = some n →
        (applyOps SceneGraph.new ops).get_node q = some qn →
        (n.parent = some q ↔ x ∈ qn.children)) ∧
      (∀ x n, (applyOps SceneGraph.new ops).get_node x = some n →
        n.children.Nodup) ∧
      Acyclic (applyOps SceneGraph.new ops) ∧
      (∀ x n, (applyOps SceneGraph.new ops).get_node x = some n →
        (x ∈ (applyOps SceneGraph.new ops).root_nodes ↔ n.parent = none))) ∧
    (∀ (g : SceneGraph) (y d : ℕ), InvA g → Desc g y d →
      (g.remove_node y).1.get_node d = none) := by
  refine ⟨invA_applyOps, ?_, ?_⟩
  · intro ops
    have hinv := invA_applyOps ops
    refine ⟨hinv.roots_sub, hinv.parent_ex, hinv.child_ex, ?_, hinv.child_nd,
      hinv.acyclic, hinv.root_iff⟩
    intro x n q qn hx hq
    constructor
    · intro hp
      exact hinv.link_up x n q qn hx hp hq
    · intro hmem
      exact hinv.link_down q qn x n hq hmem hx
  · intro g y d hinv hd
    exact ((remove_node_spec g y (MInv.of_invA hinv)).none_iff d).mpr (Or.inr hd)

/-- Witness for `c5_graph_invariant`: removing the root A of the chain A→B→C
also removes its grandchild C. -/
theorem c5_witness :
    InvA abcGraph ∧ Desc abcGraph 1 3 ∧
    (abcGraph.remove_node 1).1.get_node 3 = none := by
  have h1 : abcGraph.get_node 1
      = some ((abcGraph.get_node 1).getD (SceneNode.new 0 "d")) := by decide
  have h2 : abcGraph.get_node 2
      = some ((abcGraph.get_node 2).getD (SceneNode.new 0 "d")) := by decide
  have hm1 : 2 ∈ ((abcGraph.get_node 1).getD (SceneNode.new 0 "d")).children := by
    decide
  have hm2 : 3 ∈ ((abcGraph.get_node 2).getD (SceneNode.new 0 "d")).children := by
    decide
  have hd : Desc abcGraph 1 3 := Desc.step (Desc.step Desc.refl h1 hm1) h2 hm2
  exact ⟨invA_abc, hd, c5_graph_invariant.2.2 abcGraph 1 3 invA_abc hd⟩

/-- Witness for `c4_parent_error_handling`: each error branch and the cycle
characterization, instantiated on concrete graphs. -/
theorem c4_witness :
    SceneGraph.new.parent 0 1 = (SceneGraph.new, .error .nodeNotFound) ∧
    abcGraph.parent 1 99 = (abcGraph, .error .nodeNotFound) ∧
    abcGraph.parent 1 3 = (abcGraph, .error .cycleDetected) ∧
    (abcGraph.would_create_cycle 3 1 = true ↔
      (1 = 3 ∨ ∃ k, 0 < k ∧ iterF abcGraph k 1 = some 3)) := by
  refine ⟨c4_parent_error_handling.1 SceneGraph.new 0 1 rfl,
    c4_parent_error_handling.2.1 abcGraph 1 99 (by decide),
    c4_parent_error_handling.2.2.1 abcGraph 1 3 (by decide) (by decide) (by decide),
    c4_parent_error_handling.2.2.2.1 abcGraph 3 1 invA_abc (by decide)⟩

/-- The world-transform composition performed by
`update_node_transform_recursive`: additive position, own rotation,
component-wise multiplied scale. -/
def compW (pw l : Transform) : Transform :=
  { position := pw.position + l.position,
    rotation := l.rotation,
    scale := ⟨pw.scale.x * l.scale.x, pw.scale.y * l.scale.y, pw.scale.z * l.scale.z⟩ }

/-- Erase the one field the transform pass writes. -/
def eraseW (n : SceneNode) : SceneNode :=
  { n with world_transform := Transform.new }

/-- Two graphs that differ only in world transforms. -/
def SameShape (g g' : SceneGraph) : Prop :=
  g'.root_nodes = g.root_nodes ∧ g'.next_id = g.next_id ∧
  g'.nodes.map (fun kn => (kn.1, eraseW kn.2))
    = g.nodes.map (fun kn => (kn.1, eraseW kn.2))

theorem sameShape_refl (g : SceneGraph) : SameShape g g := ⟨rfl, rfl, rfl⟩

theorem sameShape_get {g g' : SceneGraph} (h : SameShape g g') (x : ℕ) :
    (g'.get_node x).map eraseW = (g.get_node x).map eraseW := by
  have h1 := lookupN_mapVal eraseW g.nodes x
  have h2 := lookupN_mapVal eraseW g'.nodes x
  rw [← h.2.2] at h1
  simp only [SceneGraph.get_node]
  rw [← h1, ← h2]

theorem sameShape_isSome {g g' : SceneGraph} (h : SameShape g g') (x : ℕ) :
    (g'.get_node x).isSome ↔ (g.get_node x).isSome := by
  have h1 := sameShape_get h x
  cases hg' : g'.get_node x with
  | none =>
    cases hg : g.get_node x with
    | none => simp
    | some n => rw [hg, hg'] at h1; simp at h1
  | some n' =>
    cases hg : g.get_node x with
    | none => rw [hg, hg'] at h1; simp at h1
    | some n => simp

theorem sameShape_some {g g' : SceneGraph} (h : SameShape g g') {x : ℕ}
    {n' : SceneNode} (hx : g'.get_node x = some n') :
    ∃ n, g.get_node x = some n ∧ eraseW n' = eraseW n := by
  have h1 := sameShape_get h x
  cases hg : g.get_node x with
  | none => rw [hg, hx] at h1; simp at h1
  | some n =>
    rw [hg, hx] at h1
    simp only [Option.map_some', Option.some.injEq] at h1
    exact ⟨n, rfl, h1⟩

/-- Shape-equal graphs have the same children-reachability. -/
theorem sameShape_desc {g g' : SceneGraph} (h : SameShape g g') (z x : ℕ) :
    Desc g' z x ↔ Desc g z x := by
  constructor
  · intro hd
    induction hd with
    | refl => exact Desc.refl
    | step hdw hgw hcw ih =>
      rename_i w d n'
      rcases sameShape_some h hgw with ⟨n, hn, he⟩
      have hch : n'.children = n.children := by
        have h0 := congrArg SceneNode.children he
        exact h0
      exact Desc.step ih hn (hch ▸ hcw)
  · intro hd
    induction hd with
    | refl => exact Desc.refl
    | step hdw hgw hcw ih =>
      rename_i w d n
      have hs : (g'.get_node w).isSome := (sameShape_isSome h w).mpr (by rw [hgw]; rfl)
      rcases Option.isSome_iff_exists.mp hs with ⟨n', hn'⟩
      rcases sameShape_some h hn' with ⟨n0, hn0, he⟩
      have hn0n : n0 = n := by
        rw [hgw] at hn0
        exact (Option.some.inj hn0).symm
      rw [hn0n] at he
      have hch : n'.children = n.children := by
        have h0 := congrArg SceneNode.children he
        exact h0
      exact Desc.step ih hn' (hch ▸ hcw)

theorem modifyN_id_fun (nodes : List (ℕ × SceneNode)) (id : ℕ) :
    modifyN nodes id (fun n => n) = nodes := by
  induction nodes with
  | nil => rfl
  | cons kn rest ih =>
    simp only [modifyN, List.map_cons] at ih ⊢
    by_cases hk : kn.1 = id
    · rw [if_pos hk, ih]
    · rw [if_neg hk, ih]

/-- Unfolding of the recursive transform update at a present node. -/
theorem utr_unfold (fuel : ℕ) (g : SceneGraph) (id : ℕ) (pw : Transform)
    (n : SceneNode) (h : g.get_node id = some n) :
    SceneGraph.update_node_transform_recursive (fuel + 1) g id pw
      = n.children.foldl
          (fun acc c => SceneGraph.update_node_transform_recursive fuel acc c
            (compW pw n._local_transform))
          { g with nodes := (modifyN g.nodes id (fun node =>
              { node with world_transform := compW pw node._local_transform })) } := by
  have h' : lookupN g.nodes id = some n := h
  have hg1 : ({ g with nodes := (modifyN g.nodes id (fun node =>
      { node with world_transform := compW pw node._local_transform })) }
        : SceneGraph).get_node id
      = some { n with world_transform := compW pw n._local_transform } := by
    simp only [SceneGraph.get_node, lookupN_modifyN, if_pos rfl, h']
    rfl
  simp only [SceneGraph.update_node_transform_recursive, SceneGraph.get_node, h',
    lookupN_modifyN]
  rfl

/-- Subtrees hanging off two distinct children of one node are disjoint
(the parent function is single-valued and acyclic). -/
theorem desc_disjoint (g0 : SceneGraph) (hinv : InvA g0) {id : ℕ} {n0 : SceneNode}
    (hn0 : g0.get_node id = some n0) {c c' : ℕ}
    (hc : c ∈ n0.children) (hc' : c' ∈ n0.children) (hne : c ≠ c')
    {x : ℕ} (hdx : Desc g0 c x) (hdx' : Desc g0 c' x) : False := by
  have hM := MInv.of_invA hinv
  have hpar : ∀ d, d ∈ n0.children → parentF g0 d = some id := by
    intro d hd
    rcases Option.isSome_iff_exists.mp (hinv.child_ex id n0 d hn0 hd) with ⟨nd, hnd⟩
    simp [parentF, hnd, hinv.link_down id n0 d nd hn0 hd hnd]
  rcases desc_iterF hM hdx with ⟨k, hk⟩
  rcases desc_iterF hM hdx' with ⟨k', hk'⟩
  have key : ∀ a b ca cb, ca ∈ n0.children → cb ∈ n0.children →
      iterF g0 a x = some ca → iterF g0 b x = some cb → a < b → False := by
    intro a b ca cb hca hcb ha hb hab
    have hsplit : iterF g0 b x = (iterF g0 a x).bind (iterF g0 (b - a)) := by
      rw [← iterF_add g0 a (b - a) x, Nat.add_sub_cancel' (Nat.le_of_lt hab)]
    rw [hsplit, ha, Option.some_bind] at hb
    obtain ⟨j, hj⟩ : ∃ j, b - a = j + 1 :=
      ⟨b - a - 1, (Nat.succ_pred_eq_of_pos (Nat.sub_pos_of_lt hab)).symm⟩
    rw [hj, iterF_succ_front, hpar ca hca, Option.some_bind] at hb
    have hcyc : iterF g0 (j + 1) id = some id := by
      simp only [iterF]
      rw [hb, Option.some_bind]
      exact hpar cb hcb
    exact hinv.acyclic id (j + 1) (Nat.succ_pos j) hcyc
  rcases Nat.lt_trichotomy k k' with h | h | h
  · exact key k k' c c' hc hc' hk hk' h
  · rw [h, hk'] at hk
    exact hne (Option.some.inj hk).symm
  · exact key k' k c' c hc' hc hk' hk h

/-- Subtrees of two distinct roots are disjoint. -/
theorem root_disjoint (g0 : SceneGraph) (hinv : InvA g0) {r r' : ℕ}
    (hr : r ∈ g0.root_nodes) (hr' : r' ∈ g0.root_nodes) (hne : r ≠ r')
    {x : ℕ} (hd : Desc g0 r x) (hd' : Desc g0 r' x) : False := by
  have hM := MInv.of_invA hinv
  rcases desc_iterF hM hd with ⟨k, hk⟩
  rcases desc_iterF hM hd' with ⟨k', hk'⟩
  have hparents : ∀ s, s ∈ g0.root_nodes → parentF g0 s = none := by
    intro s hs
    rcases Option.isSome_iff_exists.mp (hinv.roots_sub s hs) with ⟨ns, hns⟩
    have h2 := (hinv.root_iff s ns hns).mp hs
    simp [parentF, hns, h2]
  have key : ∀ a b sa sb, sa ∈ g0.root_nodes → iterF g0 a x = some sa →
      iterF g0 b x = some sb → a < b → False := by
    intro a b sa sb hsa ha hb hab
    have hsplit : iterF g0 b x = (iterF g0 a x).bind (iterF g0 (b - a)) := by
      rw [← iterF_add g0 a (b - a) x, Nat.add_sub_cancel' (Nat.le_of_lt hab)]
    rw [hsplit, ha, Option.some_bind] at hb
    obtain ⟨j, hj⟩ : ∃ j, b - a = j + 1 :=
      ⟨b - a - 1, (Nat.succ_pred_eq_of_pos (Nat.sub_pos_of_lt hab)).symm⟩
    rw [hj, iterF_succ_front, hparents sa hsa] at hb
    simp at hb
  rcases Nat.lt_trichotomy k k' with h | h | h
  · exact key k k' r r' hr hk hk' h
  · rw [h, hk'] at hk
    exact hne (Option.some.inj hk).symm
  · exact key k' k r' r hr' hk' hk h

/-- Every ancestor (through the parent chain) reaches back down through the
children lists. -/
theorem iterF_desc (g0 : SceneGraph) (hinv : InvA g0) :
    ∀ (k x r : ℕ), iterF g0 k x = some r → Desc g0 r x := by
  intro k
  induction k with
  | zero =>
    intro x r h
    have hxr : x = r := Option.some.inj h
    rw [← hxr]
    exact Desc.refl
  | succ k ih =>
    intro x r h
    rw [iterF_succ_front] at h
    cases hp : parentF g0 x with
    | none => rw [hp] at h; exact absurd h (by simp)
    | some y =>
      rw [hp, Option.some_bind] at h
      have hdy := ih y r h
      unfold parentF at hp
      cases hgx : g0.get_node x with
      | none => rw [hgx] at hp; exact absurd hp (by simp)
      | some nx =>
        rw [hgx, Option.some_bind] at hp
        have hys := hinv.parent_ex x nx y hgx hp
        rcases Option.isSome_iff_exists.mp hys with ⟨ny, hny⟩
        exact Desc.step hdy hny (hinv.link_up x nx y ny hgx hp hny)

/-- Every present node is in the subtree of some root. -/
theorem exists_root_anc (g0 : SceneGraph) (hinv : InvA g0) (x : ℕ) (nx : SceneNode)
    (hx : g0.get_node x = some nx) :
    ∃ r ∈ g0.root_nodes, Desc g0 r x := by
  have hP0 : (iterF g0 0 x).isSome = true := by simp [iterF]
  have hPkm : (iterF g0 (Nat.findGreatest (fun k => (iterF g0 k x).isSome = true)
      g0.nodes.length) x).isSome = true :=
    @Nat.findGreatest_spec 0 (fun k => (iterF g0 k x).isSome = true)
      (by infer_instance) g0.nodes.length (Nat.zero_le _) hP0
  set km := Nat.findGreatest (fun k => (iterF g0 k x).isSome = true) g0.nodes.length
    with hkmdef
  rcases Option.isSome_iff_exists.mp hPkm with ⟨r, hr⟩
  have hstop : iterF g0 (km + 1) x = none := by
    cases hnext : iterF g0 (km + 1) x with
    | none => rfl
    | some r2 =>
      have hP1 : (iterF g0 (km + 1) x).isSome = true := by rw [hnext]; rfl
      by_cases hle : km + 1 ≤ g0.nodes.length
      · exact absurd hP1 (Nat.findGreatest_is_greatest (Nat.lt_succ_self km) hle)
      · have hb := chain_length_le g0 hinv.acyclic x (km + 1) r2 hnext
        exact absurd hb hle
  have hpr : parentF g0 r = none := by
    cases hp : parentF g0 r with
    | none => rfl
    | some r2 =>
      have h2 : iterF g0 (km + 1) x = some r2 := by
        simp only [iterF]
        rw [hr, Option.some_bind]
        exact hp
      rw [hstop] at h2
      cases h2
  have hrs : (g0.get_node r).isSome := by
    cases hkm0 : km with
    | zero =>
      rw [hkm0] at hr
      have hxr : x = r := Option.some.inj hr
      rw [← hxr, hx]
      rfl
    | succ k =>
      rw [hkm0] at hr
      simp only [iterF] at hr
      cases hy : iterF g0 k x with
      | none => rw [hy] at hr; exact absurd hr (by simp)
      | some y =>
        rw [hy, Option.some_bind] at hr
        unfold parentF at hr
        cases hgy : g0.get_node y with
        | none => rw [hgy] at hr; exact absurd hr (by simp)
        | some ny =>
          rw [hgy, Option.some_bind] at hr
          exact hinv.parent_ex y ny r hgy hr
  rcases Option.isSome_iff_exists.mp hrs with ⟨nr, hnr⟩
  have hrparent : nr.parent = none := by
    unfold parentF at hpr
    rw [hnr, Option.some_bind] at hpr
    exact hpr
  exact ⟨r, (hinv.root_iff r nr hnr).mpr hrparent, iterF_desc g0 hinv km x r hr⟩

/-- Postcondition of the transform pass on one subtree: the subtree root's
world transform is the composition of the passed-down parent world with its
local transform, and every strictly deeper node's world transform is the
composition of its parent's (final) world transform with its own local
transform. -/
def WorldOK (g0 res : SceneGraph) (root : ℕ) (pw : Transform) : Prop :=
  ∀ x n', Desc g0 root x → res.get_node x = some n' →
    (x = root → n'.world_transform = compW pw n'._local_transform) ∧
    (x ≠ root → ∃ q qn', n'.parent = some q ∧ Desc g0 root q ∧
      res.get_node q = some qn' ∧
      n'.world_transform = compW qn'.world_transform n'._local_transform)

theorem utr_fold (g0 : SceneGraph) (fuel : ℕ)
    (IH : ∀ (g : SceneGraph) (id : ℕ) (pw : Transform),
      SameShape g0 g → (∀ x k, iterF g0 k x = some id → k < fuel) →
      (g.get_node id).isSome →
      SameShape g0 (SceneGraph.update_node_transform_recursive fuel g id pw) ∧
      (∀ x, ¬ Desc g0 id x →
        (SceneGraph.update_node_transform_recursive fuel g id pw).get_node x
          = g.get_node x) ∧
      WorldOK g0 (SceneGraph.update_node_transform_recursive fuel g id pw) id pw) :
    ∀ (cs : List ℕ) (wrld : Transform), cs.Nodup →
      (∀ c ∈ cs, (g0.get_node c).isSome) →
      (∀ c ∈ cs, ∀ x k, iterF g0 k x = some c → k < fuel) →
      (∀ c ∈ cs, ∀ c' ∈ cs, c ≠ c' → ∀ x, Desc g0 c x → Desc g0 c' x → False) →
      ∀ acc : SceneGraph, SameShape g0 acc →
        SameShape g0 (cs.foldl
          (fun a c => SceneGraph.update_node_transform_recursive fuel a c wrld) acc) ∧
        (∀ x, ¬ DescL g0 cs x →
          (cs.foldl (fun a c => SceneGraph.update_node_transform_recursive fuel a c wrld)
            acc).get_node x = acc.get_node x) ∧
        (∀ c ∈ cs, WorldOK g0
          (cs.foldl (fun a c => SceneGraph.update_node_transform_recursive fuel a c wrld)
            acc) c wrld) := by
  intro cs
  induction cs with
  | nil =>
    intro wrld _ _ _ _ acc hacc
    exact ⟨hacc, fun x _ => rfl, fun c hc => absurd hc (List.not_mem_nil c)⟩
  | cons c0 cs ih =>
    intro wrld hnd hex hfuel hdisj acc hacc
    rw [List.foldl_cons]
    have hc0ex : (acc.get_node c0).isSome :=
      (sameShape_isSome hacc c0).mpr (hex c0 (List.mem_cons_self c0 cs))
    have H1 := IH acc c0 wrld hacc (hfuel c0 (List.mem_cons_self c0 cs)) hc0ex
    have H2 := ih wrld hnd.of_cons (fun c hc => hex c (List.mem_cons_of_mem c0 hc))
      (fun c hc => hfuel c (List.mem_cons_of_mem c0 hc))
      (fun c hc c' hc' =>
        hdisj c (List.mem_cons_of_mem c0 hc) c' (List.mem_cons_of_mem c0 hc'))
      (SceneGraph.update_node_transform_recursive fuel acc c0 wrld) H1.1
    have hc0notin : c0 ∉ cs := (List.nodup_cons.mp hnd).1
    refine ⟨H2.1, ?_, ?_⟩
    · intro x hx
      have hx1 : ¬ DescL g0 cs x := by
        rintro ⟨c, hc, hd⟩
        exact hx ⟨c, List.mem_cons_of_mem c0 hc, hd⟩
      have hx0 : ¬ Desc g0 c0 x := fun hd => hx ⟨c0, List.mem_cons_self c0 cs, hd⟩
      rw [H2.2.1 x hx1]
      exact H1.2.1 x hx0
    · intro c hc
      rcases List.mem_cons.mp hc with heq | hc2
      · subst heq
        intro x n' hdx hx
        have hnotL : ¬ DescL g0 cs x := by
          rintro ⟨c', hc', hd'⟩
          exact hdisj c (List.mem_cons_self c cs) c' (List.mem_cons_of_mem c hc')
            (fun hcc => hc0notin (by rw [hcc]; exact hc')) x hdx hd'
        rw [H2.2.1 x hnotL] at hx
        have hres := H1.2.2 x n' hdx hx
        refine ⟨hres.1, ?_⟩
        intro hxc
        rcases hres.2 hxc with ⟨q, qn', hq, hdq, hgetq, hw⟩
        have hnotLq : ¬ DescL g0 cs q := by
          rintro ⟨c', hc', hd'⟩
          exact hdisj c (List.mem_cons_self c cs) c' (List.mem_cons_of_mem c hc')
            (fun hcc => hc0notin (by rw [hcc]; exact hc')) q hdq hd'
        exact ⟨q, qn', hq, hdq, by rw [H2.2.1 q hnotLq]; exact hgetq, hw⟩
      · exact H2.2.2 c hc2

theorem utr_correct :
    ∀ (fuel : ℕ) (g0 g : SceneGraph) (id : ℕ) (pw : Transform),
      InvA g0 → SameShape g0 g →
      (∀ x k, iterF g0 k x = some id → k < fuel) →
      (g.get_node id).isSome →
      SameShape g0 (SceneGraph.update_node_transform_recursive fuel g id pw) ∧
      (∀ x, ¬ Desc g0 id x →
        (SceneGraph.update_node_transform_recursive fuel g id pw).get_node x
          = g.get_node x) ∧
      WorldOK g0 (SceneGraph.update_node_transform_recursive fuel g id pw) id pw := by
  intro fuel
  induction fuel with
  | zero =>
    intro g0 g id pw _ _ hfuel _
    exact absurd (hfuel id 0 rfl) (Nat.not_lt_zero 0)
  | succ fuel IHf =>
    intro g0 g id pw hinv hsh hfuel hex
    have hM := MInv.of_invA hinv
    rcases Option.isSome_iff_exists.mp hex with ⟨nid, hnid⟩
    rcases sameShape_some hsh hnid with ⟨n0, hn0, he0⟩
    have hchd : nid.children = n0.children := by
      have h0 := congrArg SceneNode.children he0
      exact h0
    rw [utr_unfold fuel g id pw nid hnid, hchd]
    have hg1get_id : ({ g with nodes := (modifyN g.nodes id (fun node =>
        { node with world_transform := compW pw node._local_transform })) }
          : SceneGraph).get_node id
        = some { nid with world_transform := compW pw nid._local_transform } := by
      simp only [SceneGraph.get_node, lookupN_modifyN, if_pos rfl]
      rw [show lookupN g.nodes id = some nid from hnid]
      rfl
    have hg1get_ne : ∀ x, x ≠ id → ({ g with nodes := (modifyN g.nodes id (fun node =>
        { node with world_transform := compW pw node._local_transform })) }
          : SceneGraph).get_node x = g.get_node x := by
      intro x hx
      simp only [SceneGraph.get_node, lookupN_modifyN, if_neg hx]
    have hshape1 : SameShape g0 { g with nodes := (modifyN g.nodes id (fun node =>
        { node with world_transform := compW pw node._local_transform })) } := by
      refine ⟨hsh.1, hsh.2.1, ?_⟩
      show (modifyN g.nodes id (fun node =>
          { node with world_transform := compW pw node._local_transform })).map
            (fun kn => (kn.1, eraseW kn.2))
        = g0.nodes.map (fun kn => (kn.1, eraseW kn.2))
      rw [modifyN_mapVal eraseW
        (fun node => { node with world_transform := compW pw node._local_transform })
        (fun n => n) (fun n => rfl) g.nodes id, modifyN_id_fun]
      exact hsh.2.2
    have hexc : ∀ c ∈ n0.children, (g0.get_node c).isSome :=
      fun c hc => hinv.child_ex id n0 c hn0 hc
    have hfuelc : ∀ c ∈ n0.children, ∀ x k, iterF g0 k x = some c → k < fuel := by
      intro c hc x k hk
      rcases Option.isSome_iff_exists.mp (hexc c hc) with ⟨ncn, hncn⟩
      have hpc : parentF g0 c = some id := by
        simp [parentF, hncn, hinv.link_down id n0 c ncn hn0 hc hncn]
      have hk1 : iterF g0 (k + 1) x = some id := by
        simp only [iterF]
        rw [hk, Option.some_bind]
        exact hpc
      have h2 := hfuel x (k + 1) hk1
      omega
    have hdisj : ∀ c ∈ n0.children, ∀ c' ∈ n0.children, c ≠ c' →
        ∀ x, Desc g0 c x → Desc g0 c' x → False :=
      fun c hc c' hc' hne x h h' => desc_disjoint g0 hinv hn0 hc hc' hne h h'
    have hndch : n0.children.Nodup := hinv.child_nd id n0 hn0
    have HF := utr_fold g0 fuel
      (fun g' id' pw' hsh' hfl' hex' => IHf g0 g' id' pw' hinv hsh' hfl' hex')
      n0.children (compW pw nid._local_transform) hndch hexc hfuelc hdisj
      { g with nodes := (modifyN g.nodes id (fun node =>
          { node with world_transform := compW pw node._local_transform })) } hshape1
    have hdec : ∀ x, Desc g0 id x ↔ (x = id ∨ DescL g0 n0.children x) := by
      intro x
      rw [desc_root_cases hn0]
      exact Iff.rfl
    have hnot_id_in : ∀ x, DescL g0 n0.children x → x ≠ id := by
      rintro x ⟨c, hc, hd⟩
      exact desc_not_through hM hn0 hc hd
    refine ⟨HF.1, ?_, ?_⟩
    · intro x hx
      have hx1 : ¬ DescL g0 n0.children x := fun hL => hx ((hdec x).mpr (Or.inr hL))
      have hx0 : x ≠ id := fun hq => hx ((hdec x).mpr (Or.inl hq))
      rw [HF.2.1 x hx1]
      exact hg1get_ne x hx0
    · intro x n' hdx hx
      by_cases hxid : x = id
      · refine ⟨?_, fun hne => absurd hxid hne⟩
        intro _
        have hnotL : ¬ DescL g0 n0.children x := fun hL => (hnot_id_in x hL) hxid
        rw [HF.2.1 x hnotL, hxid, hg1get_id] at hx
        rw [← Option.some.inj hx]
      · refine ⟨fun hq => absurd hq hxid, ?_⟩
        intro _
        rcases (hdec x).mp hdx with hq | ⟨c, hc, hdc⟩
        · exact absurd hq hxid
        · have HW := HF.2.2 c hc x n' hdc hx
          by_cases hxc : x = c
          · have h1 := HW.1 hxc
            rcases sameShape_some HF.1 hx with ⟨ng0, hng0, heW⟩
            have hpar : n'.parent = ng0.parent := by
              have h0 := congrArg SceneNode.parent heW
              exact h0
            rcases Option.isSome_iff_exists.mp (hexc c hc) with ⟨ncn, hncn⟩
            have hng0c : ng0 = ncn := by
              rw [hxc] at hng0
              rw [hng0] at hncn
              exact Option.some.inj hncn
            have hpid : n'.parent = some id := by
              rw [hpar, hng0c]
              exact hinv.link_down id n0 c ncn hn0 hc hncn
            have hnotLid : ¬ DescL g0 n0.children id :=
              fun hL => (hnot_id_in id hL) rfl
            refine ⟨id, { nid with world_transform := compW pw nid._local_transform },
              hpid, Desc.refl, ?_, h1⟩
            rw [HF.2.1 id hnotLid]
            exact hg1get_id
          · rcases HW.2 hxc with ⟨q, qn', hq, hdq, hgetq, hw⟩
            exact ⟨q, qn', hq, desc_trans (Desc.step Desc.refl hn0 hc) hdq, hgetq, hw⟩

/-- `update_transforms` only rewrites world transforms, and afterwards every
root subtree satisfies the composition postcondition with the identity parent
transform. -/
theorem update_transforms_spec (g : SceneGraph) (hinv : InvA g) :
    SameShape g g.update_transforms ∧
    ∀ r ∈ g.root_nodes, WorldOK g g.update_transforms r Transform.new := by
  have hreset : SameShape g { g with nodes := (g.nodes.map (fun kn =>
      (kn.1, { kn.2 with world_transform := kn.2._local_transform }))) } := by
    refine ⟨rfl, rfl, ?_⟩
    show ((g.nodes.map (fun kn =>
        (kn.1, { kn.2 with world_transform := kn.2._local_transform }))).map
          (fun kn => (kn.1, eraseW kn.2)))
      = g.nodes.map (fun kn => (kn.1, eraseW kn.2))
    rw [List.map_map]
    rfl
  have hfold := utr_fold g (g.nodes.length + 1)
    (fun g' id' pw' hsh' hfl' hex' =>
      utr_correct (g.nodes.length + 1) g g' id' pw' hinv hsh' hfl' hex')
    g.root_nodes Transform.new hinv.roots_nodup
    (fun r hr => hinv.roots_sub r hr)
    (fun r _ x k hk => Nat.lt_succ_of_le (chain_length_le g hinv.acyclic x k r hk))
    (fun r hr r' hr' hne x h h' => root_disjoint g hinv hr hr' hne h h')
    { g with nodes := (g.nodes.map (fun kn =>
        (kn.1, { kn.2 with world_transform := kn.2._local_transform }))) } hreset
  exact ⟨hfold.1, hfold.2.2⟩

/-- The concrete scenario of claim C3: a root at position (10,0,0), scale
(2,2,2) with a child at local position (5,0,0), scale (1,1,1). -/
def c3example : SceneGraph :=
  let s1 := SceneGraph.new.create_node_with_transform "root"
    { position := ⟨10, 0, 0⟩, rotation := Quaternion.identity, scale := ⟨2, 2, 2⟩ }
  let s2 := s1.1.create_node_with_transform "child"
    { position := ⟨5, 0, 0⟩, rotation := Quaternion.identity, scale := ⟨1, 1, 1⟩ }
  (s2.1.parent 2 1).1

/-- Claim C3: after `update_transforms`, on any graph satisfying the
structural invariant, every node's world position is its parent's world
position plus its local position (additive, not rotated), its world rotation
is exactly its own local rotation (not inherited), and its world scale is the
component-wise product of its parent's world scale and its local scale; a
parentless (root) node gets the identity parent transform.  On the concrete
root/child example the child's world position is exactly (15,0,0) and its
world scale exactly (2,2,2). -/
theorem c3_transform_propagation :
    (∀ (g : SceneGraph), InvA g → ∀ x n,
      g.update_transforms.get_node x = some n →
      (n.parent = none →
        n.world_transform.position
          = Transform.new.position + n._local_transform.position ∧
        n.world_transform.rotation = n._local_transform.rotation ∧
        n.world_transform.scale
          = ⟨Transform.new.scale.x * n._local_transform.scale.x,
             Transform.new.scale.y * n._local_transform.scale.y,
             Transform.new.scale.z * n._local_transform.scale.z⟩) ∧
      (∀ q, n.parent = some q → ∃ pn,
        g.update_transforms.get_node q = some pn ∧
        n.world_transform.position
          = pn.world_transform.position + n._local_transform.position ∧
        n.world_transform.rotation = n._local_transform.rotation ∧
        n.world_transform.scale
          = ⟨pn.world_transform.scale.x * n._local_transform.scale.x,
             pn.world_transform.scale.y * n._local_transform.scale.y,
             pn.world_transform.scale.z * n._local_transform.scale.z⟩)) ∧
    ((c3example.update_transforms.get_node 2).map
        (fun n => (n.world_transform.position, n.world_transform.scale))
      = some (⟨15, 0, 0⟩, ⟨2, 2, 2⟩)) := by
  constructor
  · intro g hinv x n hx
    have hspec := update_transforms_spec g hinv
    rcases sameShape_some hspec.1 hx with ⟨nx, hnx, he⟩
    have hpar : n.parent = nx.parent := by
      have h0 := congrArg SceneNode.parent he
      exact h0
    rcases exists_root_anc g hinv x nx hnx with ⟨r, hrmem, hdrx⟩
    have HW := hspec.2 r hrmem x n hdrx hx
    constructor
    · intro hpn
      have hxr : x = r := by
        by_contra hne
        rcases HW.2 hne with ⟨q, qn', hq, -, -, -⟩
        rw [hpn] at hq
        cases hq
      have h1 := HW.1 hxr
      refine ⟨?_, ?_, ?_⟩ <;> (rw [h1]; rfl)
    · intro q hq
      have hxr : x ≠ r := by
        intro hxr
        rcases Option.isSome_iff_exists.mp (hinv.roots_sub r hrmem) with ⟨nr, hnr⟩
        have hnxr : nx = nr := by
          rw [hxr] at hnx
          rw [hnx] at hnr
          exact Option.some.inj hnr
        have hpn : nx.parent = none := by
          rw [hnxr]
          exact (hinv.root_iff r nr hnr).mp hrmem
        rw [hpar, hpn] at hq
        cases hq
      rcases HW.2 hxr with ⟨q', qn', hq', hdq, hgetq, hw⟩
      have hqq : q' = q := Option.some.inj (hq'.symm.trans hq)
      refine ⟨qn', by rw [← hqq]; exact hgetq, ?_, ?_, ?_⟩ <;> (rw [hw]; rfl)
  · norm_num [c3example, SceneGraph.new, SceneGraph.create_node_with_transform,
      SceneNode.with_transform, insertN, lookupN_nil, lookupN_cons,
      SceneGraph.parent, SceneGraph.would_create_cycle, cycleWalk,
      SceneGraph.get_node, modifyN, SceneGraph.update_transforms,
      SceneGraph.update_node_transform_recursive, lookupN, Transform.new,
      Vector3.add_def, Vector3.zero, Vector3.one, Quaternion.identity]

/-- Witness for `c3_transform_propagation`: the child of the concrete example
satisfies the parent-composition equations. -/
theorem c3_witness :
    ∃ n, c3example.update_transforms.get_node 2 = some n ∧ n.parent = some 1 ∧
      ∃ pn, c3example.update_transforms.get_node 1 = some pn ∧
        n.world_transform.position
          = pn.world_transform.position + n._local_transform.position ∧
        n.world_transform.rotation = n._local_transform.rotation := by
  have hinv : InvA c3example := by
    unfold c3example
    exact invA_parent _ 2 1
      (invA_create_with _ "child" _ (invA_create_with _ "root" _ invA_new))
  have hs : (c3example.update_transforms.get_node 2).isSome := by
    norm_num [c3example, SceneGraph.new, SceneGraph.create_node_with_transform,
      SceneNode.with_transform, insertN, lookupN_nil, lookupN_cons,
      SceneGraph.parent, SceneGraph.would_create_cycle, cycleWalk,
      SceneGraph.get_node, modifyN, SceneGraph.update_transforms,
      SceneGraph.update_node_transform_recursive, lookupN, Transform.new,
      Vector3.add_def, Vector3.zero, Vector3.one, Quaternion.identity]
  rcases Option.isSome_iff_exists.mp hs with ⟨n, hn⟩
  have hparmap : (c3example.update_transforms.get_node 2).map (fun m => m.parent)
      = some (some 1) := by
    norm_num [c3example, SceneGraph.new, SceneGraph.create_node_with_transform,
      SceneNode.with_transform, insertN, lookupN_nil, lookupN_cons,
      SceneGraph.parent, SceneGraph.would_create_cycle, cycleWalk,
      SceneGraph.get_node, modifyN, SceneGraph.update_transforms,
      SceneGraph.update_node_transform_recursive, lookupN, Transform.new,
      Vector3.add_def, Vector3.zero, Vector3.one, Quaternion.identity]
  have hpar : n.parent = some 1 := by
    rw [hn] at hparmap
    simpa using hparmap
  rcases (c3_transform_propagation.1 c3example hinv 2 n hn).2 1 hpar with
    ⟨pn, hpn, hpos, hrot, -⟩
  exact ⟨n, hn, hpar, pn, hpn, hpos, hrot⟩

end Diomanim
